import Mathlib

/-! render-auditlogs: the per-identity log processor

A shallow embedding of `pkg/processor/processor.go` (with the data types of
`pkg/render/client.go` and `pkg/aws/checkpoint.go`) and of the part of Go's
`time` package the processor uses.

* A `time.Time` is an instant (nanoseconds since the Unix epoch) together with the
  offset, in seconds east of UTC, of the zone the value is rendered in.
* The collaborators (`Uploader`, `auditlogs.Service`) are interfaces in the source;
  here they are arbitrary functions of an explicit collaborator state `σ`.
* Every collaborator call made by the processor is recorded, with its arguments and
  its answer, as a `Call`; a run of `Process` yields its outcome, the calls in the
  order they were made, and the final collaborator state.
* The `for { ... }` loop of `Process` is unbounded in the source; the embedding takes
  the maximal number of iterations as `fuel` and reports `Outcome.outOfFuel` when the
  loop has not left within it.
* Logging calls have no effect on the processor and are left out.
-/

namespace AuditLogs

/-! ## Go's `time` package -/

/-- Calendar date `(year, month, day)` of the day `z` days after 1970-01-01 in the
proleptic Gregorian calendar (the calendar of Go's `time` package). -/
def civilFromDays (z : Int) : Int × Int × Int :=
  let z1 := z + 719468
  let era := z1 / 146097
  let doe := z1 % 146097
  let c := min (doe / 36524) 3
  let r1 := doe - 36524 * c
  let q := r1 / 1461
  let r2 := r1 % 1461
  let t := min (r2 / 365) 3
  let doy := r2 - 365 * t
  let mp := (5 * doy + 2) / 153
  let d := doy - (153 * mp + 2) / 5 + 1
  let m := if mp < 10 then mp + 3 else mp - 9
  let y := 400 * era + 100 * c + 4 * q + t
  (if m ≤ 2 then y + 1 else y, m, d)

/-- Days from 1970-01-01 to the given calendar date. As in `time.Date`, a month
outside `1..12` carries into the year and the day counts on linearly. -/
def daysFromCivil (year month day : Int) : Int :=
  let y0 := year + (month - 1) / 12
  let m := (month - 1) % 12 + 1
  let y := if m ≤ 2 then y0 - 1 else y0
  let era := y / 400
  let yoe := y % 400
  let mp := if m > 2 then m - 3 else m + 9
  let doy := (153 * mp + 2) / 5 + day - 1
  let doe := yoe * 365 + yoe / 4 - yoe / 100 + doy
  era * 146097 + doe - 719468

/-- A `time.Time`: the instant and the zone offset it is rendered in. -/
structure Time where
  /-- Nanoseconds since 1970-01-01T00:00:00Z. -/
  unixNano : Int
  /-- Seconds east of UTC of the value's location at this instant. -/
  offset : Int
deriving DecidableEq, Repr

/-- A `time.Duration`, in nanoseconds. -/
abbrev Duration := Int

def Nanosecond : Duration := 1
def Second : Duration := 1000000000 * Nanosecond
def Minute : Duration := 60 * Second
def Hour : Duration := 60 * Minute

/-- The location `time.UTC`, as its offset. -/
def UTC : Int := 0

/-- Number of the calendar day, counted from 1970-01-01, that the value renders. -/
def Time.localDays (t : Time) : Int := (t.unixNano / 1000000000 + t.offset) / 86400

/-- `t.Year()`: year of the date rendered in the value's own zone. -/
def Time.Year (t : Time) : Int := (civilFromDays t.localDays).1

/-- `t.Month()`: month (1..12) of the date rendered in the value's own zone. -/
def Time.Month (t : Time) : Int := (civilFromDays t.localDays).2.1

/-- `t.Day()`: day of the month rendered in the value's own zone. -/
def Time.Day (t : Time) : Int := (civilFromDays t.localDays).2.2

/-- `time.Date(year, month, day, hour, min, sec, nsec, loc)` for a location of fixed offset. -/
def Date (year month day hour min sec nsec : Int) (loc : Int) : Time :=
  { unixNano :=
      (daysFromCivil year month day * 86400 + hour * 3600 + min * 60 + sec - loc) * 1000000000
        + nsec
    offset := loc }

/-- `t.Add(d)`: the instant moves by `d`, the location is kept. -/
def Time.Add (t : Time) (d : Duration) : Time := { t with unixNano := t.unixNano + d }

/-- `t.After(u)`: the instant of `t` is strictly later than that of `u`. -/
def Time.After (t u : Time) : Bool := decide (u.unixNano < t.unixNano)

/-! ## Data model (`pkg/render`, `pkg/aws`, `pkg/auditlogs`) -/

structure Actor where
  Type_ : String
  Email : String
  ID : String
deriving DecidableEq, Repr

structure AuditLog where
  ID : String
  Timestamp : Time
  Event : String
  Status : String
  Actor : Actor
  Metadata : List (String × String)
deriving DecidableEq, Repr

structure AuditLogEntry where
  Cursor : String
  AuditLog : AuditLog
deriving DecidableEq, Repr

/-- The state persisted between runs (`aws.Checkpoint`). -/
structure Checkpoint where
  LastCursor : String
  LastTimestamp : Time
deriving DecidableEq, Repr

/-- The `auditlogs.LogType`, a string. -/
abbrev LogType := String

/-- A Go `error`, by its message. -/
abbrev Error := String

/-- The `processor.Uploader` interface over a collaborator state `σ`. -/
structure Uploader (σ : Type) where
  LoadCheckpoint : LogType → String → σ → Except Error (Option Checkpoint) × σ
  SaveCheckpoint : Checkpoint → LogType → String → σ → Option Error × σ
  UploadAuditLogs : LogType → String → List AuditLogEntry → σ → Except Error String × σ

/-- The `auditlogs.Service` interface over a collaborator state `σ`; `logType` is the
value its `Type()` method returns. -/
structure Service (σ : Type) where
  Get : String → String → Int → σ → Except Error (List AuditLogEntry) × σ
  logType : LogType

structure LogProcessor (σ : Type) where
  uploader : Uploader σ
  auditLogSvc : Service σ

def pageSize : Int := 1000

/-! ## Recorded collaborator calls -/

/-- One collaborator call: its arguments and what it answered. -/
inductive Call where
  | load (logType : LogType) (id : String) (res : Except Error (Option Checkpoint))
  | fetch (id cursor : String) (limit : Int) (res : Except Error (List AuditLogEntry))
  | upload (logType : LogType) (id : String) (data : List AuditLogEntry) (res : Except Error String)
  | save (cp : Checkpoint) (logType : LogType) (id : String) (res : Option Error)

/-- A value computed with collaborator calls: the value, the calls made (in order)
and the collaborator state afterwards. -/
structure Eff (σ α : Type) where
  val : α
  calls : List Call
  state : σ

/-! ## `pkg/processor/processor.go` -/

variable {σ : Type}

def getLastCheckpoint (lp : LogProcessor σ) (id : String) (s : σ) :
    Eff σ (Except Error (Option Checkpoint)) :=
  match lp.uploader.LoadCheckpoint lp.auditLogSvc.logType id s with
  | (.error err, s1) => ⟨.error err, [Call.load lp.auditLogSvc.logType id (.error err)], s1⟩
  | (.ok checkpoint, s1) =>
    ⟨.ok checkpoint, [Call.load lp.auditLogSvc.logType id (.ok checkpoint)], s1⟩

def updateLastCheckpoint (lp : LogProcessor σ) (id : String) (cp : Checkpoint) (s : σ) :
    Eff σ (Option Error) :=
  match lp.uploader.SaveCheckpoint cp lp.auditLogSvc.logType id s with
  | (some err, s1) =>
    ⟨some ("error saving checkpoint: " ++ err), [Call.save cp lp.auditLogSvc.logType id (some err)], s1⟩
  | (none, s1) => ⟨none, [Call.save cp lp.auditLogSvc.logType id none], s1⟩

/-- The slice `auditLogs[lo:hi]`. -/
def slice (auditLogs : List AuditLogEntry) (lo hi : Nat) : List AuditLogEntry :=
  (auditLogs.drop lo).take (hi - lo)

/-- The `for i, auditLog := range auditLogs` loop of `processPage`, entered at index
`i` with the entries from `i` on still to scan. It answers the error of a failed
upload, or the final `windowStart` and `cursorDay`. -/
def windowLoop (lp : LogProcessor σ) (id : String) (auditLogs : List AuditLogEntry) :
    List AuditLogEntry → Nat → Nat → Time → σ → Eff σ (Except Error (Nat × Time))
  | [], _, windowStart, cursorDay, s => ⟨.ok (windowStart, cursorDay), [], s⟩
  | auditLog :: rest, i, windowStart, cursorDay, s =>
    if auditLog.AuditLog.Timestamp.After (cursorDay.Add (24 * Hour)) then
      let data := slice auditLogs windowStart i
      match lp.uploader.UploadAuditLogs lp.auditLogSvc.logType id data s with
      | (.error err, s1) =>
        ⟨.error err, [Call.upload lp.auditLogSvc.logType id data (.error err)], s1⟩
      | (.ok s3URI, s1) =>
        let r := windowLoop lp id auditLogs rest (i + 1) i (cursorDay.Add (Hour * 24)) s1
        ⟨r.val, Call.upload lp.auditLogSvc.logType id data (.ok s3URI) :: r.calls, r.state⟩
    else
      windowLoop lp id auditLogs rest (i + 1) windowStart cursorDay s

/-- The initial `cursorDay` of `processPage` for a page whose first entry is `first`:
`time.Date(ts.Year(), ts.Month(), ts.Day(), 0, 0, 0, 0, time.UTC)` for its timestamp `ts`. -/
def anchorOf (first : AuditLogEntry) : Time :=
  Date first.AuditLog.Timestamp.Year first.AuditLog.Timestamp.Month
    first.AuditLog.Timestamp.Day 0 0 0 0 UTC

/-- The part of `processPage` that follows the fetch of a non-empty page whose first
entry is `first`: the anchor, the scan, and the upload of the final window. -/
def uploadWindows (lp : LogProcessor σ) (id : String) (first : AuditLogEntry)
    (auditLogs : List AuditLogEntry) (s : σ) : Eff σ (Except Error (Option AuditLogEntry)) :=
  let cursorDay := anchorOf first
  let w := windowLoop lp id auditLogs auditLogs 0 0 cursorDay s
  match w.val with
  | .error err => ⟨.error err, w.calls, w.state⟩
  | .ok (windowStart, _) =>
    if (auditLogs.drop windowStart).length > 0 then
      let data := auditLogs.drop windowStart
      match lp.uploader.UploadAuditLogs lp.auditLogSvc.logType id data w.state with
      | (.error err, s1) =>
        ⟨.error err, w.calls ++ [Call.upload lp.auditLogSvc.logType id data (.error err)], s1⟩
      | (.ok s3URI, s1) =>
        ⟨.ok auditLogs.getLast?,
          w.calls ++ [Call.upload lp.auditLogSvc.logType id data (.ok s3URI)], s1⟩
    else
      ⟨.ok auditLogs.getLast?, w.calls, w.state⟩

/-- The method `processPage`: it answers an error, `nil` (here `none`) for an empty
page, or the last entry of the page. -/
def processPage (lp : LogProcessor σ) (id : String) (cursor : String) (s : σ) :
    Eff σ (Except Error (Option AuditLogEntry)) :=
  match lp.auditLogSvc.Get id cursor pageSize s with
  | (.error err, s1) =>
    ⟨.error ("error fetching audit logs " ++ err), [Call.fetch id cursor pageSize (.error err)], s1⟩
  | (.ok auditLogs, s1) =>
    match auditLogs with
    | [] => ⟨.ok none, [Call.fetch id cursor pageSize (.ok [])], s1⟩
    | first :: _ =>
      let u := uploadWindows lp id first auditLogs s1
      ⟨u.val, Call.fetch id cursor pageSize (.ok auditLogs) :: u.calls, u.state⟩

/-- The `for { ... }` loop of `Process`, run for at most `fuel` iterations from the
given `cursor` and `finalAuditLog`. It answers `none` when the loop has not left within
the fuel, the wrapped error of a failed page, or the `finalAuditLog` at the `break`. -/
def pageLoop (lp : LogProcessor σ) (id : String) :
    Nat → String → Option AuditLogEntry → σ → Eff σ (Option (Except Error (Option AuditLogEntry)))
  | 0, _, _, s => ⟨none, [], s⟩
  | fuel + 1, cursor, finalAuditLog, s =>
    let p := processPage lp id cursor s
    match p.val with
    | .error err => ⟨some (.error ("error processing workspace page: " ++ err)), p.calls, p.state⟩
    | .ok none => ⟨some (.ok finalAuditLog), p.calls, p.state⟩
    | .ok (some lastAuditLog) =>
      let r := pageLoop lp id fuel lastAuditLog.Cursor (some lastAuditLog) p.state
      ⟨r.val, p.calls ++ r.calls, r.state⟩

/-- How a run of `Process` ends: it returns (`nil` is `none`), or the loop is still
running when the fuel is used up. -/
inductive Outcome where
  | returned (err : Option Error)
  | outOfFuel
deriving DecidableEq, Repr

/-- A run of `Process`: outcome, collaborator calls in order, final collaborator state. -/
structure Run (σ : Type) where
  outcome : Outcome
  trace : List Call
  state : σ

/-- The cursor `Process` starts from: `""`, replaced by `checkpoint.LastCursor` when
`LoadCheckpoint` answered a checkpoint. -/
def startCursor (checkpoint : Option Checkpoint) : String :=
  match checkpoint with
  | some cp => cp.LastCursor
  | none => ""

/-- The method `Process`, with at most `fuel` iterations of its loop. -/
def Process (lp : LogProcessor σ) (id : String) (fuel : Nat) (s : σ) : Run σ :=
  let l := getLastCheckpoint lp id s
  match l.val with
  | .error err => ⟨.returned (some err), l.calls, l.state⟩
  | .ok checkpoint =>
    let cursor := startCursor checkpoint
    let r := pageLoop lp id fuel cursor none l.state
    match r.val with
    | none => ⟨.outOfFuel, l.calls ++ r.calls, r.state⟩
    | some (.error err) => ⟨.returned (some err), l.calls ++ r.calls, r.state⟩
    | some (.ok none) => ⟨.returned none, l.calls ++ r.calls, r.state⟩
    | some (.ok (some finalAuditLog)) =>
      let newCheckpoint : Checkpoint :=
        { LastCursor := finalAuditLog.Cursor
          LastTimestamp := finalAuditLog.AuditLog.Timestamp }
      let u := updateLastCheckpoint lp id newCheckpoint r.state
      ⟨.returned u.val, l.calls ++ r.calls ++ u.calls, u.state⟩

/-! ## Observations on a trace -/

/-- The call answered with an error. -/
def Call.failed : Call → Bool
  | .load _ _ (.error _) => true
  | .fetch _ _ _ (.error _) => true
  | .upload _ _ _ (.error _) => true
  | .save _ _ _ (some _) => true
  | _ => false

def Call.isFetch : Call → Bool
  | .fetch _ _ _ _ => true
  | _ => false

def Call.isUpload : Call → Bool
  | .upload _ _ _ _ => true
  | _ => false

def Call.isSave : Call → Bool
  | .save _ _ _ _ => true
  | _ => false

/-- The slices passed to `UploadAuditLogs`, in call order. -/
def uploads (tr : List Call) : List (List AuditLogEntry) :=
  tr.filterMap fun c =>
    match c with
    | .upload _ _ data _ => some data
    | _ => none

/-- The checkpoints passed to `SaveCheckpoint`, in call order. -/
def saves (tr : List Call) : List Checkpoint :=
  tr.filterMap fun c =>
    match c with
    | .save cp _ _ _ => some cp
    | _ => none

/-- The pages answered by the fetches that succeeded, in call order. -/
def pages (tr : List Call) : List (List AuditLogEntry) :=
  tr.filterMap fun c =>
    match c with
    | .fetch _ _ _ (.ok page) => some page
    | _ => none

/-- A fetch as the source saw it: identity, cursor, limit, and the answer. -/
structure FetchCall where
  id : String
  cursor : String
  limit : Int
  res : Except Error (List AuditLogEntry)

/-- The fetches of a trace, in call order. -/
def fetchCalls (tr : List Call) : List FetchCall :=
  tr.filterMap fun c =>
    match c with
    | .fetch id cursor limit res => some ⟨id, cursor, limit, res⟩
    | _ => none

/-! ## The collaborators of `processor_test.go` -/

/-- The mutable fields of `mockUploader`. -/
structure MockState where
  lastCheckpoint : Option Checkpoint
  numUploads : Nat
deriving DecidableEq, Repr

/-- The `mockUploader` of the tests; `s3Error` is its configured error. -/
def mockUploader (s3Error : Option Error) : Uploader MockState where
  LoadCheckpoint := fun _ _ m =>
    match s3Error with
    | some err => (.error err, m)
    | none => (.ok m.lastCheckpoint, m)
  SaveCheckpoint := fun cp _ _ m => (s3Error, { m with lastCheckpoint := some cp })
  UploadAuditLogs := fun _ _ _ m =>
    match s3Error with
    | some err => (.error err, m)
    | none => (.ok "s3://bucket/key", { m with numUploads := m.numUploads + 1 })

/-- The search loop of `mockAuditLogService.Get`: the page after the first entry, from
index `i` on, whose cursor is `cursor`. -/
def mockGetFrom (auditLogs : List AuditLogEntry) (cursor : String) :
    List AuditLogEntry → Nat → Option (List AuditLogEntry)
  | [], _ => none
  | auditLog :: rest, i =>
    if auditLog.Cursor = cursor then
      some (slice auditLogs (i + 1) (min (i + 1001) auditLogs.length))
    else mockGetFrom auditLogs cursor rest (i + 1)

/-- The `mockAuditLogService` of the tests. -/
def mockAuditLogService (auditLogs : List AuditLogEntry) (logType : LogType)
    (renderError : Option Error) : Service MockState where
  Get := fun _ cursor _ m =>
    match renderError with
    | some err => (.error err, m)
    | none =>
      match mockGetFrom auditLogs cursor auditLogs 0 with
      | some page => (.ok page, m)
      | none => (.ok (slice auditLogs 0 (min auditLogs.length 1000)), m)
  logType := logType

/-- The entry `CreateTestAuditLogs` builds, for a given cursor and timestamp. -/
def testEntry (cursor : String) (timestamp : Time) : AuditLogEntry :=
  { Cursor := cursor
    AuditLog :=
      { ID := "aud-" ++ cursor
        Timestamp := timestamp
        Event := "LoginEvent"
        Status := "success"
        Actor := { Type_ := "user", Email := "test@example.com", ID := "user-1" }
        Metadata := [] } }

/-! ## The fixtures of `processor_test.go` -/

/-- The loop of `CreateTestAuditLogs`: entry `i` is stamped `i` minutes after `date`.
The ids, drawn at random in the source, are given. -/
def CreateTestAuditLogsFrom (date : Time) : List String → Nat → List AuditLogEntry
  | [], _ => []
  | id :: ids, i => testEntry id (date.Add ((i : Int) * Minute)) :: CreateTestAuditLogsFrom date ids (i + 1)

/-- The helper `CreateTestAuditLogs` of `pkg/testhelpers`, one entry per id. -/
def CreateTestAuditLogs (ids : List String) (date : Time) : List AuditLogEntry :=
  CreateTestAuditLogsFrom date ids 0

/-- Go's zero `time.Time`, 0001-01-01T00:00:00Z. -/
def zeroTime : Time := Date 1 1 1 0 0 0 0 UTC

/-- A day standing for `today()` in the tests. -/
def testDay : Time := Date 2024 1 15 0 0 0 0 UTC

/-- The processor of the tests: `mockUploader` and `mockAuditLogService` for workspaces. -/
def testProcessor (auditLogs : List AuditLogEntry) (s3Error renderError : Option Error) :
    LogProcessor MockState :=
  ⟨mockUploader s3Error, mockAuditLogService auditLogs "workspace" renderError⟩

/-- The uploader state the tests start from: checkpoint `{LastCursor: "0"}`, no upload. -/
def testStart : MockState := ⟨some ⟨"0", zeroTime⟩, 0⟩

/-- The three entries of `LogsWithinSameDay`. -/
def sameDayLogs : List AuditLogEntry := CreateTestAuditLogs ["id-1", "id-2", "id-3"] testDay

/-- The day before `testDay`, the `today().AddDate(0, 0, -1)` of `MultipleDays`. -/
def testDayBefore : Time := Date 2024 1 14 0 0 0 0 UTC

/-- The page of `MultipleDays` with one entry per day instead of three: one entry at
00:00:00 UTC of the day before and one at 00:00:00 UTC of the day. -/
def midnightLogs : List AuditLogEntry :=
  CreateTestAuditLogs ["id-1"] testDayBefore ++ CreateTestAuditLogs ["id-2"] testDay

/-- The six entries of `MultipleDays`. -/
def multipleDaysLogs : List AuditLogEntry :=
  CreateTestAuditLogs ["id-1", "id-2", "id-3"] testDayBefore
    ++ CreateTestAuditLogs ["id-4", "id-5", "id-6"] testDay

/-- An entry stamped 2024-01-01T23:30:00-05:00, that is 2024-01-02T04:30:00Z. -/
def offsetEntry : AuditLogEntry := testEntry "id-1" (Date 2024 1 1 23 30 0 0 (-18000))

/-! ## The day windows of a page, without the uploads -/

/-- The scan of `windowLoop` with the uploads taken out: the slices it closes, in
order, and the final `windowStart`. -/
def scanWindows (auditLogs : List AuditLogEntry) :
    List AuditLogEntry → Nat → Nat → Time → List (List AuditLogEntry) × Nat
  | [], _, windowStart, _ => ([], windowStart)
  | auditLog :: rest, i, windowStart, cursorDay =>
    if auditLog.AuditLog.Timestamp.After (cursorDay.Add (24 * Hour)) then
      let r := scanWindows auditLogs rest (i + 1) i (cursorDay.Add (Hour * 24))
      (slice auditLogs windowStart i :: r.1, r.2)
    else
      scanWindows auditLogs rest (i + 1) windowStart cursorDay

/-- Every slice `processPage` hands to `UploadAuditLogs` for a page when no upload
fails: the slices the scan closes, then the final window. -/
def windows (auditLogs : List AuditLogEntry) : List (List AuditLogEntry) :=
  match auditLogs with
  | [] => []
  | first :: _ =>
    let r := scanWindows auditLogs auditLogs 0 0 (anchorOf first)
    if (auditLogs.drop r.2).length > 0 then r.1 ++ [auditLogs.drop r.2] else r.1

/-! ## The shape of a trace -/

/-- Every call of the list is an `UploadAuditLogs` call for `logType` and `id` that succeeded. -/
def UploadsOk (logType : LogType) (id : String) (tr : List Call) : Prop :=
  ∀ c ∈ tr, ∃ data s3URI, c = Call.upload logType id data (.ok s3URI)

/-- The calls of the loop of `Process` entered with `cursor` and `finalAuditLog`, and
what the loop answers. -/
inductive LoopTrace (logType : LogType) (id : String) :
    String → Option AuditLogEntry → List Call →
      Option (Except Error (Option AuditLogEntry)) → Prop
  | outOfFuel (cursor : String) (fin : Option AuditLogEntry) :
      LoopTrace logType id cursor fin [] none
  | fetchFailed (cursor : String) (fin : Option AuditLogEntry) (err : Error) :
      LoopTrace logType id cursor fin [Call.fetch id cursor pageSize (.error err)]
        (some (.error ("error processing workspace page: " ++ ("error fetching audit logs " ++ err))))
  | drained (cursor : String) (fin : Option AuditLogEntry) :
      LoopTrace logType id cursor fin [Call.fetch id cursor pageSize (.ok [])] (some (.ok fin))
  | uploadFailed (cursor : String) (fin : Option AuditLogEntry) (page : List AuditLogEntry)
      (ups : List Call) (data : List AuditLogEntry) (err : Error)
      (hne : page ≠ []) (hups : UploadsOk logType id ups)
      (hpre : uploads ups ++ [data] <+: windows page) :
      LoopTrace logType id cursor fin
        (Call.fetch id cursor pageSize (.ok page) :: (ups ++ [Call.upload logType id data (.error err)]))
        (some (.error ("error processing workspace page: " ++ err)))
  | page (cursor : String) (fin : Option AuditLogEntry) (page : List AuditLogEntry)
      (last : AuditLogEntry) (ups rest : List Call)
      (res : Option (Except Error (Option AuditLogEntry)))
      (hlast : page.getLast? = some last) (hups : UploadsOk logType id ups)
      (hw : uploads ups = windows page)
      (hrest : LoopTrace logType id last.Cursor (some last) rest res) :
      LoopTrace logType id cursor fin (Call.fetch id cursor pageSize (.ok page) :: (ups ++ rest)) res

/-- The calls of a run of `Process` and its outcome. -/
inductive ProcessTrace (logType : LogType) (id : String) : List Call → Outcome → Prop
  | loadFailed (err : Error) :
      ProcessTrace logType id [Call.load logType id (.error err)] (.returned (some err))
  | outOfFuel (checkpoint : Option Checkpoint) (loop : List Call)
      (h : LoopTrace logType id (startCursor checkpoint) none loop none) :
      ProcessTrace logType id (Call.load logType id (.ok checkpoint) :: loop) .outOfFuel
  | pageFailed (checkpoint : Option Checkpoint) (loop : List Call) (err : Error)
      (h : LoopTrace logType id (startCursor checkpoint) none loop (some (.error err))) :
      ProcessTrace logType id (Call.load logType id (.ok checkpoint) :: loop) (.returned (some err))
  | nothingSeen (checkpoint : Option Checkpoint) (loop : List Call)
      (h : LoopTrace logType id (startCursor checkpoint) none loop (some (.ok none))) :
      ProcessTrace logType id (Call.load logType id (.ok checkpoint) :: loop) (.returned none)
  | saved (checkpoint : Option Checkpoint) (loop : List Call) (fin : AuditLogEntry)
      (res : Option Error)
      (h : LoopTrace logType id (startCursor checkpoint) none loop (some (.ok (some fin)))) :
      ProcessTrace logType id
        (Call.load logType id (.ok checkpoint) ::
          (loop ++ [Call.save ⟨fin.Cursor, fin.AuditLog.Timestamp⟩ logType id res]))
        (.returned (res.map fun err => "error saving checkpoint: " ++ err))

/-- The final entry the loop answers, given the one it was entered with and the
non-empty pages it fetched. -/
def finalOf (fin : Option AuditLogEntry) (ps : List (List AuditLogEntry)) : Option AuditLogEntry :=
  match ps.getLast? with
  | none => fin
  | some p => p.getLast?

/-- The fetches `fs` are made for `id` with limit `pageSize`, the first with `cursor`,
each later one with the cursor of the last entry of the page fetched before it. -/
def Chained (id : String) : String → List FetchCall → Prop
  | _, [] => True
  | cursor, f :: rest =>
    f.id = id ∧ f.cursor = cursor ∧ f.limit = pageSize ∧
      (rest = [] ∨ ∃ page last, f.res = .ok (page ++ [last]) ∧ Chained id last.Cursor rest)

/-! ## Go's formatting of integers and of a timestamp -/

/-- The decimal digit `d` as a character. -/
def digitChar (d : Nat) : Char :=
  match d with
  | 0 => '0'
  | 1 => '1'
  | 2 => '2'
  | 3 => '3'
  | 4 => '4'
  | 5 => '5'
  | 6 => '6'
  | 7 => '7'
  | 8 => '8'
  | _ => '9'

/-- The decimal digits of `n`, least significant first, at most `fuel` of them. -/
def digitsRev : Nat → Nat → List Nat
  | 0, _ => []
  | fuel + 1, n => if n < 10 then [n] else n % 10 :: digitsRev fuel (n / 10)

/-- The number written by decimal digits given least significant first. -/
def valueRev : List Nat → Nat
  | [] => 0
  | d :: ds => d + 10 * valueRev ds

/-- The decimal numeral of `n`, without leading zeros. -/
def decimal (n : Nat) : List Char := (digitsRev (n + 1) n).reverse.map digitChar

/-- The verb `%d` of `fmt.Sprintf` on an `int`: a minus sign when negative, then the
decimal numeral. -/
def itoa (x : Int) : String :=
  if x < 0 then String.mk ('-' :: decimal (-x).toNat) else String.mk (decimal x.toNat)

/-- The helper `appendInt(b, x, width)` of `time.Format`: a minus sign when negative,
then the decimal numeral padded with zeros to `width` digits. -/
def appendInt (x : Int) (width : Nat) : String :=
  if x < 0 then
    String.mk ('-' :: (List.replicate (width - (decimal (-x).toNat).length) '0'
      ++ decimal (-x).toNat))
  else
    String.mk (List.replicate (width - (decimal x.toNat).length) '0' ++ decimal x.toNat)

/-- Seconds since the local midnight of the value's own zone. -/
def Time.secondOfDay (t : Time) : Int := (t.unixNano / 1000000000 + t.offset) % 86400

/-- `t.Hour()`, in `0..23`. -/
def Time.Hour (t : Time) : Int := t.secondOfDay / 3600

/-- `t.Minute()`, in `0..59`. -/
def Time.Minute (t : Time) : Int := t.secondOfDay % 3600 / 60

/-- `t.Second()`, in `0..59`. -/
def Time.Second (t : Time) : Int := t.secondOfDay % 60

/-- `t.Format("2006-01-02_15-04-05")`: year on four digits, the other fields on two. -/
def Time.Format_2006_01_02_15_04_05 (t : Time) : String :=
  appendInt t.Year 4 ++ "-" ++ appendInt t.Month 2 ++ "-" ++ appendInt t.Day 2 ++ "_"
    ++ appendInt t.Hour 2 ++ "-" ++ appendInt t.Minute 2 ++ "-" ++ appendInt t.Second 2

/-! ## `pkg/auditlogs/service.go` -/

namespace auditlogs

def auditLogsEndpoint : String := "/audit-logs"

def WorkspaceAuditLog : LogType := "workspace"

def OrganizationAuditLog : LogType := "organization"

/-- The interface `RenderClient` over a collaborator state `σ`. -/
structure RenderClient (σ : Type) where
  GetAuditLogs : String → String → Int → σ → Except Error (List AuditLogEntry) × σ

structure WorkspaceSvc (σ : Type) where
  client : RenderClient σ

/-- `fmt.Sprintf("/owners/%s%s", id, auditLogsEndpoint)`, handed to the client. -/
def WorkspaceSvc.Get (w : WorkspaceSvc σ) (id cursor : String) (limit : Int) (s : σ) :
    Except Error (List AuditLogEntry) × σ :=
  let endpoint := "/owners/" ++ id ++ auditLogsEndpoint
  w.client.GetAuditLogs endpoint cursor limit s

def WorkspaceSvc.Type_ (_ : WorkspaceSvc σ) : LogType := WorkspaceAuditLog

structure OrganizationSvc (σ : Type) where
  client : RenderClient σ

/-- `fmt.Sprintf("/organizations/%s%s", id, auditLogsEndpoint)`, handed to the client. -/
def OrganizationSvc.Get (o : OrganizationSvc σ) (id cursor : String) (limit : Int) (s : σ) :
    Except Error (List AuditLogEntry) × σ :=
  let endpoint := "/organizations/" ++ id ++ auditLogsEndpoint
  o.client.GetAuditLogs endpoint cursor limit s

def OrganizationSvc.Type_ (_ : OrganizationSvc σ) : LogType := OrganizationAuditLog

/-- The constructor `NewWorkspaceSvc`: the workspace service as a `Service`. -/
def NewWorkspaceSvc (client : RenderClient σ) : Service σ :=
  { Get := WorkspaceSvc.Get ⟨client⟩, logType := WorkspaceSvc.Type_ (⟨client⟩ : WorkspaceSvc σ) }

/-- The constructor `NewOrganizationSvc`: the organization service as a `Service`. -/
def NewOrganizationSvc (client : RenderClient σ) : Service σ :=
  { Get := OrganizationSvc.Get ⟨client⟩
    logType := OrganizationSvc.Type_ (⟨client⟩ : OrganizationSvc σ) }

end auditlogs

/-! ## `pkg/aws/uploader.go`, `pkg/aws/checkpoint.go` -/

namespace aws

/-- The bytes of an object body. -/
abbrev Bytes := String

structure UploaderOptions where
  UseKMS : Bool
  KMSKeyID : String
  BucketKeyEnabled : Bool
deriving DecidableEq, Repr

/-- The value `types.ServerSideEncryptionAes256`. -/
def ServerSideEncryptionAes256 : String := "AES256"

/-- The value `types.ServerSideEncryptionAwsKms`. -/
def ServerSideEncryptionAwsKms : String := "aws:kms"

/-- The fields of `s3.PutObjectInput` the uploader sets; a pointer field left `nil` is
`none`, the string-typed `ServerSideEncryption` left unset is `""`. -/
structure PutObjectInput where
  Bucket : Option String
  Key : Option String
  Body : Bytes
  ContentType : Option String
  ServerSideEncryption : String
  SSEKMSKeyId : Option String
  BucketKeyEnabled : Option Bool
deriving DecidableEq, Repr

structure GetObjectInput where
  Bucket : Option String
  Key : Option String
deriving DecidableEq, Repr

/-- An error answered by `GetObject`: whether `errors.As` finds a `*types.NoSuchKey` in
it, and its message. -/
structure GetError where
  noSuchKey : Bool
  message : Error
deriving DecidableEq, Repr

/-- The interface `S3Client` over a collaborator state `σ`. A successful `GetObject`
answers what `io.ReadAll` makes of the body: its bytes, or a read error. -/
structure S3Client (σ : Type) where
  GetObject : GetObjectInput → σ → Except GetError (Except Error Bytes) × σ
  PutObject : PutObjectInput → σ → Option Error × σ

/-- The encoders the uploader calls from `encoding/json` and `compress/gzip`. -/
structure Codec where
  /-- `json.Marshal(data)` on audit log entries. -/
  marshalLogs : List AuditLogEntry → Except Error Bytes
  /-- `gzWriter.Write(jsonData)`: the error, if any. -/
  gzipWrite : Bytes → Option Error
  /-- `gzWriter.Close()`: the error, or the compressed bytes then in the buffer. -/
  gzipClose : Bytes → Except Error Bytes
  /-- `json.MarshalIndent(cp, "", "  ")` on a checkpoint. -/
  marshalCheckpoint : Checkpoint → Except Error Bytes
  /-- `json.Unmarshal(data, &cp)` into a checkpoint. -/
  unmarshalCheckpoint : Bytes → Except Error Checkpoint

structure Uploader (σ : Type) where
  client : S3Client σ
  bucket : String
  opts : UploaderOptions
  codec : Codec

/-- A request the uploader made to the S3 client, and what it answered. -/
inductive Request where
  | get (input : GetObjectInput) (res : Except GetError (Except Error Bytes))
  | put (input : PutObjectInput) (res : Option Error)

/-- How a method of the uploader ends: with its results, or in the runtime panic of an
index out of range. -/
inductive Ending (α : Type) where
  | returned (a : α)
  | indexOutOfRange
deriving DecidableEq, Repr

/-- A method call on the uploader: how it ends, the requests made, the client state. -/
structure Sent (σ α : Type) where
  ending : Ending α
  requests : List Request
  state : σ

def checkpointKey : String := "checkpoint.json"

/-- The function `generateS3Key`. -/
def generateS3Key (auditLogType : LogType) (id : String) (timestamp : Time) : String :=
  let filename := "audit-logs-" ++ timestamp.Format_2006_01_02_15_04_05 ++ ".json.gz"
  auditLogType ++ "=" ++ id ++ "/year=" ++ itoa timestamp.Year ++ "/month=" ++ itoa timestamp.Month
    ++ "/day=" ++ itoa timestamp.Day ++ "/" ++ filename

/-- The request `UploadAuditLogs` builds: the four fields of the literal, then the
server-side encryption set from the options. -/
def uploadInput (u : Uploader σ) (key : String) (compressedData : Bytes) : PutObjectInput :=
  let putInput : PutObjectInput :=
    { Bucket := some u.bucket
      Key := some key
      Body := compressedData
      ContentType := some "application/gzip"
      ServerSideEncryption := ""
      SSEKMSKeyId := none
      BucketKeyEnabled := none }
  if u.opts.UseKMS then
    let putInput := { putInput with ServerSideEncryption := ServerSideEncryptionAwsKms }
    let putInput :=
      if u.opts.KMSKeyID ≠ "" then { putInput with SSEKMSKeyId := some u.opts.KMSKeyID }
      else putInput
    if u.opts.BucketKeyEnabled then { putInput with BucketKeyEnabled := some true }
    else putInput
  else
    { putInput with ServerSideEncryption := ServerSideEncryptionAes256 }

/-- The method `UploadAuditLogs`: it answers `(s3URI, nil)` as `.ok s3URI` and
`("", err)` as `.error err`. The index `data[0]` panics on an empty slice. -/
def Uploader.UploadAuditLogs (u : Uploader σ) (auditLogType : LogType) (id : String)
    (data : List AuditLogEntry) (s : σ) : Sent σ (Except Error String) :=
  match u.codec.marshalLogs data with
  | .error err => ⟨.returned (.error ("error marshaling JSON: " ++ err)), [], s⟩
  | .ok jsonData =>
    match u.codec.gzipWrite jsonData with
    | some err => ⟨.returned (.error ("error compressing data: " ++ err)), [], s⟩
    | none =>
      match u.codec.gzipClose jsonData with
      | .error err => ⟨.returned (.error ("error closing gzip writer: " ++ err)), [], s⟩
      | .ok compressedData =>
        match data with
        | [] => ⟨.indexOutOfRange, [], s⟩
        | first :: _ =>
          let key := generateS3Key auditLogType id first.AuditLog.Timestamp
          let putInput := uploadInput u key compressedData
          match u.client.PutObject putInput s with
          | (some err, s1) =>
            ⟨.returned (.error ("error uploading to S3: " ++ err)),
              [Request.put putInput (some err)], s1⟩
          | (none, s1) =>
            ⟨.returned (.ok ("s3://" ++ u.bucket ++ "/" ++ key)), [Request.put putInput none], s1⟩

/-- The method `LoadCheckpoint`: `(nil, nil)` is `.ok none`, `(&cp, nil)` is
`.ok (some cp)`, `(nil, err)` is `.error err`. -/
def Uploader.LoadCheckpoint (u : Uploader σ) (logType : LogType) (workspace : String) (s : σ) :
    Sent σ (Except Error (Option Checkpoint)) :=
  let input : GetObjectInput :=
    { Bucket := some u.bucket, Key := some (logType ++ "=" ++ workspace ++ "/" ++ checkpointKey) }
  match u.client.GetObject input s with
  | (.error err, s1) =>
    if err.noSuchKey then ⟨.returned (.ok none), [Request.get input (.error err)], s1⟩
    else
      ⟨.returned (.error ("error reading checkpoint from S3: " ++ err.message)),
        [Request.get input (.error err)], s1⟩
  | (.ok body, s1) =>
    match body with
    | .error err =>
      ⟨.returned (.error ("error reading checkpoint body: " ++ err)),
        [Request.get input (.ok body)], s1⟩
    | .ok data =>
      match u.codec.unmarshalCheckpoint data with
      | .error err =>
        ⟨.returned (.error ("error unmarshaling checkpoint: " ++ err)),
          [Request.get input (.ok body)], s1⟩
      | .ok cp => ⟨.returned (.ok (some cp)), [Request.get input (.ok body)], s1⟩

/-- The method `SaveCheckpoint`: it answers the error, `none` for `nil`. -/
def Uploader.SaveCheckpoint (u : Uploader σ) (cp : Checkpoint) (logType : LogType)
    (workspace : String) (s : σ) : Sent σ (Option Error) :=
  match u.codec.marshalCheckpoint cp with
  | .error err => ⟨.returned (some ("error marshaling checkpoint: " ++ err)), [], s⟩
  | .ok data =>
    let input : PutObjectInput :=
      { Bucket := some u.bucket
        Key := some (logType ++ "=" ++ workspace ++ "/" ++ checkpointKey)
        Body := data
        ContentType := some "application/json"
        ServerSideEncryption := ServerSideEncryptionAes256
        SSEKMSKeyId := none
        BucketKeyEnabled := none }
    match u.client.PutObject input s with
    | (some err, s1) =>
      ⟨.returned (some ("error writing checkpoint to S3: " ++ err)),
        [Request.put input (some err)], s1⟩
    | (none, s1) => ⟨.returned none, [Request.put input none], s1⟩

/-- The constructor `NewUploaderWithOptions`. -/
def NewUploaderWithOptions (client : S3Client σ) (bucket : String) (opts : UploaderOptions)
    (codec : Codec) : Uploader σ :=
  { client := client, bucket := bucket, opts := opts, codec := codec }

/-- The constructor `NewUploader`: the zero `UploaderOptions`. -/
def NewUploader (client : S3Client σ) (bucket : String) (codec : Codec) : Uploader σ :=
  NewUploaderWithOptions client bucket ⟨false, "", false⟩ codec

end aws

/-! ## The fixtures of `uploader_test.go` and `checkpoint_test.go` -/

/-- A codec that never fails, standing in the tests for `encoding/json` and
`compress/gzip`: entries are written as their cursors, a checkpoint as its cursor. -/
def testCodec : aws.Codec where
  marshalLogs := fun data => .ok (String.intercalate "," (data.map fun e => e.Cursor))
  gzipWrite := fun _ => none
  gzipClose := fun jsonData => .ok jsonData
  marshalCheckpoint := fun cp => .ok cp.LastCursor
  unmarshalCheckpoint := fun data =>
    if data = "invalid json" then .error "invalid character" else .ok ⟨data, zeroTime⟩

/-- The `mockS3Client` of the tests whose `putObjectFunc` and `getObjectFunc` answer
the given values; the state counts the requests. -/
def mockS3Client (getAnswer : Except aws.GetError (Except Error aws.Bytes))
    (putAnswer : Option Error) : aws.S3Client Nat where
  GetObject := fun _ n => (getAnswer, n + 1)
  PutObject := fun _ n => (putAnswer, n + 1)

/-- The `testData` of `TestUploadAuditLogs`: three entries from midnight of 2024-01-15. -/
def testData : List AuditLogEntry := CreateTestAuditLogs ["id-1", "id-2", "id-3"] testDay

/-- The `testTime` of `TestUploadAuditLogs`, 2024-01-15T10:30:45Z. -/
def testTime : Time := Date 2024 1 15 10 30 45 0 UTC

/-- The uploader of `TestUploadAuditLogs`: bucket `test-bucket`, an S3 client whose
`PutObject` succeeds, and the given options. -/
def testUploader (opts : aws.UploaderOptions) : aws.Uploader Nat :=
  aws.NewUploaderWithOptions (mockS3Client (.ok (.ok "")) none) "test-bucket" opts testCodec

/-- The key ARN of the test `uses KMS with key ID and bucket key enabled`. -/
def kmsKey : String :=
  "arn:aws:kms:us-west-2:123456789012:key/abcdefab-1234-5678-9abc-def012345678"

/-- The uploader of `TestLoadCheckpoint`: bucket `test-bucket`, an S3 client whose
`GetObject` answers the given value. -/
def testLoader (getAnswer : Except aws.GetError (Except Error aws.Bytes)) : aws.Uploader Nat :=
  aws.NewUploader (mockS3Client getAnswer none) "test-bucket" testCodec

/-- Three entries: one at midnight of `testDay`, then two on one later day, 80 and 81
hours after that midnight. -/
def driftLogs : List AuditLogEntry :=
  [testEntry "id-1" testDay, testEntry "id-2" (testDay.Add (80 * Hour)),
    testEntry "id-3" (testDay.Add (81 * Hour))]

/-! ## A source that serves a list of entries -/

/-- The entries strictly after the first entry whose cursor is `cursor`; all of them
when no entry has that cursor. -/
def entriesAfter (entries : List AuditLogEntry) (cursor : String) : List AuditLogEntry :=
  match entries.dropWhile (fun e => decide (e.Cursor ≠ cursor)) with
  | [] => entries
  | _ :: rest => rest

/-- The page a source of `entries` serves for `cursor`: at most 1000 entries strictly
after the requested cursor. -/
def servedPage (entries : List AuditLogEntry) (cursor : String) : List AuditLogEntry :=
  (entriesAfter entries cursor).take 1000

/-- Ten entries on `testDay`, a minute apart. -/
def tenLogs : List AuditLogEntry :=
  CreateTestAuditLogs ["id-1", "id-2", "id-3", "id-4", "id-5", "id-6", "id-7", "id-8", "id-9",
    "id-10"] testDay

/-! ## The documented key, and the components of a path -/

/-- The key as the specification writes it,
`{category}={identity}/year={Y}/month={M}/day={D}/audit-logs-{YYYY-MM-DD_HH-MM-SS}.json.gz`:
year, month and day as plain decimal numbers in the path, and in the file name the year
on four digits and month, day, hour, minute and second on two. -/
def documentedKey (category identity : String) (year month day hour minute second : Int) : String :=
  category ++ "=" ++ identity ++ "/year=" ++ itoa year ++ "/month=" ++ itoa month ++ "/day="
    ++ itoa day ++ "/audit-logs-" ++ appendInt year 4 ++ "-" ++ appendInt month 2 ++ "-"
    ++ appendInt day 2 ++ "_" ++ appendInt hour 2 ++ "-" ++ appendInt minute 2 ++ "-"
    ++ appendInt second 2 ++ ".json.gz"

/-- A text cut at every `/`. -/
def components : List Char → List (List Char)
  | [] => [[]]
  | c :: cs =>
    if c = '/' then [] :: components cs
    else
      match components cs with
      | [] => [[c]]
      | w :: ws => (c :: w) :: ws

/-- The components of a path: the pieces between its `/`. -/
def pathComponents (path : String) : List String := (components path.data).map String.mk

/-! ## A run that starts without a checkpoint -/

/-- The uploader state of a first run: no checkpoint stored, no upload made. -/
def freshStart : MockState := ⟨none, 0⟩

/-- A list of one entry, shaped as the entries of the tests, whose cursor is the empty
string. -/
def emptyCursorLogs : List AuditLogEntry := [testEntry "" testDay]

/-- An entry stamped 2024-01-03T12:00:00Z. -/
def lateEntry : AuditLogEntry := testEntry "id-2" (Date 2024 1 3 12 0 0 0 UTC)

/-! ## Lemmas: calendar -/

theorem daysFromCivil_parts (era c q t mp d : Int)
    (hc : 0 ≤ c ∧ c ≤ 3) (hq : 0 ≤ q ∧ q ≤ 24) (ht : 0 ≤ t ∧ t ≤ 3) (hmp : 0 ≤ mp ∧ mp ≤ 11) :
    daysFromCivil
      (if (if mp < 10 then mp + 3 else mp - 9) ≤ 2 then 400 * era + 100 * c + 4 * q + t + 1
        else 400 * era + 100 * c + 4 * q + t)
      (if mp < 10 then mp + 3 else mp - 9) d
      = 146097 * era + 36524 * c + 1461 * q + 365 * t + (153 * mp + 2) / 5 + d - 1 - 719468 := by
  have key : ∀ y m : Int, y = 400 * era + 100 * c + 4 * q + t →
      1 ≤ m → m ≤ 12 → mp = (if m > 2 then m - 3 else m + 9) →
      daysFromCivil (if m ≤ 2 then y + 1 else y) m d
        = 146097 * era + 36524 * c + 1461 * q + 365 * t + (153 * mp + 2) / 5 + d - 1 - 719468 := by
    intro y m hy hm1 hm12 hmpm
    have e1 : (m - 1) / 12 = 0 := by omega
    have e2 : (m - 1) % 12 + 1 = m := by omega
    have e3 : y / 400 = era := by omega
    have e4 : y % 400 = 100 * c + 4 * q + t := by omega
    have e5 : (100 * c + 4 * q + t) / 4 = 25 * c + q := by omega
    have e6 : (100 * c + 4 * q + t) / 100 = c := by omega
    subst hmpm
    unfold daysFromCivil
    simp only [e1, e2]
    by_cases hm : m ≤ 2
    · have e7 : ¬ m > 2 := by omega
      simp only [hm, e7, if_true, if_false, add_zero, add_sub_cancel_right, e3, e4, e5, e6]
      omega
    · have e7 : m > 2 := by omega
      simp only [hm, e7, if_true, if_false, add_zero, e3, e4, e5, e6]
      omega
  apply key _ _ rfl <;> split_ifs <;> omega

/-- Rendering a day number as a calendar date and reading the date back gives the day. -/
theorem daysFromCivil_civilFromDays (z : Int) :
    daysFromCivil (civilFromDays z).1 (civilFromDays z).2.1 (civilFromDays z).2.2 = z := by
  simp only [civilFromDays]
  rw [daysFromCivil_parts] <;> omega

/-- The anchor is midnight UTC of the calendar date the first timestamp renders in its
own zone. -/
theorem anchorOf_unixNano (first : AuditLogEntry) :
    (anchorOf first).unixNano = first.AuditLog.Timestamp.localDays * 86400 * 1000000000 := by
  simp [anchorOf, Date, Time.Year, Time.Month, Time.Day, daysFromCivil_civilFromDays, UTC]

theorem anchorOf_offset (first : AuditLogEntry) : (anchorOf first).offset = 0 := rfl

/-! ## Lemmas: the code produces traces of the described shape -/

theorem uploads_append (a b : List Call) : uploads (a ++ b) = uploads a ++ uploads b := by
  simp [uploads, List.filterMap_append]

theorem uploads_cons_upload (lt id : String) (d : List AuditLogEntry) (r : Except Error String)
    (tr : List Call) : uploads (Call.upload lt id d r :: tr) = d :: uploads tr := by
  simp [uploads, List.filterMap_cons]

theorem UploadsOk.nil (lt id : String) : UploadsOk lt id [] := by
  intro c hc; simp at hc

theorem UploadsOk.cons {lt id : String} {tr : List Call} (d : List AuditLogEntry) (uri : String)
    (h : UploadsOk lt id tr) : UploadsOk lt id (Call.upload lt id d (.ok uri) :: tr) := by
  intro c hc
  rcases List.mem_cons.1 hc with rfl | hc
  · exact ⟨d, uri, rfl⟩
  · exact h c hc

theorem UploadsOk.append {lt id : String} {a b : List Call}
    (ha : UploadsOk lt id a) (hb : UploadsOk lt id b) : UploadsOk lt id (a ++ b) := by
  intro c hc
  rcases List.mem_append.1 hc with hc | hc
  · exact ha c hc
  · exact hb c hc

/-- The scan either closes exactly the windows of `scanWindows`, every upload
succeeding, or stops at the first upload that fails. -/
theorem windowLoop_spec (lp : LogProcessor σ) (id : String) (auditLogs : List AuditLogEntry) :
    ∀ (rest : List AuditLogEntry) (i windowStart : Nat) (cursorDay : Time) (s : σ),
      (∃ cd, (windowLoop lp id auditLogs rest i windowStart cursorDay s).val
            = .ok ((scanWindows auditLogs rest i windowStart cursorDay).2, cd) ∧
          UploadsOk lp.auditLogSvc.logType id
            (windowLoop lp id auditLogs rest i windowStart cursorDay s).calls ∧
          uploads (windowLoop lp id auditLogs rest i windowStart cursorDay s).calls
            = (scanWindows auditLogs rest i windowStart cursorDay).1) ∨
      (∃ err ups data more,
          (windowLoop lp id auditLogs rest i windowStart cursorDay s).val = .error err ∧
          (windowLoop lp id auditLogs rest i windowStart cursorDay s).calls
            = ups ++ [Call.upload lp.auditLogSvc.logType id data (.error err)] ∧
          UploadsOk lp.auditLogSvc.logType id ups ∧
          uploads ups ++ [data] ++ more = (scanWindows auditLogs rest i windowStart cursorDay).1) := by
  intro rest
  induction rest with
  | nil =>
    intro i ws cd s
    left
    exact ⟨cd, rfl, UploadsOk.nil _ _, rfl⟩
  | cons e rest ih =>
    intro i ws cd s
    by_cases hA : e.AuditLog.Timestamp.After (cd.Add (24 * Hour)) = true
    · rcases hU : lp.uploader.UploadAuditLogs lp.auditLogSvc.logType id (slice auditLogs ws i) s
        with ⟨res, s1⟩
      cases res with
      | error err =>
        right
        refine ⟨err, [], slice auditLogs ws i, (scanWindows auditLogs rest (i + 1) i (cd.Add (Hour * 24))).1, ?_, ?_, UploadsOk.nil _ _, ?_⟩
        · simp [windowLoop, hA, hU]
        · simp [windowLoop, hA, hU]
        · simp [scanWindows, hA, uploads]
      | ok uri =>
        rcases ih (i + 1) i (cd.Add (Hour * 24)) s1 with ⟨cdf, h1, h2, h3⟩ | ⟨err, ups, data, more, h1, h2, h3, h4⟩
        · left
          refine ⟨cdf, ?_, ?_, ?_⟩
          · simp [windowLoop, hA, hU, h1, scanWindows]
          · simp only [windowLoop, hA, hU, if_true]
            exact UploadsOk.cons _ _ h2
          · simp only [windowLoop, hA, hU, if_true, scanWindows, uploads_cons_upload, h3]
        · right
          refine ⟨err, Call.upload lp.auditLogSvc.logType id (slice auditLogs ws i) (.ok uri) :: ups,
            data, more, ?_, ?_, UploadsOk.cons _ _ h3, ?_⟩
          · simp [windowLoop, hA, hU, h1]
          · simp [windowLoop, hA, hU, h2]
          · simp only [scanWindows, hA, if_true, uploads_cons_upload, ← h4]
            simp
    · have hw : windowLoop lp id auditLogs (e :: rest) i ws cd s
          = windowLoop lp id auditLogs rest (i + 1) ws cd s := by
        simp [windowLoop, hA]
      have hs : scanWindows auditLogs (e :: rest) i ws cd
          = scanWindows auditLogs rest (i + 1) ws cd := by
        simp [scanWindows, hA]
      rw [hw, hs]
      exact ih (i + 1) ws cd s

/-- After the fetch of a non-empty page, `processPage` uploads exactly the `windows` of
the page and answers its last entry, or stops at the first upload that fails. -/
theorem uploadWindows_spec (lp : LogProcessor σ) (id : String) (first : AuditLogEntry)
    (tl : List AuditLogEntry) (s : σ) :
    ((uploadWindows lp id first (first :: tl) s).val = .ok (first :: tl).getLast? ∧
        UploadsOk lp.auditLogSvc.logType id (uploadWindows lp id first (first :: tl) s).calls ∧
        uploads (uploadWindows lp id first (first :: tl) s).calls = windows (first :: tl)) ∨
    (∃ err ups data,
        (uploadWindows lp id first (first :: tl) s).val = .error err ∧
        (uploadWindows lp id first (first :: tl) s).calls
          = ups ++ [Call.upload lp.auditLogSvc.logType id data (.error err)] ∧
        UploadsOk lp.auditLogSvc.logType id ups ∧
        uploads ups ++ [data] <+: windows (first :: tl)) := by
  rcases windowLoop_spec lp id (first :: tl) (first :: tl) 0 0 (anchorOf first) s with
    ⟨cdf, h1, h2, h3⟩ | ⟨err, ups, data, more, h1, h2, h3, h4⟩
  · by_cases hlen : ((first :: tl).drop (scanWindows (first :: tl) (first :: tl) 0 0 (anchorOf first)).2).length > 0
    · rcases hU : lp.uploader.UploadAuditLogs lp.auditLogSvc.logType id
          ((first :: tl).drop (scanWindows (first :: tl) (first :: tl) 0 0 (anchorOf first)).2)
          (windowLoop lp id (first :: tl) (first :: tl) 0 0 (anchorOf first) s).state with ⟨res, s1⟩
      cases res with
      | error err =>
        right
        refine ⟨err, (windowLoop lp id (first :: tl) (first :: tl) 0 0 (anchorOf first) s).calls,
          (first :: tl).drop (scanWindows (first :: tl) (first :: tl) 0 0 (anchorOf first)).2,
          ?_, ?_, h2, ?_⟩
        · simp only [uploadWindows, h1, hlen, if_true, hU]
        · simp only [uploadWindows, h1, hlen, if_true, hU]
        · simp only [windows, hlen, if_true, h3]
          exact List.prefix_refl _
      | ok uri =>
        left
        refine ⟨?_, ?_, ?_⟩
        · simp only [uploadWindows, h1, hlen, if_true, hU]
        · simp only [uploadWindows, h1, hlen, if_true, hU]
          exact UploadsOk.append h2 (UploadsOk.cons _ _ (UploadsOk.nil _ _))
        · simp only [uploadWindows, h1, hlen, if_true, hU, windows, uploads_append, h3,
            uploads_cons_upload]
          rfl
    · left
      refine ⟨?_, ?_, ?_⟩
      · simp only [uploadWindows, h1, hlen, if_false]
      · simp only [uploadWindows, h1, hlen, if_false]
        exact h2
      · simp only [uploadWindows, h1, hlen, if_false, windows, h3]
  · right
    refine ⟨err, ups, data, ?_, ?_, h3, ?_⟩
    · simp only [uploadWindows, h1]
    · simp only [uploadWindows, h1, h2]
    · simp only [windows]
      split_ifs
      · exact ⟨more ++ [(first :: tl).drop (scanWindows (first :: tl) (first :: tl) 0 0 (anchorOf first)).2],
          by rw [← h4]; simp⟩
      · exact ⟨more, h4⟩



theorem processPage_cases (lp : LogProcessor σ) (id cursor : String) (s : σ) :
    (∃ err, (processPage lp id cursor s).val = .error ("error fetching audit logs " ++ err) ∧
        (processPage lp id cursor s).calls = [Call.fetch id cursor pageSize (.error err)]) ∨
    ((processPage lp id cursor s).val = .ok none ∧
        (processPage lp id cursor s).calls = [Call.fetch id cursor pageSize (.ok [])]) ∨
    (∃ page last ups, page.getLast? = some last ∧
        (processPage lp id cursor s).val = .ok (some last) ∧
        (processPage lp id cursor s).calls = Call.fetch id cursor pageSize (.ok page) :: ups ∧
        UploadsOk lp.auditLogSvc.logType id ups ∧ uploads ups = windows page) ∨
    (∃ page err ups data, page ≠ [] ∧
        (processPage lp id cursor s).val = .error err ∧
        (processPage lp id cursor s).calls
          = Call.fetch id cursor pageSize (.ok page) ::
              (ups ++ [Call.upload lp.auditLogSvc.logType id data (.error err)]) ∧
        UploadsOk lp.auditLogSvc.logType id ups ∧ uploads ups ++ [data] <+: windows page) := by
  rcases hG : lp.auditLogSvc.Get id cursor pageSize s with ⟨res, s1⟩
  cases res with
  | error err =>
    left
    exact ⟨err, by simp [processPage, hG], by simp [processPage, hG]⟩
  | ok page =>
    cases page with
    | nil =>
      right; left
      exact ⟨by simp [processPage, hG], by simp [processPage, hG]⟩
    | cons first tl =>
      right; right
      rcases uploadWindows_spec lp id first tl s1 with ⟨h1, h2, h3⟩ | ⟨err, ups, data, h1, h2, h3, h4⟩
      · left
        obtain ⟨last, hlast⟩ : ∃ last, (first :: tl).getLast? = some last :=
          ⟨(first :: tl).getLast (by simp), List.getLast?_eq_getLast _ _⟩
        refine ⟨first :: tl, last, (uploadWindows lp id first (first :: tl) s1).calls, hlast,
          ?_, ?_, h2, h3⟩
        · simp [processPage, hG, h1, hlast]
        · simp [processPage, hG]
      · right
        refine ⟨first :: tl, err, ups, data, by simp, ?_, ?_, h3, h4⟩
        · simp [processPage, hG, h1]
        · simp [processPage, hG, h2]

/-- The calls of the loop of `Process` have the shape `LoopTrace` describes. -/
theorem pageLoop_trace (lp : LogProcessor σ) (id : String) :
    ∀ (fuel : Nat) (cursor : String) (fin : Option AuditLogEntry) (s : σ),
      LoopTrace lp.auditLogSvc.logType id cursor fin
        (pageLoop lp id fuel cursor fin s).calls (pageLoop lp id fuel cursor fin s).val := by
  intro fuel
  induction fuel with
  | zero => intro cursor fin s; exact LoopTrace.outOfFuel cursor fin
  | succ fuel ih =>
    intro cursor fin s
    rcases processPage_cases lp id cursor s with ⟨err, h1, h2⟩ | ⟨h1, h2⟩ |
      ⟨page, last, ups, hlast, h1, h2, h3, h4⟩ | ⟨page, err, ups, data, hne, h1, h2, h3, h4⟩
    · simp only [pageLoop, h1, h2]
      exact LoopTrace.fetchFailed cursor fin err
    · simp only [pageLoop, h1, h2]
      exact LoopTrace.drained cursor fin
    · simp only [pageLoop, h1, h2]
      exact LoopTrace.page cursor fin page last ups _ _ hlast h3 h4 (ih last.Cursor (some last) _)
    · simp only [pageLoop, h1, h2]
      exact LoopTrace.uploadFailed cursor fin page ups data err hne h3 h4

/-- The calls of a run of `Process` have the shape `ProcessTrace` describes. -/
theorem Process_trace (lp : LogProcessor σ) (id : String) (fuel : Nat) (s : σ) :
    ProcessTrace lp.auditLogSvc.logType id (Process lp id fuel s).trace
      (Process lp id fuel s).outcome := by
  rcases hL : lp.uploader.LoadCheckpoint lp.auditLogSvc.logType id s with ⟨res, s1⟩
  cases res with
  | error err =>
    have : Process lp id fuel s
        = ⟨.returned (some err), [Call.load lp.auditLogSvc.logType id (.error err)], s1⟩ := by
      simp [Process, getLastCheckpoint, hL]
    rw [this]
    exact ProcessTrace.loadFailed err
  | ok checkpoint =>
    have hloop := pageLoop_trace lp id fuel (startCursor checkpoint) none s1
    rcases hv : (pageLoop lp id fuel (startCursor checkpoint) none s1).val with _ | r
    · rw [hv] at hloop
      simp only [Process, getLastCheckpoint, hL, hv]
      exact ProcessTrace.outOfFuel checkpoint _ hloop
    · rw [hv] at hloop
      cases r with
      | error err =>
        simp only [Process, getLastCheckpoint, hL, hv]
        exact ProcessTrace.pageFailed checkpoint _ err hloop
      | ok fin =>
        cases fin with
        | none =>
          simp only [Process, getLastCheckpoint, hL, hv]
          exact ProcessTrace.nothingSeen checkpoint _ hloop
        | some fin =>
          rcases hS : lp.uploader.SaveCheckpoint ⟨fin.Cursor, fin.AuditLog.Timestamp⟩
            lp.auditLogSvc.logType id (pageLoop lp id fuel (startCursor checkpoint) none s1).state
            with ⟨sres, s2⟩
          cases sres with
          | none =>
            simp only [Process, getLastCheckpoint, hL, hv, updateLastCheckpoint, hS]
            exact ProcessTrace.saved checkpoint _ fin none hloop
          | some err =>
            simp only [Process, getLastCheckpoint, hL, hv, updateLastCheckpoint, hS]
            exact ProcessTrace.saved checkpoint _ fin (some err) hloop

/-! ## Lemmas: reading a trace -/

theorem saves_append (a b : List Call) : saves (a ++ b) = saves a ++ saves b := by
  simp [saves, List.filterMap_append]

theorem pages_append (a b : List Call) : pages (a ++ b) = pages a ++ pages b := by
  simp [pages, List.filterMap_append]

theorem fetchCalls_append (a b : List Call) : fetchCalls (a ++ b) = fetchCalls a ++ fetchCalls b := by
  simp [fetchCalls, List.filterMap_append]

theorem pages_cons_fetch_ok (id cursor : String) (limit : Int) (page : List AuditLogEntry)
    (tr : List Call) : pages (Call.fetch id cursor limit (.ok page) :: tr) = page :: pages tr := by
  simp [pages, List.filterMap_cons]

theorem UploadsOk.failed {lt id : String} {tr : List Call} (h : UploadsOk lt id tr) :
    ∀ c ∈ tr, c.failed = false := by
  intro c hc
  obtain ⟨d, uri, rfl⟩ := h c hc
  rfl

theorem UploadsOk.isFetch {lt id : String} {tr : List Call} (h : UploadsOk lt id tr) :
    ∀ c ∈ tr, c.isFetch = false := by
  intro c hc
  obtain ⟨d, uri, rfl⟩ := h c hc
  rfl

theorem UploadsOk.isSave {lt id : String} {tr : List Call} (h : UploadsOk lt id tr) :
    ∀ c ∈ tr, c.isSave = false := by
  intro c hc
  obtain ⟨d, uri, rfl⟩ := h c hc
  rfl

theorem UploadsOk.saves {lt id : String} {tr : List Call} (h : UploadsOk lt id tr) :
    saves tr = [] := by
  induction tr with
  | nil => rfl
  | cons c tr ih =>
    obtain ⟨d, uri, rfl⟩ := h _ (List.mem_cons_self _ _)
    simpa [AuditLogs.saves] using ih (fun c hc => h c (List.mem_cons_of_mem _ hc))

theorem UploadsOk.pages {lt id : String} {tr : List Call} (h : UploadsOk lt id tr) :
    pages tr = [] := by
  induction tr with
  | nil => rfl
  | cons c tr ih =>
    obtain ⟨d, uri, rfl⟩ := h _ (List.mem_cons_self _ _)
    simpa [AuditLogs.pages] using ih (fun c hc => h c (List.mem_cons_of_mem _ hc))

theorem UploadsOk.fetchCalls {lt id : String} {tr : List Call} (h : UploadsOk lt id tr) :
    fetchCalls tr = [] := by
  induction tr with
  | nil => rfl
  | cons c tr ih =>
    obtain ⟨d, uri, rfl⟩ := h _ (List.mem_cons_self _ _)
    simpa [AuditLogs.fetchCalls] using ih (fun c hc => h c (List.mem_cons_of_mem _ hc))

/-- In a list that ends with `a` and has no element with `P` before it, an element with
`P` is that last one. -/
theorem eq_last_of_split {α : Type} (P : α → Prop) :
    ∀ (l pre post : List α) (a b : α), (∀ c ∈ l, ¬ P c) → P b →
      l ++ [a] = pre ++ b :: post → post = [] ∧ pre = l ∧ a = b := by
  intro l
  induction l with
  | nil =>
    intro pre post a b _ _ h
    cases pre with
    | nil =>
      simp only [List.nil_append, List.cons.injEq] at h
      exact ⟨h.2.symm, rfl, h.1⟩
    | cons x pre =>
      simp only [List.nil_append, List.cons_append, List.cons.injEq] at h
      exact absurd h.2 (by simp)
  | cons x l ih =>
    intro pre post a b hl hb h
    cases pre with
    | nil =>
      simp only [List.nil_append, List.cons_append, List.cons.injEq] at h
      exact absurd (h.1 ▸ hb) (hl x (List.mem_cons_self _ _))
    | cons y pre =>
      simp only [List.cons_append, List.cons.injEq] at h
      obtain ⟨h1, h2, h3⟩ := ih pre post a b (fun c hc => hl c (List.mem_cons_of_mem _ hc)) hb h.2
      exact ⟨h1, by rw [h.1, h2], h3⟩

/-- An element with `P` in `l ++ r`, where no element of `l` has `P`, lies in `r`. -/
theorem split_after {α : Type} (P : α → Prop) :
    ∀ (l r pre post : List α) (b : α), (∀ c ∈ l, ¬ P c) → P b →
      l ++ r = pre ++ b :: post → ∃ mid, pre = l ++ mid ∧ r = mid ++ b :: post := by
  intro l
  induction l with
  | nil =>
    intro r pre post b _ _ h
    exact ⟨pre, rfl, h⟩
  | cons x l ih =>
    intro r pre post b hl hb h
    cases pre with
    | nil =>
      simp only [List.nil_append, List.cons_append, List.cons.injEq] at h
      exact absurd (h.1 ▸ hb) (hl x (List.mem_cons_self _ _))
    | cons y pre =>
      simp only [List.cons_append, List.cons.injEq] at h
      obtain ⟨mid, h1, h2⟩ := ih r pre post b (fun c hc => hl c (List.mem_cons_of_mem _ hc)) hb h.2
      exact ⟨mid, by rw [h.1, h1]; rfl, h2⟩

/-! ## Lemmas: the loop of `Process` -/

/-- The loop calls only the source and `UploadAuditLogs`. -/
theorem LoopTrace.no_save {lt id cursor : String} {fin : Option AuditLogEntry} {tr : List Call}
    {res : Option (Except Error (Option AuditLogEntry))}
    (h : LoopTrace lt id cursor fin tr res) : ∀ c ∈ tr, c.isSave = false := by
  induction h with
  | outOfFuel => intro c hc; simp at hc
  | fetchFailed cursor fin err => intro c hc; simp at hc; subst hc; rfl
  | drained cursor fin => intro c hc; simp at hc; subst hc; rfl
  | uploadFailed cursor fin page ups data err hne hups hpre =>
    intro c hc
    simp only [List.mem_cons, List.mem_append, List.not_mem_nil, or_false] at hc
    rcases hc with rfl | hc | rfl
    · rfl
    · exact hups.isSave c hc
    · rfl
  | page cursor fin page last ups rest res hlast hups hw hrest ih =>
    intro c hc
    simp only [List.mem_cons, List.mem_append] at hc
    rcases hc with rfl | hc | hc
    · rfl
    · exact hups.isSave c hc
    · exact ih c hc

theorem saves_eq_nil_of_no_save : ∀ (tr : List Call), (∀ c ∈ tr, c.isSave = false) → saves tr = [] := by
  intro tr
  induction tr with
  | nil => intro _; rfl
  | cons c tr ih =>
    intro h
    have hc := h c (List.mem_cons_self _ _)
    have ht := ih (fun c hc => h c (List.mem_cons_of_mem _ hc))
    cases c <;> simp_all [saves, Call.isSave]

/-- When the loop leaves normally, no call has failed, its last call is the fetch of an
empty page, every page before is non-empty, and it answers the last entry seen. -/
theorem LoopTrace.ok {lt id cursor : String} {fin : Option AuditLogEntry} {tr : List Call}
    {res : Option (Except Error (Option AuditLogEntry))}
    (h : LoopTrace lt id cursor fin tr res) :
    ∀ f, res = some (.ok f) →
      (∀ c ∈ tr, c.failed = false) ∧
      (∃ pre cur, tr = pre ++ [Call.fetch id cur pageSize (.ok [])]) ∧
      ∃ ps, pages tr = ps ++ [[]] ∧ (∀ p ∈ ps, p ≠ []) ∧ f = finalOf fin ps := by
  induction h with
  | outOfFuel => intro f hf; cases hf
  | fetchFailed cursor fin err => intro f hf; cases hf
  | drained cursor fin =>
    intro f hf
    cases hf
    refine ⟨?_, ⟨[], cursor, rfl⟩, [], rfl, by simp, rfl⟩
    intro c hc; simp at hc; subst hc; rfl
  | uploadFailed cursor fin page ups data err hne hups hpre => intro f hf; cases hf
  | page cursor fin page last ups rest res hlast hups hw hrest ih =>
    intro f hf
    obtain ⟨h1, ⟨pre, cur, h2⟩, ps, h3, h4, h5⟩ := ih f hf
    refine ⟨?_, ⟨Call.fetch id cursor pageSize (.ok page) :: (ups ++ pre), cur, by simp [h2]⟩,
      page :: ps, ?_, ?_, ?_⟩
    · intro c hc
      simp only [List.mem_cons, List.mem_append] at hc
      rcases hc with rfl | hc | hc
      · rfl
      · exact hups.failed c hc
      · exact h1 c hc
    · rw [pages_cons_fetch_ok, pages_append, hups.pages, h3]
      rfl
    · intro p hp
      rcases List.mem_cons.1 hp with rfl | hp
      · intro hnil; simp [hnil] at hlast
      · exact h4 p hp
    · rw [h5]
      cases ps with
      | nil => simp [finalOf, hlast]
      | cons p ps =>
        have hx : (p :: ps).getLast? = some ((p :: ps).getLast (by simp)) :=
          List.getLast?_eq_getLast _ _
        simp only [finalOf, List.getLast?_cons_cons, hx]

/-- While the loop has not left, it has fetched no empty page and no call has failed. -/
theorem LoopTrace.running {lt id cursor : String} {fin : Option AuditLogEntry} {tr : List Call}
    {res : Option (Except Error (Option AuditLogEntry))}
    (h : LoopTrace lt id cursor fin tr res) :
    res = none → (∀ c ∈ tr, c.failed = false) ∧ [] ∉ pages tr := by
  induction h with
  | outOfFuel => intro _; exact ⟨by simp, by simp [pages]⟩
  | fetchFailed cursor fin err => intro hf; cases hf
  | drained cursor fin => intro hf; cases hf
  | uploadFailed cursor fin page ups data err hne hups hpre => intro hf; cases hf
  | page cursor fin page last ups rest res hlast hups hw hrest ih =>
    intro hf
    obtain ⟨h1, h2⟩ := ih hf
    refine ⟨?_, ?_⟩
    · intro c hc
      simp only [List.mem_cons, List.mem_append] at hc
      rcases hc with rfl | hc | hc
      · rfl
      · exact hups.failed c hc
      · exact h1 c hc
    · rw [pages_cons_fetch_ok, pages_append, hups.pages]
      intro hmem
      rcases List.mem_cons.1 hmem with hp | hp
      · rw [← hp] at hlast; simp at hlast
      · exact h2 (by simpa using hp)

/-- When the loop leaves with an error, the call that failed is its last call, a fetch
or an upload, and no call before it failed. -/
theorem LoopTrace.error {lt id cursor : String} {fin : Option AuditLogEntry} {tr : List Call}
    {res : Option (Except Error (Option AuditLogEntry))}
    (h : LoopTrace lt id cursor fin tr res) :
    ∀ e, res = some (.error e) →
      ∃ pre c, tr = pre ++ [c] ∧ c.failed = true ∧ c.isSave = false ∧
        (∀ c' ∈ pre, c'.failed = false) ∧ [] ∉ pages tr := by
  induction h with
  | outOfFuel => intro e hf; cases hf
  | fetchFailed cursor fin err =>
    intro e _
    exact ⟨[], _, rfl, rfl, rfl, by simp, by simp [pages]⟩
  | drained cursor fin => intro e hf; cases hf
  | uploadFailed cursor fin page ups data err hne hups hpre =>
    intro e _
    refine ⟨Call.fetch id cursor pageSize (.ok page) :: ups, _, rfl, rfl, rfl, ?_, ?_⟩
    · intro c hc
      rcases List.mem_cons.1 hc with rfl | hc
      · rfl
      · exact hups.failed c hc
    · rw [pages_cons_fetch_ok, pages_append, hups.pages]
      simpa [pages] using fun h => hne h
  | page cursor fin page last ups rest res hlast hups hw hrest ih =>
    intro e hf
    obtain ⟨pre, c, h1, h2, h3, h4, h5⟩ := ih e hf
    refine ⟨Call.fetch id cursor pageSize (.ok page) :: (ups ++ pre), c, by simp [h1], h2, h3, ?_, ?_⟩
    · intro c' hc
      simp only [List.mem_cons, List.mem_append] at hc
      rcases hc with rfl | hc | hc
      · rfl
      · exact hups.failed c' hc
      · exact h4 c' hc
    · rw [pages_cons_fetch_ok, pages_append, hups.pages]
      intro hmem
      rcases List.mem_cons.1 hmem with hp | hp
      · rw [← hp] at hlast; simp at hlast
      · exact h5 (by simpa using hp)

/-! ## Lemmas: fuel -/

/-- Once the loop has left, more fuel changes nothing. -/
theorem pageLoop_stable (lp : LogProcessor σ) (id : String) :
    ∀ (fuel : Nat) (cursor : String) (fin : Option AuditLogEntry) (s : σ),
      (pageLoop lp id fuel cursor fin s).val ≠ none →
      ∀ k, pageLoop lp id (fuel + k) cursor fin s = pageLoop lp id fuel cursor fin s := by
  intro fuel
  induction fuel with
  | zero => intro cursor fin s h; exact absurd rfl h
  | succ fuel ih =>
    intro cursor fin s h k
    rw [Nat.add_right_comm]
    rcases hp : (processPage lp id cursor s).val with err | last
    · simp only [pageLoop, hp]
    · cases last with
      | none => simp only [pageLoop, hp]
      | some last =>
        simp only [pageLoop, hp] at h ⊢
        rw [ih last.Cursor (some last) _ h k]

/-- Once `Process` has returned, more fuel changes nothing. -/
theorem Process_stable (lp : LogProcessor σ) (id : String) (fuel : Nat) (s : σ)
    (h : (Process lp id fuel s).outcome ≠ .outOfFuel) :
    ∀ n, fuel ≤ n → Process lp id n s = Process lp id fuel s := by
  intro n hn
  obtain ⟨k, rfl⟩ := Nat.exists_eq_add_of_le hn
  rcases hl : (getLastCheckpoint lp id s).val with err | checkpoint
  · simp only [Process, hl]
  · by_cases hv : (pageLoop lp id fuel (startCursor checkpoint) none
        (getLastCheckpoint lp id s).state).val = none
    · exfalso
      apply h
      simp only [Process, hl, hv]
    · simp only [Process, hl]
      rw [pageLoop_stable lp id fuel _ _ _ hv k]

/-! ## Lemmas: a run of `Process` -/

theorem finalOf_concat (fin : Option AuditLogEntry) (ps : List (List AuditLogEntry))
    (q : List AuditLogEntry) : finalOf fin (ps ++ [q]) = q.getLast? := by
  simp [finalOf]

theorem eq_nil_or_snoc {α : Type} (l : List α) : l = [] ∨ ∃ pre a, l = pre ++ [a] := by
  rcases List.eq_nil_or_concat l with h | ⟨pre, b, h⟩
  · exact Or.inl h
  · exact Or.inr ⟨pre, b, by rw [h, List.concat_eq_append]⟩

theorem getLast?_eq_some_concat {α : Type} (l : List α) (a : α) (h : l.getLast? = some a) :
    ∃ pre, l = pre ++ [a] := by
  rcases eq_nil_or_snoc l with rfl | ⟨pre, b, rfl⟩
  · simp at h
  · simp at h
    exact ⟨pre, by rw [h]⟩

/-- A run without a failed call that fetched a non-empty page and then an empty one
returned `nil` and saved, once, the checkpoint of the last entry of the last non-empty
page. -/
theorem ProcessTrace.checkpoint {lt id : String} {tr : List Call} {o : Outcome}
    (h : ProcessTrace lt id tr o)
    (hok : ∀ c ∈ tr, c.failed = false) (hempty : [] ∈ pages tr)
    (hne : ∃ p ∈ pages tr, p ≠ []) :
    ∃ ps page last,
      pages tr = ps ++ [page ++ [last], []] ∧ (∀ p ∈ ps, p ≠ []) ∧
      o = .returned none ∧
      saves tr = [⟨last.Cursor, last.AuditLog.Timestamp⟩] ∧
      tr.getLast? = some (Call.save ⟨last.Cursor, last.AuditLog.Timestamp⟩ lt id none) := by
  cases h with
  | loadFailed err =>
    exact absurd (hok _ (List.mem_singleton_self _)) (by simp [Call.failed])
  | outOfFuel checkpoint loop h =>
    exact absurd (by simpa [pages] using hempty) (h.running rfl).2
  | pageFailed checkpoint loop err h =>
    obtain ⟨pre, c, h1, h2, -⟩ := h.error err rfl
    have := hok c (by rw [h1]; simp)
    rw [h2] at this
    cases this
  | nothingSeen checkpoint loop h =>
    exfalso
    obtain ⟨-, -, ps, h3, h4, h5⟩ := h.ok none rfl
    obtain ⟨p, hp, hpne⟩ := hne
    have hp' : p ∈ ps ++ [[]] := by rw [← h3]; simpa [pages] using hp
    rcases List.mem_append.1 hp' with hp' | hp'
    · rcases eq_nil_or_snoc ps with rfl | ⟨ps', q, rfl⟩
      · simp at hp'
      · rw [finalOf_concat] at h5
        have hq := h4 q (by simp)
        cases q with
        | nil => exact hq rfl
        | cons a q =>
          rw [List.getLast?_eq_getLast _ (by simp)] at h5
          cases h5
    · simp at hp'
      exact hpne hp'
  | saved checkpoint loop fin res h =>
    obtain ⟨h1, -, ps, h3, h4, h5⟩ := h.ok (some fin) rfl
    rcases eq_nil_or_snoc ps with rfl | ⟨ps', q, rfl⟩
    · simp [finalOf] at h5
    · rw [finalOf_concat] at h5
      obtain ⟨page, rfl⟩ := getLast?_eq_some_concat q fin h5.symm
      have hres : res = none := by
        have := hok (Call.save ⟨fin.Cursor, fin.AuditLog.Timestamp⟩ lt id res) (by simp)
        cases res with
        | none => rfl
        | some e => simp [Call.failed] at this
      subst hres
      refine ⟨ps', page, fin, ?_, ?_, rfl, ?_, ?_⟩
      · have : pages (Call.load lt id (.ok checkpoint) ::
            (loop ++ [Call.save ⟨fin.Cursor, fin.AuditLog.Timestamp⟩ lt id none])) = pages loop := by
          simp [pages, List.filterMap_append]
        rw [this, h3]
        simp
      · intro p hp
        exact h4 p (by simp [hp])
      · have : saves (Call.load lt id (.ok checkpoint) ::
            (loop ++ [Call.save ⟨fin.Cursor, fin.AuditLog.Timestamp⟩ lt id none]))
            = saves loop ++ [⟨fin.Cursor, fin.AuditLog.Timestamp⟩] := by
          simp [saves, List.filterMap_append]
        rw [this, saves_eq_nil_of_no_save loop h.no_save]
        rfl
      · rw [← List.cons_append, List.getLast?_append]
        simp

theorem mem_of_split {α : Type} {tr pre post : List α} {c : α} (h : tr = pre ++ c :: post) :
    c ∈ tr := by
  rw [h]; simp

/-- A trace without a `SaveCheckpoint` call. -/
theorem save_once_of_no_save (id : String) (tr : List Call) (h : ∀ c ∈ tr, c.isSave = false) :
    (saves tr).length ≤ 1 ∧
    (∀ pre cp lt' id' res post, tr = pre ++ Call.save cp lt' id' res :: post →
      post = [] ∧ (∃ pre' cur, pre = pre' ++ [Call.fetch id cur pageSize (.ok [])]) ∧
        ∀ c ∈ pre, c.failed = false) ∧
    ((∃ c ∈ tr, c.failed = true ∧ c.isSave = false) → saves tr = []) := by
  refine ⟨by simp [saves_eq_nil_of_no_save tr h], ?_, fun _ => saves_eq_nil_of_no_save tr h⟩
  intro pre cp lt' id' res post htr
  have := h _ (mem_of_split htr)
  simp [Call.isSave] at this

theorem no_save_cons_load {lt id cursor : String} {fin : Option AuditLogEntry} {loop : List Call}
    {res : Option (Except Error (Option AuditLogEntry))} (r : Except Error (Option Checkpoint))
    (h : LoopTrace lt id cursor fin loop res) :
    ∀ c ∈ Call.load lt id r :: loop, c.isSave = false := by
  intro c hc
  rcases List.mem_cons.1 hc with rfl | hc
  · rfl
  · exact h.no_save c hc

/-- `SaveCheckpoint` is called at most once, as the last call, right after the fetch of
an empty page and after calls that all succeeded; a run with a failed load, fetch or
upload has no `SaveCheckpoint` call. -/
theorem ProcessTrace.save_once {lt id : String} {tr : List Call} {o : Outcome}
    (h : ProcessTrace lt id tr o) :
    (saves tr).length ≤ 1 ∧
    (∀ pre cp lt' id' res post, tr = pre ++ Call.save cp lt' id' res :: post →
      post = [] ∧ (∃ pre' cur, pre = pre' ++ [Call.fetch id cur pageSize (.ok [])]) ∧
        ∀ c ∈ pre, c.failed = false) ∧
    ((∃ c ∈ tr, c.failed = true ∧ c.isSave = false) → saves tr = []) := by
  cases h with
  | loadFailed err =>
    apply save_once_of_no_save
    intro c hc
    simp at hc; subst hc; rfl
  | outOfFuel checkpoint loop h => exact save_once_of_no_save id _ (no_save_cons_load _ h)
  | pageFailed checkpoint loop err h => exact save_once_of_no_save id _ (no_save_cons_load _ h)
  | nothingSeen checkpoint loop h => exact save_once_of_no_save id _ (no_save_cons_load _ h)
  | saved checkpoint loop fin res h =>
    obtain ⟨h1, ⟨pre', cur, h2⟩, -⟩ := h.ok (some fin) rfl
    have hsaves : saves (Call.load lt id (.ok checkpoint) ::
        (loop ++ [Call.save ⟨fin.Cursor, fin.AuditLog.Timestamp⟩ lt id res]))
        = [⟨fin.Cursor, fin.AuditLog.Timestamp⟩] := by
      have : saves (Call.load lt id (.ok checkpoint) ::
          (loop ++ [Call.save ⟨fin.Cursor, fin.AuditLog.Timestamp⟩ lt id res]))
          = saves loop ++ [⟨fin.Cursor, fin.AuditLog.Timestamp⟩] := by
        simp [saves, List.filterMap_append]
      rw [this, saves_eq_nil_of_no_save loop h.no_save]
      rfl
    have hfail : ∀ c ∈ Call.load lt id (.ok checkpoint) :: loop, c.failed = false := by
      intro c hc
      rcases List.mem_cons.1 hc with rfl | hc
      · rfl
      · exact h1 c hc
    refine ⟨by rw [hsaves]; simp, ?_, ?_⟩
    · intro pre cp lt' id' res' post htr
      rw [← List.cons_append] at htr
      obtain ⟨hpost, hpre, -⟩ := eq_last_of_split (fun c => c.isSave = true)
        (Call.load lt id (.ok checkpoint) :: loop) pre post _ _
        (fun c hc => by simp [no_save_cons_load _ h c hc]) rfl htr
      subst hpre
      exact ⟨hpost, ⟨Call.load lt id (.ok checkpoint) :: pre', cur, by simp [h2]⟩, hfail⟩
    · rintro ⟨c, hc, hf, hs⟩
      exfalso
      rw [← List.cons_append] at hc
      rcases List.mem_append.1 hc with hc | hc
      · rw [hfail c hc] at hf; cases hf
      · simp at hc; subst hc; simp [Call.isSave] at hs

theorem Call.failed_iff (c : Call) :
    c.failed = true ↔
      (∃ lt id e, c = Call.load lt id (.error e)) ∨
      (∃ id cursor limit e, c = Call.fetch id cursor limit (.error e)) ∨
      (∃ lt id data e, c = Call.upload lt id data (.error e)) ∨
      (∃ cp lt id e, c = Call.save cp lt id (some e)) := by
  cases c with
  | load lt id res => cases res <;> simp [Call.failed]
  | fetch id cursor limit res => cases res <;> simp [Call.failed]
  | upload lt id data res => cases res <;> simp [Call.failed]
  | save cp lt id res => cases res <;> simp [Call.failed]

/-- Either no call of the run failed, or the run returned an error and only its last
call can have failed. -/
theorem ProcessTrace.failures {lt id : String} {tr : List Call} {o : Outcome}
    (h : ProcessTrace lt id tr o) :
    ((∀ c ∈ tr, c.failed = false) ∧ ∀ e, o ≠ .returned (some e)) ∨
    (∃ l a e, tr = l ++ [a] ∧ (∀ c ∈ l, c.failed = false) ∧ a.failed = true ∧
      o = .returned (some e)) := by
  have hcons : ∀ (checkpoint : Option Checkpoint) (loop : List Call),
      (∀ c ∈ loop, c.failed = false) →
      ∀ c ∈ Call.load lt id (.ok checkpoint) :: loop, c.failed = false := by
    intro checkpoint loop hl c hc
    rcases List.mem_cons.1 hc with rfl | hc
    · rfl
    · exact hl c hc
  cases h with
  | loadFailed err =>
    right
    exact ⟨[], _, err, rfl, by simp, rfl, rfl⟩
  | outOfFuel checkpoint loop h =>
    left
    exact ⟨hcons _ _ (h.running rfl).1, by intro e he; cases he⟩
  | pageFailed checkpoint loop err h =>
    right
    obtain ⟨pre, c, h1, h2, -, h4, -⟩ := h.error err rfl
    exact ⟨Call.load lt id (.ok checkpoint) :: pre, c, err, by simp [h1], hcons _ _ h4, h2, rfl⟩
  | nothingSeen checkpoint loop h =>
    left
    exact ⟨hcons _ _ (h.ok none rfl).1, by intro e he; cases he⟩
  | saved checkpoint loop fin res h =>
    have h1 := (h.ok (some fin) rfl).1
    cases res with
    | none =>
      left
      refine ⟨?_, by intro e he; cases he⟩
      intro c hc
      rw [← List.cons_append] at hc
      rcases List.mem_append.1 hc with hc | hc
      · exact hcons _ _ h1 c hc
      · simp at hc; subst hc; rfl
    | some e =>
      right
      exact ⟨Call.load lt id (.ok checkpoint) :: loop, _, _, rfl, hcons _ _ h1, rfl, rfl⟩

/-- `Process` returns an error exactly when a call failed. -/
theorem ProcessTrace.error_iff {lt id : String} {tr : List Call} {o : Outcome}
    (h : ProcessTrace lt id tr o) (err : Option Error) (ho : o = .returned err) :
    err.isSome = true ↔ ∃ c ∈ tr, c.failed = true := by
  rcases h.failures with ⟨h1, h2⟩ | ⟨l, a, e, h1, h2, h3, h4⟩
  · constructor
    · intro he
      obtain ⟨e, rfl⟩ := Option.isSome_iff_exists.1 he
      exact absurd ho (h2 e)
    · rintro ⟨c, hc, hf⟩
      rw [h1 c hc] at hf; cases hf
  · rw [ho] at h4
    cases h4
    exact ⟨fun _ => ⟨a, by simp [h1], h3⟩, fun _ => rfl⟩

/-- A call that failed is the last call of the run, and the run returned an error. -/
theorem ProcessTrace.failed_last {lt id : String} {tr : List Call} {o : Outcome}
    (h : ProcessTrace lt id tr o) (pre post : List Call) (c : Call)
    (htr : tr = pre ++ c :: post) (hc : c.failed = true) :
    post = [] ∧ (∀ c' ∈ pre, c'.failed = false) ∧ ∃ e, o = .returned (some e) := by
  rcases h.failures with ⟨h1, -⟩ | ⟨l, a, e, h1, h2, -, h4⟩
  · rw [h1 c (mem_of_split htr)] at hc; cases hc
  · rw [h1] at htr
    obtain ⟨hpost, hpre, -⟩ := eq_last_of_split (fun c => c.failed = true) l pre post a c
      (fun c hc => by simp [h2 c hc]) hc htr
    subst hpre
    exact ⟨hpost, h2, e, h4⟩

theorem LoopTrace.no_upload_after_failed_fetch {lt id cursor : String} {fin : Option AuditLogEntry}
    {tr : List Call} {res : Option (Except Error (Option AuditLogEntry))}
    (h : LoopTrace lt id cursor fin tr res) (f : FetchCall)
    (hf : (fetchCalls tr).head? = some f) (he : ∃ e, f.res = .error e) : uploads tr = [] := by
  obtain ⟨e, he⟩ := he
  cases h with
  | outOfFuel => rfl
  | fetchFailed cursor fin err => rfl
  | drained cursor fin => rfl
  | uploadFailed cursor fin page ups data err hne hups hpre =>
    simp [fetchCalls] at hf
    rw [← hf] at he
    cases he
  | page cursor fin page last ups rest res hlast hups hw hrest =>
    simp [fetchCalls] at hf
    rw [← hf] at he
    cases he

/-- When the first fetch of a run failed, the run uploaded nothing. -/
theorem ProcessTrace.first_fetch_failed {lt id : String} {tr : List Call} {o : Outcome}
    (h : ProcessTrace lt id tr o) (f : FetchCall)
    (hf : (fetchCalls tr).head? = some f) (he : ∃ e, f.res = .error e) : uploads tr = [] := by
  have hfc : ∀ (r : Except Error (Option Checkpoint)) (loop : List Call),
      fetchCalls (Call.load lt id r :: loop) = fetchCalls loop := by
    intro r loop; simp [fetchCalls]
  have hup : ∀ (r : Except Error (Option Checkpoint)) (loop : List Call),
      uploads (Call.load lt id r :: loop) = uploads loop := by
    intro r loop; simp [uploads]
  cases h with
  | loadFailed err => rfl
  | outOfFuel checkpoint loop h =>
    rw [hfc] at hf; rw [hup]; exact h.no_upload_after_failed_fetch f hf he
  | pageFailed checkpoint loop err h =>
    rw [hfc] at hf; rw [hup]; exact h.no_upload_after_failed_fetch f hf he
  | nothingSeen checkpoint loop h =>
    rw [hfc] at hf; rw [hup]; exact h.no_upload_after_failed_fetch f hf he
  | saved checkpoint loop fin res h =>
    rw [hfc, fetchCalls_append] at hf
    have : fetchCalls [Call.save ⟨fin.Cursor, fin.AuditLog.Timestamp⟩ lt id res] = [] := rfl
    rw [this, List.append_nil] at hf
    rw [hup, uploads_append, h.no_upload_after_failed_fetch f hf he]
    rfl

/-! ## Lemmas: the fetch requests -/

theorem Chained.all {id : String} : ∀ {fs : List FetchCall} {cursor : String},
    Chained id cursor fs → ∀ f ∈ fs, f.limit = pageSize ∧ f.id = id := by
  intro fs
  induction fs with
  | nil => intro cursor _ f hf; simp at hf
  | cons g rest ih =>
    intro cursor h f hf
    obtain ⟨h1, -, h3, h4⟩ := h
    rcases List.mem_cons.1 hf with rfl | hf
    · exact ⟨h3, h1⟩
    · rcases h4 with rfl | ⟨page, last, -, h5⟩
      · simp at hf
      · exact ih h5 f hf

theorem Chained.head {id cursor : String} {fs : List FetchCall} (h : Chained id cursor fs)
    (f : FetchCall) (hf : fs.head? = some f) : f.cursor = cursor := by
  cases fs with
  | nil => simp at hf
  | cons g rest =>
    simp at hf
    subst hf
    exact h.2.1

theorem Chained.next {id : String} : ∀ {fs : List FetchCall} {cursor : String},
    Chained id cursor fs → ∀ (k : Nat) (f g : FetchCall), fs[k]? = some f → fs[k + 1]? = some g →
      ∃ page last, f.res = .ok (page ++ [last]) ∧ g.cursor = last.Cursor := by
  intro fs
  induction fs with
  | nil => intro cursor _ k f g hf; simp at hf
  | cons x rest ih =>
    intro cursor h k f g hf hg
    obtain ⟨-, -, -, h4⟩ := h
    rcases h4 with rfl | ⟨page, last, h5, h6⟩
    · simp at hg
    · cases k with
      | zero =>
        simp at hf hg
        subst hf
        refine ⟨page, last, h5, ?_⟩
        cases rest with
        | nil => simp at hg
        | cons y rest =>
          simp at hg
          subst hg
          exact h6.2.1
      | succ k =>
        simp only [List.getElem?_cons_succ] at hf hg
        exact ih h6 k f g hf hg

theorem LoopTrace.chained {lt id cursor : String} {fin : Option AuditLogEntry} {tr : List Call}
    {res : Option (Except Error (Option AuditLogEntry))}
    (h : LoopTrace lt id cursor fin tr res) : Chained id cursor (fetchCalls tr) := by
  induction h with
  | outOfFuel => exact trivial
  | fetchFailed cursor fin err => exact ⟨rfl, rfl, rfl, Or.inl rfl⟩
  | drained cursor fin => exact ⟨rfl, rfl, rfl, Or.inl rfl⟩
  | uploadFailed cursor fin page ups data err hne hups hpre =>
    have : fetchCalls (Call.fetch id cursor pageSize (.ok page) ::
        (ups ++ [Call.upload lt id data (.error err)])) = [⟨id, cursor, pageSize, .ok page⟩] := by
      have h1 : ∀ tr, fetchCalls (Call.fetch id cursor pageSize (.ok page) :: tr)
          = ⟨id, cursor, pageSize, .ok page⟩ :: fetchCalls tr := by
        intro tr; simp [fetchCalls]
      rw [h1, fetchCalls_append, hups.fetchCalls]
      rfl
    rw [this]
    exact ⟨rfl, rfl, rfl, Or.inl rfl⟩
  | page cursor fin page last ups rest res hlast hups hw hrest ih =>
    have : fetchCalls (Call.fetch id cursor pageSize (.ok page) :: (ups ++ rest))
        = ⟨id, cursor, pageSize, .ok page⟩ :: fetchCalls rest := by
      have h1 : ∀ tr, fetchCalls (Call.fetch id cursor pageSize (.ok page) :: tr)
          = ⟨id, cursor, pageSize, .ok page⟩ :: fetchCalls tr := by
        intro tr; simp [fetchCalls]
      rw [h1, fetchCalls_append, hups.fetchCalls]
      rfl
    rw [this]
    obtain ⟨pre, rfl⟩ := getLast?_eq_some_concat page last hlast
    exact ⟨rfl, rfl, rfl, Or.inr ⟨pre, last, rfl, ih⟩⟩

/-- The fetches of a run: all for `id` with limit `pageSize`; the first, if any, after a
successful load, with the start cursor of what was loaded; the others chained. -/
theorem ProcessTrace.fetches {lt id : String} {tr : List Call} {o : Outcome}
    (h : ProcessTrace lt id tr o) :
    (tr = [] ∨ ∃ r, tr.head? = some (Call.load lt id r)) ∧
    (fetchCalls tr = [] ∨
      ∃ checkpoint, tr.head? = some (Call.load lt id (.ok checkpoint)) ∧
        Chained id (startCursor checkpoint) (fetchCalls tr)) := by
  have hfc : ∀ (r : Except Error (Option Checkpoint)) (loop : List Call),
      fetchCalls (Call.load lt id r :: loop) = fetchCalls loop := by
    intro r loop; simp [fetchCalls]
  cases h with
  | loadFailed err => exact ⟨Or.inr ⟨_, rfl⟩, Or.inl rfl⟩
  | outOfFuel checkpoint loop h =>
    exact ⟨Or.inr ⟨_, rfl⟩, Or.inr ⟨checkpoint, rfl, by rw [hfc]; exact h.chained⟩⟩
  | pageFailed checkpoint loop err h =>
    exact ⟨Or.inr ⟨_, rfl⟩, Or.inr ⟨checkpoint, rfl, by rw [hfc]; exact h.chained⟩⟩
  | nothingSeen checkpoint loop h =>
    exact ⟨Or.inr ⟨_, rfl⟩, Or.inr ⟨checkpoint, rfl, by rw [hfc]; exact h.chained⟩⟩
  | saved checkpoint loop fin res h =>
    refine ⟨Or.inr ⟨_, rfl⟩, Or.inr ⟨checkpoint, rfl, ?_⟩⟩
    rw [hfc, fetchCalls_append]
    have : fetchCalls [Call.save ⟨fin.Cursor, fin.AuditLog.Timestamp⟩ lt id res] = [] := rfl
    rw [this, List.append_nil]
    exact h.chained

/-! ## Lemmas: the windows cover the page -/

theorem slice_append_drop (auditLogs : List AuditLogEntry) (lo hi : Nat) (h : lo ≤ hi) :
    slice auditLogs lo hi ++ auditLogs.drop hi = auditLogs.drop lo := by
  have : auditLogs.drop hi = (auditLogs.drop lo).drop (hi - lo) := by
    rw [List.drop_drop]
    congr 1
    omega
  rw [this, slice, List.take_append_drop]

theorem drop_succ_of_drop_eq_cons {α : Type} {l rest : List α} {a : α} {i : Nat}
    (h : a :: rest = l.drop i) : rest = l.drop (i + 1) := by
  have : (l.drop i).drop 1 = l.drop (i + 1) := by rw [List.drop_drop]
  rw [← this, ← h]
  rfl

/-- The slices the scan closes, followed by what lies from the final `windowStart` on,
are what lies from the initial `windowStart` on. -/
theorem scanWindows_flatten (auditLogs : List AuditLogEntry) :
    ∀ (rest : List AuditLogEntry) (i windowStart : Nat) (cursorDay : Time),
      windowStart ≤ i → rest = auditLogs.drop i →
      (scanWindows auditLogs rest i windowStart cursorDay).1.flatten
          ++ auditLogs.drop (scanWindows auditLogs rest i windowStart cursorDay).2
        = auditLogs.drop windowStart := by
  intro rest
  induction rest with
  | nil => intro i ws cd _ _; simp [scanWindows]
  | cons e rest ih =>
    intro i ws cd hle hrest
    have hrest' := drop_succ_of_drop_eq_cons hrest
    by_cases hA : e.AuditLog.Timestamp.After (cd.Add (24 * Hour)) = true
    · simp only [scanWindows, hA, if_true, List.flatten_cons, List.append_assoc]
      rw [ih (i + 1) i _ (Nat.le_succ i) hrest', slice_append_drop _ _ _ hle]
    · simp only [scanWindows, hA]
      exact ih (i + 1) ws cd (Nat.le_succ_of_le hle) hrest'

/-- The windows of a page, concatenated, are the page. -/
theorem windows_flatten (page : List AuditLogEntry) : (windows page).flatten = page := by
  cases page with
  | nil => rfl
  | cons first tl =>
    have h := scanWindows_flatten (first :: tl) (first :: tl) 0 0 (anchorOf first) (Nat.le_refl 0) rfl
    simp only [windows]
    split_ifs with hlen
    · rw [List.flatten_append]
      simpa using h
    · have : (first :: tl).drop (scanWindows (first :: tl) (first :: tl) 0 0 (anchorOf first)).2 = [] := by
        apply List.eq_nil_of_length_eq_zero
        omega
      rw [this] at h
      simpa using h

/-! ## Lemmas: uploads follow the pages -/

theorem LoopTrace.flatten_all {lt id cursor : String} {fin : Option AuditLogEntry} {tr : List Call}
    {res : Option (Except Error (Option AuditLogEntry))}
    (h : LoopTrace lt id cursor fin tr res) :
    (∀ c ∈ tr, c.failed = false) → (uploads tr).flatten = (pages tr).flatten := by
  induction h with
  | outOfFuel => intro _; rfl
  | fetchFailed cursor fin err => intro _; rfl
  | drained cursor fin => intro _; rfl
  | uploadFailed cursor fin page ups data err hne hups hpre =>
    intro hok
    have := hok (Call.upload lt id data (.error err)) (by simp)
    cases this
  | page cursor fin page last ups rest res hlast hups hw hrest ih =>
    intro hok
    have hrest_ok : ∀ c ∈ rest, c.failed = false := fun c hc => hok c (by simp [hc])
    have hu : uploads (Call.fetch id cursor pageSize (.ok page) :: (ups ++ rest))
        = windows page ++ uploads rest := by
      have : ∀ tr, uploads (Call.fetch id cursor pageSize (.ok page) :: tr) = uploads tr := by
        intro tr; simp [uploads]
      rw [this, uploads_append, hw]
    rw [hu, pages_cons_fetch_ok, pages_append, hups.pages, List.flatten_append, windows_flatten,
      ih hrest_ok]
    rfl

theorem LoopTrace.flatten_before_fetch {lt id cursor : String} {fin : Option AuditLogEntry}
    {tr : List Call} {res : Option (Except Error (Option AuditLogEntry))}
    (h : LoopTrace lt id cursor fin tr res) :
    ∀ pre id' cur lim r post, tr = pre ++ Call.fetch id' cur lim r :: post →
      (uploads pre).flatten = (pages pre).flatten := by
  have single : ∀ (x : Call) (pre post : List Call) (c : Call), [x] = pre ++ c :: post → pre = [] := by
    intro x pre post c h
    cases pre with
    | nil => rfl
    | cons y pre =>
      simp only [List.cons_append, List.cons.injEq] at h
      exact absurd h.2 (by simp)
  induction h with
  | outOfFuel => intro pre id' cur lim r post h; simp at h
  | fetchFailed cursor fin err =>
    intro pre id' cur lim r post h
    rw [single _ _ _ _ h]; rfl
  | drained cursor fin =>
    intro pre id' cur lim r post h
    rw [single _ _ _ _ h]; rfl
  | uploadFailed cursor fin page ups data err hne hups hpre =>
    intro pre id' cur lim r post h
    cases pre with
    | nil => rfl
    | cons y pre =>
      exfalso
      simp only [List.cons_append, List.cons.injEq] at h
      have h2 : (ups ++ [Call.upload lt id data (.error err)]) ++ [] = pre ++ Call.fetch id' cur lim r :: post := by
        rw [List.append_nil]; exact h.2
      obtain ⟨mid, -, hmid⟩ := split_after (fun c => c.isFetch = true) _ _ _ _ _
        (fun c hc => by
          rcases List.mem_append.1 hc with hc | hc
          · simp [hups.isFetch c hc]
          · simp at hc; subst hc; simp [Call.isFetch]) rfl h2
      simp at hmid
  | page cursor fin page last ups rest res hlast hups hw hrest ih =>
    intro pre id' cur lim r post h
    cases pre with
    | nil => rfl
    | cons y pre =>
      simp only [List.cons_append, List.cons.injEq] at h
      obtain ⟨mid, hpre, hmid⟩ := split_after (fun c => c.isFetch = true) _ _ _ _ _
        (fun c hc => by simp [hups.isFetch c hc]) rfl h.2
      have hm := ih mid id' cur lim r post hmid
      rw [← h.1, hpre]
      have hu : uploads (Call.fetch id cursor pageSize (.ok page) :: (ups ++ mid))
          = windows page ++ uploads mid := by
        have : ∀ tr, uploads (Call.fetch id cursor pageSize (.ok page) :: tr) = uploads tr := by
          intro tr; simp [uploads]
        rw [this, uploads_append, hw]
      rw [hu, pages_cons_fetch_ok, pages_append, hups.pages, List.flatten_append, windows_flatten, hm]
      rfl

/-- In a run, before each fetch everything fetched so far has been uploaded, in order;
and so at the end of a run in which no call failed. -/
theorem ProcessTrace.flatten {lt id : String} {tr : List Call} {o : Outcome}
    (h : ProcessTrace lt id tr o) :
    (∀ pre id' cur lim r post, tr = pre ++ Call.fetch id' cur lim r :: post →
      (uploads pre).flatten = (pages pre).flatten) ∧
    ((∀ c ∈ tr, c.failed = false) → (uploads tr).flatten = (pages tr).flatten) := by
  have hup : ∀ (r : Except Error (Option Checkpoint)) (loop : List Call),
      uploads (Call.load lt id r :: loop) = uploads loop := by
    intro r loop; simp [uploads]
  have hpg : ∀ (r : Except Error (Option Checkpoint)) (loop : List Call),
      pages (Call.load lt id r :: loop) = pages loop := by
    intro r loop; simp [pages]
  have before : ∀ (checkpoint : Option Checkpoint) (loop tail : List Call) cursor fin res,
      LoopTrace lt id cursor fin loop res → (∀ c ∈ tail, c.isFetch = false) →
      ∀ pre id' cur lim r post,
        Call.load lt id (.ok checkpoint) :: (loop ++ tail) = pre ++ Call.fetch id' cur lim r :: post →
        (uploads pre).flatten = (pages pre).flatten := by
    intro checkpoint loop tail cursor fin res hl htail pre id' cur lim r post h
    cases pre with
    | nil => simp at h
    | cons y pre =>
      simp only [List.cons_append, List.cons.injEq] at h
      rw [← h.1, hup, hpg]
      have hmem : Call.fetch id' cur lim r ∈ loop ++ tail := by rw [h.2]; simp
      rcases List.mem_append.1 hmem with hm | hm
      · have key : ∃ post', loop = pre ++ Call.fetch id' cur lim r :: post' := by
          have h2 := h.2
          clear hm hmem h
          induction tail using List.reverseRecOn generalizing post with
          | nil => exact ⟨post, by simpa using h2⟩
          | append_singleton tail a ih =>
            rcases eq_nil_or_snoc post with rfl | ⟨post', b, rfl⟩
            · exfalso
              rw [← List.append_assoc] at h2
              have h3 : (loop ++ tail) ++ [a] = pre ++ [Call.fetch id' cur lim r] := by simpa using h2
              have h4 := List.append_inj_right' h3 rfl
              simp at h4
              have := htail a (by simp)
              rw [h4] at this
              simp [Call.isFetch] at this
            · apply ih (fun c hc => htail c (by simp [hc])) post'
              rw [← List.append_assoc, ← List.cons_append, ← List.append_assoc] at h2
              exact List.append_inj_left' h2 rfl
        obtain ⟨post', hp⟩ := key
        exact hl.flatten_before_fetch pre id' cur lim r post' hp
      · have := htail _ hm
        simp [Call.isFetch] at this
  cases h with
  | loadFailed err =>
    refine ⟨?_, fun _ => rfl⟩
    intro pre id' cur lim r post h
    cases pre with
    | nil => simp at h
    | cons y pre =>
      simp only [List.cons_append, List.cons.injEq] at h
      exact absurd h.2 (by simp)
  | outOfFuel checkpoint loop h =>
    refine ⟨?_, ?_⟩
    · have := before checkpoint loop [] _ _ _ h (by simp)
      simpa using this
    · intro hok
      rw [hup, hpg]
      exact h.flatten_all (fun c hc => hok c (by simp [hc]))
  | pageFailed checkpoint loop err h =>
    refine ⟨?_, ?_⟩
    · have := before checkpoint loop [] _ _ _ h (by simp)
      simpa using this
    · intro hok
      rw [hup, hpg]
      exact h.flatten_all (fun c hc => hok c (by simp [hc]))
  | nothingSeen checkpoint loop h =>
    refine ⟨?_, ?_⟩
    · have := before checkpoint loop [] _ _ _ h (by simp)
      simpa using this
    · intro hok
      rw [hup, hpg]
      exact h.flatten_all (fun c hc => hok c (by simp [hc]))
  | saved checkpoint loop fin res h =>
    refine ⟨?_, ?_⟩
    · exact before checkpoint loop _ _ _ _ h (by intro c hc; simp at hc; subst hc; rfl)
    · intro hok
      rw [hup, hpg, uploads_append, pages_append]
      have h1 : uploads [Call.save ⟨fin.Cursor, fin.AuditLog.Timestamp⟩ lt id res] = [] := rfl
      have h2 : pages [Call.save ⟨fin.Cursor, fin.AuditLog.Timestamp⟩ lt id res] = [] := rfl
      rw [h1, h2, List.append_nil, List.append_nil]
      exact h.flatten_all (fun c hc => hok c (by simp [hc]))

/-! ## Lemmas: the scan of a page -/

theorem day_eq : (24 : Int) * Hour = 86400000000000 := by decide

theorem day_eq' : Hour * (24 : Int) = 86400000000000 := by decide

theorem After_iff (t u : Time) : t.After u = true ↔ u.unixNano < t.unixNano := by
  simp [Time.After]

theorem After_add_day (t cursorDay : Time) :
    t.After (cursorDay.Add (24 * Hour)) = true ↔ cursorDay.unixNano + 24 * Hour < t.unixNano := by
  simp [Time.After, Time.Add]

/-- An entry not strictly later than the anchor plus 24 hours is passed over. -/
theorem windowLoop_skip (lp : LogProcessor σ) (id : String) (auditLogs : List AuditLogEntry)
    (auditLog : AuditLogEntry) (rest : List AuditLogEntry) (i windowStart : Nat)
    (cursorDay : Time) (s : σ)
    (h : auditLog.AuditLog.Timestamp.unixNano ≤ cursorDay.unixNano + 24 * Hour) :
    windowLoop lp id auditLogs (auditLog :: rest) i windowStart cursorDay s
      = windowLoop lp id auditLogs rest (i + 1) windowStart cursorDay s := by
  have hA : ¬ auditLog.AuditLog.Timestamp.After (cursorDay.Add (24 * Hour)) = true := by
    rw [After_add_day]; omega
  simp [windowLoop, hA]

/-- An entry strictly later than the anchor plus 24 hours closes the window before it. -/
theorem windowLoop_close (lp : LogProcessor σ) (id : String) (auditLogs : List AuditLogEntry)
    (auditLog : AuditLogEntry) (rest : List AuditLogEntry) (i windowStart : Nat)
    (cursorDay : Time) (s : σ)
    (h : cursorDay.unixNano + 24 * Hour < auditLog.AuditLog.Timestamp.unixNano) :
    ∃ res, (windowLoop lp id auditLogs (auditLog :: rest) i windowStart cursorDay s).calls.head?
        = some (Call.upload lp.auditLogSvc.logType id (slice auditLogs windowStart i) res) ∧
      (lp.uploader.UploadAuditLogs lp.auditLogSvc.logType id (slice auditLogs windowStart i) s).1
        = res ∧
      ∀ s3URI, res = .ok s3URI →
        (windowLoop lp id auditLogs (auditLog :: rest) i windowStart cursorDay s).val
          = (windowLoop lp id auditLogs rest (i + 1) i (cursorDay.Add (24 * Hour))
              (lp.uploader.UploadAuditLogs lp.auditLogSvc.logType id
                (slice auditLogs windowStart i) s).2).val := by
  have hA : auditLog.AuditLog.Timestamp.After (cursorDay.Add (24 * Hour)) = true := by
    rw [After_add_day]; exact h
  have hcomm : Hour * (24 : Int) = 24 * Hour := by rw [day_eq, day_eq']
  rcases hU : lp.uploader.UploadAuditLogs lp.auditLogSvc.logType id (slice auditLogs windowStart i) s
    with ⟨res, s1⟩
  cases res with
  | error err =>
    refine ⟨.error err, by simp [windowLoop, hA, hU], rfl, ?_⟩
    intro uri hres; cases hres
  | ok uri =>
    refine ⟨.ok uri, by simp [windowLoop, hA, hU], rfl, ?_⟩
    intro uri' _
    simp [windowLoop, hA, hU, hcomm]

theorem scanWindows_none (auditLogs : List AuditLogEntry) :
    ∀ (rest : List AuditLogEntry) (i windowStart : Nat) (cursorDay : Time),
      (∀ e ∈ rest, e.AuditLog.Timestamp.unixNano ≤ cursorDay.unixNano + 24 * Hour) →
      scanWindows auditLogs rest i windowStart cursorDay = ([], windowStart) := by
  intro rest
  induction rest with
  | nil => intro i ws cd _; rfl
  | cons e rest ih =>
    intro i ws cd h
    have hA : ¬ e.AuditLog.Timestamp.After (cd.Add (24 * Hour)) = true := by
      rw [After_add_day]
      have := h e (List.mem_cons_self _ _)
      omega
    simp only [scanWindows, hA]
    exact ih (i + 1) ws cd (fun e he => h e (List.mem_cons_of_mem _ he))

/-- A page whose entries are all at most 24 hours after the anchor is one window. -/
theorem windows_single (first : AuditLogEntry) (tl : List AuditLogEntry)
    (h : ∀ e ∈ first :: tl, e.AuditLog.Timestamp.unixNano ≤ (anchorOf first).unixNano + 24 * Hour) :
    windows (first :: tl) = [first :: tl] := by
  simp [windows, scanWindows_none _ _ 0 0 _ h]

/-- The slices `processPage` uploads for a page are the first windows of the page; all
of them unless an upload fails. -/
theorem uploadWindows_uploads (lp : LogProcessor σ) (id : String) (first : AuditLogEntry)
    (tl : List AuditLogEntry) (s : σ) :
    uploads (uploadWindows lp id first (first :: tl) s).calls <+: windows (first :: tl) ∧
    uploads (uploadWindows lp id first (first :: tl) s).calls ≠ [] := by
  rcases uploadWindows_spec lp id first tl s with ⟨-, -, h3⟩ | ⟨err, ups, data, -, h2, -, h4⟩
  · rw [h3]
    refine ⟨List.prefix_refl _, ?_⟩
    intro hnil
    have := windows_flatten (first :: tl)
    rw [hnil] at this
    simp at this
  · have : uploads (uploadWindows lp id first (first :: tl) s).calls = uploads ups ++ [data] := by
      rw [h2, uploads_append]; rfl
    rw [this]
    exact ⟨h4, by simp⟩

/-- For a timestamp rendered in UTC the anchor is the instant cut down to a multiple of
24 hours: 00:00:00 UTC of the UTC day that holds the instant. -/
theorem anchorOf_utc (first : AuditLogEntry) (h : first.AuditLog.Timestamp.offset = 0) :
    (anchorOf first).unixNano
      = first.AuditLog.Timestamp.unixNano / 86400000000000 * 86400000000000 := by
  rw [anchorOf_unixNano, Time.localDays, h]
  omega

/-- The anchor of a page whose first entry is a UTC timestamp on day `day`. -/
theorem anchorOf_on_day (first : AuditLogEntry) (day : Int)
    (h : first.AuditLog.Timestamp.offset = 0)
    (h1 : day * 86400000000000 ≤ first.AuditLog.Timestamp.unixNano)
    (h2 : first.AuditLog.Timestamp.unixNano < (day + 1) * 86400000000000) :
    (anchorOf first).unixNano = day * 86400000000000 := by
  rw [anchorOf_utc first h]
  omega

theorem scanWindows_skip_prefix (auditLogs : List AuditLogEntry) :
    ∀ (l1 rest : List AuditLogEntry) (i windowStart : Nat) (cursorDay : Time),
      (∀ e ∈ l1, e.AuditLog.Timestamp.unixNano ≤ cursorDay.unixNano + 24 * Hour) →
      scanWindows auditLogs (l1 ++ rest) i windowStart cursorDay
        = scanWindows auditLogs rest (i + l1.length) windowStart cursorDay := by
  intro l1
  induction l1 with
  | nil => intro rest i ws cd _; rfl
  | cons e l1 ih =>
    intro rest i ws cd h
    have hA : ¬ e.AuditLog.Timestamp.After (cd.Add (24 * Hour)) = true := by
      rw [After_add_day]
      have := h e (List.mem_cons_self _ _)
      omega
    have hs : scanWindows auditLogs (e :: (l1 ++ rest)) i ws cd
        = scanWindows auditLogs (l1 ++ rest) (i + 1) ws cd := by
      simp [scanWindows, hA]
    rw [List.cons_append, hs, ih rest (i + 1) ws cd (fun e he => h e (List.mem_cons_of_mem _ he))]
    have hi : i + 1 + l1.length = i + (e :: l1).length := by
      simp only [List.length_cons]; omega
    rw [hi]

theorem exists_first_split {α : Type} (P : α → Prop) [DecidablePred P] :
    ∀ (l : List α), (∃ e ∈ l, P e) →
      ∃ l1 e l2, l = l1 ++ e :: l2 ∧ P e ∧ ∀ x ∈ l1, ¬ P x := by
  intro l
  induction l with
  | nil => rintro ⟨e, he, -⟩; simp at he
  | cons a l ih =>
    intro h
    by_cases ha : P a
    · exact ⟨[], a, l, rfl, ha, by simp⟩
    · obtain ⟨e, he, hP⟩ := h
      rcases List.mem_cons.1 he with rfl | he
      · exact absurd hP ha
      · obtain ⟨l1, e', l2, h1, h2, h3⟩ := ih ⟨e, he, hP⟩
        refine ⟨a :: l1, e', l2, by rw [h1]; rfl, h2, ?_⟩
        intro x hx
        rcases List.mem_cons.1 hx with rfl | hx
        · exact ha
        · exact h3 x hx

/-- A page with an entry strictly later than anchor + 24h, and no entry later than
anchor + 48h, is two windows. -/
theorem windows_two (first : AuditLogEntry) (tl : List AuditLogEntry)
    (hsome : ∃ e ∈ first :: tl, (anchorOf first).unixNano + 24 * Hour < e.AuditLog.Timestamp.unixNano)
    (hall : ∀ e ∈ first :: tl,
      e.AuditLog.Timestamp.unixNano ≤ (anchorOf first).unixNano + 24 * Hour + 24 * Hour) :
    (windows (first :: tl)).length = 2 := by
  obtain ⟨l1, e, l2, hsplit, he, hl1⟩ := exists_first_split
    (fun e : AuditLogEntry => (anchorOf first).unixNano + 24 * Hour < e.AuditLog.Timestamp.unixNano)
    (first :: tl) hsome
  have hl1' : ∀ x ∈ l1, x.AuditLog.Timestamp.unixNano ≤ (anchorOf first).unixNano + 24 * Hour := by
    intro x hx
    have := hl1 x hx
    omega
  have hA : e.AuditLog.Timestamp.After ((anchorOf first).Add (24 * Hour)) = true := by
    rw [After_add_day]; exact he
  have hl2 : ∀ x ∈ l2, x.AuditLog.Timestamp.unixNano
      ≤ ((anchorOf first).Add (Hour * 24)).unixNano + 24 * Hour := by
    intro x hx
    have := hall x (by rw [hsplit]; simp [hx])
    simp only [Time.Add, day_eq, day_eq'] at this ⊢
    omega
  have hscan : scanWindows (first :: tl) (first :: tl) 0 0 (anchorOf first)
      = ([slice (first :: tl) 0 (0 + l1.length)], 0 + l1.length) := by
    have h1 := scanWindows_skip_prefix (first :: tl) l1 (e :: l2) 0 0 (anchorOf first) hl1'
    have : scanWindows (first :: tl) (l1 ++ e :: l2) 0 0 (anchorOf first)
        = ([slice (first :: tl) 0 (0 + l1.length)], 0 + l1.length) := by
      rw [h1]
      simp only [scanWindows, hA, if_true]
      rw [scanWindows_none _ _ _ _ _ hl2]
    rw [← hsplit] at this
    exact this
  have hdrop : ((first :: tl).drop (0 + l1.length)).length > 0 := by
    rw [hsplit]
    simp
  simp only [windows, hscan]
  rw [if_pos hdrop]
  rfl

/-- Without a failed call, the slices uploaded by the loop are the windows of the pages
it fetched, page after page. -/
theorem LoopTrace.uploads_are_windows {lt id cursor : String} {fin : Option AuditLogEntry}
    {tr : List Call} {res : Option (Except Error (Option AuditLogEntry))}
    (h : LoopTrace lt id cursor fin tr res) :
    (∀ c ∈ tr, c.failed = false) → uploads tr = ((pages tr).map windows).flatten := by
  induction h with
  | outOfFuel => intro _; rfl
  | fetchFailed cursor fin err => intro _; rfl
  | drained cursor fin => intro _; rfl
  | uploadFailed cursor fin page ups data err hne hups hpre =>
    intro hok
    have := hok (Call.upload lt id data (.error err)) (by simp)
    cases this
  | page cursor fin page last ups rest res hlast hups hw hrest ih =>
    intro hok
    have hrest_ok : ∀ c ∈ rest, c.failed = false := fun c hc => hok c (by simp [hc])
    have hu : uploads (Call.fetch id cursor pageSize (.ok page) :: (ups ++ rest))
        = windows page ++ uploads rest := by
      have : ∀ tr, uploads (Call.fetch id cursor pageSize (.ok page) :: tr) = uploads tr := by
        intro tr; simp [uploads]
      rw [this, uploads_append, hw]
    rw [hu, pages_cons_fetch_ok, pages_append, hups.pages, ih hrest_ok]
    rfl

/-- Without a failed call, the slices uploaded in a run are the windows of the pages it
fetched, page after page. -/
theorem ProcessTrace.uploads_windows {lt id : String} {tr : List Call} {o : Outcome}
    (h : ProcessTrace lt id tr o) (hok : ∀ c ∈ tr, c.failed = false) :
    uploads tr = ((pages tr).map windows).flatten := by
  have hup : ∀ (r : Except Error (Option Checkpoint)) (loop : List Call),
      uploads (Call.load lt id r :: loop) = uploads loop := by
    intro r loop; simp [uploads]
  have hpg : ∀ (r : Except Error (Option Checkpoint)) (loop : List Call),
      pages (Call.load lt id r :: loop) = pages loop := by
    intro r loop; simp [pages]
  cases h with
  | loadFailed err => rfl
  | outOfFuel checkpoint loop h =>
    rw [hup, hpg]; exact h.uploads_are_windows (fun c hc => hok c (by simp [hc]))
  | pageFailed checkpoint loop err h =>
    rw [hup, hpg]; exact h.uploads_are_windows (fun c hc => hok c (by simp [hc]))
  | nothingSeen checkpoint loop h =>
    rw [hup, hpg]; exact h.uploads_are_windows (fun c hc => hok c (by simp [hc]))
  | saved checkpoint loop fin res h =>
    rw [hup, hpg, uploads_append, pages_append]
    have h1 : uploads [Call.save ⟨fin.Cursor, fin.AuditLog.Timestamp⟩ lt id res] = [] := rfl
    have h2 : pages [Call.save ⟨fin.Cursor, fin.AuditLog.Timestamp⟩ lt id res] = [] := rfl
    rw [h1, h2, List.append_nil, List.append_nil]
    exact h.uploads_are_windows (fun c hc => hok c (by simp [hc]))

/-! ## Lemmas: decimal numerals -/

theorem digitsRev_of_lt (fuel n : Nat) (h : n < 10) : digitsRev (fuel + 1) n = [n] := by
  simp [digitsRev, h]

theorem digitsRev_of_ge (fuel n : Nat) (h : 10 ≤ n) :
    digitsRev (fuel + 1) n = n % 10 :: digitsRev fuel (n / 10) := by
  have : ¬ n < 10 := by omega
  simp [digitsRev, this]

theorem digitsRev_lt_ten : ∀ (fuel n : Nat), ∀ d ∈ digitsRev fuel n, d < 10 := by
  intro fuel
  induction fuel with
  | zero => intro n d hd; simp [digitsRev] at hd
  | succ fuel ih =>
    intro n d hd
    by_cases h : n < 10
    · rw [digitsRev_of_lt fuel n h] at hd
      simp at hd
      omega
    · rw [digitsRev_of_ge fuel n (by omega)] at hd
      rcases List.mem_cons.1 hd with rfl | hd
      · omega
      · exact ih _ d hd

theorem digitsRev_ne_nil (fuel n : Nat) : digitsRev (fuel + 1) n ≠ [] := by
  by_cases h : n < 10
  · rw [digitsRev_of_lt fuel n h]; simp
  · rw [digitsRev_of_ge fuel n (by omega)]; simp

theorem valueRev_digitsRev : ∀ (fuel n : Nat), n < fuel → valueRev (digitsRev fuel n) = n := by
  intro fuel
  induction fuel with
  | zero => intro n h; omega
  | succ fuel ih =>
    intro n h
    by_cases h10 : n < 10
    · rw [digitsRev_of_lt fuel n h10]
      simp [valueRev]
    · rw [digitsRev_of_ge fuel n (by omega)]
      simp only [valueRev]
      rw [ih (n / 10) (by omega)]
      omega

theorem digitChar_injective : ∀ a b : Fin 10, digitChar a = digitChar b → a = b := by decide

theorem digitChar_inj (a b : Nat) (ha : a < 10) (hb : b < 10) (h : digitChar a = digitChar b) :
    a = b := by
  have := digitChar_injective ⟨a, ha⟩ ⟨b, hb⟩ h
  exact congrArg Fin.val this

theorem digitChar_ne_sep : ∀ a : Fin 10, digitChar a ≠ '/' ∧ digitChar a ≠ '-' := by decide

theorem map_digitChar_inj : ∀ (l1 l2 : List Nat), (∀ d ∈ l1, d < 10) → (∀ d ∈ l2, d < 10) →
    l1.map digitChar = l2.map digitChar → l1 = l2 := by
  intro l1
  induction l1 with
  | nil =>
    intro l2 _ _ h
    cases l2 with
    | nil => rfl
    | cons b l2 => simp at h
  | cons a l1 ih =>
    intro l2 h1 h2 h
    cases l2 with
    | nil => simp at h
    | cons b l2 =>
      simp only [List.map_cons, List.cons.injEq] at h
      have hab := digitChar_inj a b (h1 a (List.mem_cons_self _ _)) (h2 b (List.mem_cons_self _ _)) h.1
      rw [hab, ih l2 (fun d hd => h1 d (List.mem_cons_of_mem _ hd))
        (fun d hd => h2 d (List.mem_cons_of_mem _ hd)) h.2]

/-- Different numbers have different decimal numerals. -/
theorem decimal_inj (a b : Nat) (h : decimal a = decimal b) : a = b := by
  unfold decimal at h
  have h1 := map_digitChar_inj _ _
    (fun d hd => digitsRev_lt_ten (a + 1) a d (List.mem_reverse.1 hd))
    (fun d hd => digitsRev_lt_ten (b + 1) b d (List.mem_reverse.1 hd)) h
  have h2 := List.reverse_injective h1
  have := congrArg valueRev h2
  rwa [valueRev_digitsRev _ _ (Nat.lt_succ_self a), valueRev_digitsRev _ _ (Nat.lt_succ_self b)] at this

theorem decimal_chars (n : Nat) : ∀ c ∈ decimal n, c ≠ '/' ∧ c ≠ '-' := by
  intro c hc
  unfold decimal at hc
  obtain ⟨d, hd, rfl⟩ := List.mem_map.1 hc
  exact digitChar_ne_sep ⟨d, digitsRev_lt_ten _ _ d (List.mem_reverse.1 hd)⟩

theorem decimal_ne_nil (n : Nat) : decimal n ≠ [] := by
  unfold decimal
  intro h
  have := List.map_eq_nil_iff.1 h
  exact digitsRev_ne_nil n n (List.reverse_eq_nil_iff.1 this)

theorem mk_inj {l1 l2 : List Char} (h : String.mk l1 = String.mk l2) : l1 = l2 :=
  congrArg String.data h

/-- The verb `%d` writes different integers differently. -/
theorem itoa_inj (x y : Int) (h : itoa x = itoa y) : x = y := by
  unfold itoa at h
  by_cases hx : x < 0 <;> by_cases hy : y < 0
  · simp only [hx, hy, if_true] at h
    have h' := mk_inj h
    simp only [List.cons.injEq, true_and] at h'
    have := decimal_inj _ _ h'
    omega
  · simp only [hx, hy, if_true, if_false] at h
    have h' := mk_inj h
    have hm : '-' ∈ decimal y.toNat := by rw [← h']; simp
    exact absurd rfl (decimal_chars _ _ hm).2
  · simp only [hx, hy, if_true, if_false] at h
    have h' := mk_inj h
    have hm : '-' ∈ decimal x.toNat := by rw [h']; simp
    exact absurd rfl (decimal_chars _ _ hm).2
  · simp only [hx, hy, if_false] at h
    have h' := mk_inj h
    have := decimal_inj _ _ h'
    omega

theorem itoa_no_slash (x : Int) : '/' ∉ (itoa x).data := by
  unfold itoa
  intro h
  by_cases hx : x < 0
  · simp only [hx, if_true] at h
    rcases List.mem_cons.1 h with h | h
    · cases h
    · exact absurd rfl (decimal_chars _ _ h).1
  · simp only [hx, if_false] at h
    exact absurd rfl (decimal_chars _ _ h).1

/-- A field in `0..99` written on two digits: the tens, then the units. -/
theorem appendInt_two (x : Int) (h0 : 0 ≤ x) (h1 : x < 100) :
    appendInt x 2 = String.mk [digitChar (x.toNat / 10), digitChar (x.toNat % 10)] := by
  have hx : ¬ x < 0 := by omega
  obtain ⟨n, rfl⟩ := Int.eq_ofNat_of_zero_le h0
  have hn : n < 100 := by omega
  simp only [appendInt, hx, if_false, Int.toNat_ofNat]
  by_cases h10 : n < 10
  · have hd : decimal n = [digitChar n] := by
      unfold decimal
      rw [digitsRev_of_lt n n h10]; rfl
    have e1 : n / 10 = 0 := by omega
    have e2 : n % 10 = n := by omega
    rw [hd, e1, e2]
    rfl
  · have hd : decimal n = [digitChar (n / 10), digitChar (n % 10)] := by
      unfold decimal
      rw [digitsRev_of_ge n n (by omega)]
      obtain ⟨m, hm⟩ : ∃ m, n = m + 1 := ⟨n - 1, by omega⟩
      rw [hm, digitsRev_of_lt m ((m + 1) / 10) (by omega)]
      rfl
    rw [hd]
    rfl

theorem appendInt_two_inj (x y : Int) (hx0 : 0 ≤ x) (hx1 : x < 100) (hy0 : 0 ≤ y) (hy1 : y < 100)
    (h : appendInt x 2 = appendInt y 2) : x = y := by
  rw [appendInt_two x hx0 hx1, appendInt_two y hy0 hy1] at h
  have h := mk_inj h
  simp only [List.cons.injEq, and_true] at h
  have h1 := digitChar_inj _ _ (by omega) (by omega) h.1
  have h2 := digitChar_inj _ _ (Nat.mod_lt _ (by omega)) (Nat.mod_lt _ (by omega)) h.2
  omega

theorem appendInt_two_length (x : Int) (h0 : 0 ≤ x) (h1 : x < 100) :
    (appendInt x 2).data.length = 2 := by
  rw [appendInt_two x h0 h1]
  rfl

/-! ## Lemmas: the fields of a timestamp -/

theorem civilFromDays_month (z : Int) :
    1 ≤ (civilFromDays z).2.1 ∧ (civilFromDays z).2.1 ≤ 12 := by
  simp only [civilFromDays]
  split_ifs <;> omega

theorem civilFromDays_day (z : Int) :
    1 ≤ (civilFromDays z).2.2 ∧ (civilFromDays z).2.2 ≤ 31 := by
  simp only [civilFromDays]
  omega

theorem Time.Month_range (t : Time) : 1 ≤ t.Month ∧ t.Month ≤ 12 := civilFromDays_month _

theorem Time.Day_range (t : Time) : 1 ≤ t.Day ∧ t.Day ≤ 31 := civilFromDays_day _

theorem Time.Hour_range (t : Time) : 0 ≤ t.Hour ∧ t.Hour ≤ 23 := by
  simp only [Time.Hour, Time.secondOfDay]; omega

theorem Time.Minute_range (t : Time) : 0 ≤ t.Minute ∧ t.Minute ≤ 59 := by
  simp only [Time.Minute, Time.secondOfDay]; omega

theorem Time.Second_range (t : Time) : 0 ≤ t.Second ∧ t.Second ≤ 59 := by
  simp only [Time.Second, Time.secondOfDay]; omega

/-! ## Lemmas: the S3 key -/

/-- Two texts cut at their first `/` agree before and after it. -/
theorem sep_split : ∀ (l1 l2 r1 r2 : List Char), '/' ∉ l1 → '/' ∉ l2 →
    l1 ++ '/' :: r1 = l2 ++ '/' :: r2 → l1 = l2 ∧ r1 = r2 := by
  intro l1
  induction l1 with
  | nil =>
    intro l2 r1 r2 _ h2 h
    cases l2 with
    | nil => simpa using h
    | cons b l2 =>
      simp only [List.nil_append, List.cons_append, List.cons.injEq] at h
      exact absurd (h.1 ▸ List.mem_cons_self _ _) h2
  | cons a l1 ih =>
    intro l2 r1 r2 h1 h2 h
    cases l2 with
    | nil =>
      simp only [List.nil_append, List.cons_append, List.cons.injEq] at h
      exact absurd (h.1 ▸ List.mem_cons_self _ _) h1
    | cons b l2 =>
      simp only [List.cons_append, List.cons.injEq] at h
      obtain ⟨e1, e2⟩ := ih l2 r1 r2 (fun hm => h1 (List.mem_cons_of_mem _ hm))
        (fun hm => h2 (List.mem_cons_of_mem _ hm)) h.2
      exact ⟨by rw [h.1, e1], e2⟩

/-- The characters of the key, cut at the `/` that end the year, the month and the day. -/
theorem generateS3Key_data (lt id : String) (t : Time) :
    (aws.generateS3Key lt id t).data
      = (lt ++ "=" ++ id ++ "/year=").data ++ ((itoa t.Year).data ++ '/' ::
          ("month=".data ++ ((itoa t.Month).data ++ '/' ::
            ("day=".data ++ ((itoa t.Day).data ++ '/' ::
              ("audit-logs-".data ++ (t.Format_2006_01_02_15_04_05.data ++ ".json.gz".data))))))) := by
  simp only [aws.generateS3Key, String.data_append, List.append_assoc]
  rfl

/-- Keys for the same category and identity are equal only when the timestamps render
the same year, month, day, hour, minute and second. -/
theorem generateS3Key_inj (lt id : String) (t1 t2 : Time)
    (h : aws.generateS3Key lt id t1 = aws.generateS3Key lt id t2) :
    t1.Year = t2.Year ∧ t1.Month = t2.Month ∧ t1.Day = t2.Day ∧
      t1.Hour = t2.Hour ∧ t1.Minute = t2.Minute ∧ t1.Second = t2.Second := by
  have h := congrArg String.data h
  rw [generateS3Key_data, generateS3Key_data] at h
  have h := List.append_cancel_left h
  obtain ⟨hY, h⟩ := sep_split _ _ _ _ (itoa_no_slash _) (itoa_no_slash _) h
  have h := List.append_cancel_left h
  obtain ⟨hM, h⟩ := sep_split _ _ _ _ (itoa_no_slash _) (itoa_no_slash _) h
  have h := List.append_cancel_left h
  obtain ⟨hD, h⟩ := sep_split _ _ _ _ (itoa_no_slash _) (itoa_no_slash _) h
  have h := List.append_cancel_left h
  have h := List.append_cancel_right h
  have eY := itoa_inj _ _ (String.ext hY)
  have eM := itoa_inj _ _ (String.ext hM)
  have eD := itoa_inj _ _ (String.ext hD)
  refine ⟨eY, eM, eD, ?_⟩
  simp only [Time.Format_2006_01_02_15_04_05, String.data_append, List.append_assoc, eY, eM, eD] at h
  have h := List.append_cancel_left h
  have h := List.append_cancel_left h
  have h := List.append_cancel_left h
  have h := List.append_cancel_left h
  have h := List.append_cancel_left h
  have h := List.append_cancel_left h
  have hh1 := t1.Hour_range
  have hh2 := t2.Hour_range
  have hm1 := t1.Minute_range
  have hm2 := t2.Minute_range
  have hs1 := t1.Second_range
  have hs2 := t2.Second_range
  obtain ⟨eh, h⟩ := List.append_inj h (by
    rw [appendInt_two_length _ hh1.1 (by omega), appendInt_two_length _ hh2.1 (by omega)])
  have h := List.append_cancel_left h
  obtain ⟨em, h⟩ := List.append_inj h (by
    rw [appendInt_two_length _ hm1.1 (by omega), appendInt_two_length _ hm2.1 (by omega)])
  have es := List.append_cancel_left h
  exact ⟨appendInt_two_inj _ _ hh1.1 (by omega) hh2.1 (by omega) (String.ext eh),
    appendInt_two_inj _ _ hm1.1 (by omega) hm2.1 (by omega) (String.ext em),
    appendInt_two_inj _ _ hs1.1 (by omega) hs2.1 (by omega) (String.ext es)⟩

/-! ## Lemmas: the requests of the uploader -/

/-- The key `generateS3Key` builds is the documented one, with the fields of the
timestamp. -/
theorem generateS3Key_eq (lt id : String) (t : Time) :
    aws.generateS3Key lt id t
      = documentedKey lt id t.Year t.Month t.Day t.Hour t.Minute t.Second := by
  apply String.ext
  simp only [aws.generateS3Key, documentedKey, Time.Format_2006_01_02_15_04_05,
    String.data_append, List.append_assoc]
  rfl

/-- What `UploadAuditLogs` does: nothing is requested, or the slice is non-empty and
one `PutObject` is made with the request of `uploadInput` under the key of the first
entry. -/
theorem UploadAuditLogs_cases (u : aws.Uploader σ) (lt id : String) (data : List AuditLogEntry)
    (s : σ) :
    ((u.UploadAuditLogs lt id data s).requests = [] ∧
      ∀ uri, (u.UploadAuditLogs lt id data s).ending ≠ .returned (.ok uri)) ∨
    (∃ first tl jsonData compressed res,
      data = first :: tl ∧ u.codec.marshalLogs data = .ok jsonData ∧
      u.codec.gzipClose jsonData = .ok compressed ∧
      (u.client.PutObject
        (aws.uploadInput u (aws.generateS3Key lt id first.AuditLog.Timestamp) compressed) s).1 = res ∧
      (u.UploadAuditLogs lt id data s).requests
        = [aws.Request.put
            (aws.uploadInput u (aws.generateS3Key lt id first.AuditLog.Timestamp) compressed) res] ∧
      (u.UploadAuditLogs lt id data s).ending
        = .returned (match res with
            | some err => .error ("error uploading to S3: " ++ err)
            | none => .ok ("s3://" ++ u.bucket ++ "/"
                ++ aws.generateS3Key lt id first.AuditLog.Timestamp))) := by
  rcases hj : u.codec.marshalLogs data with err | jsonData
  · left
    simp [aws.Uploader.UploadAuditLogs, hj]
  · rcases hw : u.codec.gzipWrite jsonData with _ | err
    · rcases hc : u.codec.gzipClose jsonData with err | compressed
      · left
        simp [aws.Uploader.UploadAuditLogs, hj, hw, hc]
      · cases data with
        | nil =>
          left
          simp [aws.Uploader.UploadAuditLogs, hj, hw, hc]
        | cons first tl =>
          right
          rcases hp : u.client.PutObject
            (aws.uploadInput u (aws.generateS3Key lt id first.AuditLog.Timestamp) compressed) s
            with ⟨res, s1⟩
          refine ⟨first, tl, jsonData, compressed, res, rfl, rfl, hc, by rw [hp], ?_, ?_⟩
          · cases res <;> simp [aws.Uploader.UploadAuditLogs, hj, hw, hc, hp]
          · cases res <;> simp [aws.Uploader.UploadAuditLogs, hj, hw, hc, hp]
    · left
      simp [aws.Uploader.UploadAuditLogs, hj, hw]

/-- The server-side encryption fields of the request `UploadAuditLogs` builds. -/
theorem uploadInput_fields (u : aws.Uploader σ) (key : String) (body : aws.Bytes) :
    (aws.uploadInput u key body).Bucket = some u.bucket ∧
    (aws.uploadInput u key body).Key = some key ∧
    (aws.uploadInput u key body).Body = body ∧
    (aws.uploadInput u key body).ContentType = some "application/gzip" ∧
    (aws.uploadInput u key body).ServerSideEncryption
      = (if u.opts.UseKMS = true then "aws:kms" else "AES256") ∧
    (aws.uploadInput u key body).SSEKMSKeyId
      = (if u.opts.UseKMS = true ∧ u.opts.KMSKeyID ≠ "" then some u.opts.KMSKeyID else none) ∧
    (aws.uploadInput u key body).BucketKeyEnabled
      = (if u.opts.UseKMS = true ∧ u.opts.BucketKeyEnabled = true then some true else none) := by
  unfold aws.uploadInput
  by_cases h1 : u.opts.UseKMS = true <;> by_cases h2 : u.opts.KMSKeyID = "" <;>
    by_cases h3 : u.opts.BucketKeyEnabled = true <;>
    simp [h1, h2, h3, aws.ServerSideEncryptionAwsKms, aws.ServerSideEncryptionAes256]

theorem checkpoint_key_eq (lt id : String) :
    lt ++ "=" ++ id ++ "/" ++ aws.checkpointKey = lt ++ "=" ++ id ++ "/checkpoint.json" := by
  apply String.ext
  simp only [String.data_append, List.append_assoc]
  rfl

/-- The request `SaveCheckpoint` makes: always encrypted with AES256, whatever the
options of the uploader. -/
theorem SaveCheckpoint_request (u : aws.Uploader σ) (cp : Checkpoint) (lt id : String) (s : σ)
    (input : aws.PutObjectInput) (res : Option Error)
    (h : aws.Request.put input res ∈ (u.SaveCheckpoint cp lt id s).requests) :
    input.Bucket = some u.bucket ∧
    input.Key = some (lt ++ "=" ++ id ++ "/checkpoint.json") ∧
    input.ContentType = some "application/json" ∧
    input.ServerSideEncryption = "AES256" ∧ input.SSEKMSKeyId = none ∧
    input.BucketKeyEnabled = none := by
  unfold aws.Uploader.SaveCheckpoint at h
  rcases hm : u.codec.marshalCheckpoint cp with err | data
  · simp [hm] at h
  · simp only [hm] at h
    split at h
    · simp only [List.mem_singleton, aws.Request.put.injEq] at h
      rw [h.1, ← checkpoint_key_eq]
      exact ⟨rfl, rfl, rfl, rfl, rfl, rfl⟩
    · simp only [List.mem_singleton, aws.Request.put.injEq] at h
      rw [h.1, ← checkpoint_key_eq]
      exact ⟨rfl, rfl, rfl, rfl, rfl, rfl⟩

/-! ## Lemmas: padded fields and path components -/

theorem digitsRev_length : ∀ (k fuel n : Nat), n < 10 ^ (k + 1) → n < fuel →
    (digitsRev fuel n).length ≤ k + 1 := by
  intro k
  induction k with
  | zero =>
    intro fuel n hn hf
    obtain ⟨m, rfl⟩ : ∃ m, fuel = m + 1 := ⟨fuel - 1, by omega⟩
    rw [digitsRev_of_lt m n (by simpa using hn)]
    simp
  | succ k ih =>
    intro fuel n hn hf
    obtain ⟨m, rfl⟩ : ∃ m, fuel = m + 1 := ⟨fuel - 1, by omega⟩
    by_cases h10 : n < 10
    · rw [digitsRev_of_lt m n h10]; simp
    · rw [digitsRev_of_ge m n (by omega)]
      have h1 : n / 10 < 10 ^ (k + 1) := by
        rw [Nat.div_lt_iff_lt_mul (by omega)]
        rw [pow_succ] at hn
        exact hn
      have := ih m (n / 10) h1 (by omega)
      simp only [List.length_cons]
      omega

/-- A year in `0..9999` is written on exactly four characters. -/
theorem appendInt_four_length (x : Int) (h0 : 0 ≤ x) (h1 : x ≤ 9999) :
    (appendInt x 4).data.length = 4 := by
  have hx : ¬ x < 0 := by omega
  obtain ⟨n, rfl⟩ := Int.eq_ofNat_of_zero_le h0
  have hlen : (decimal n).length ≤ 4 := by
    unfold decimal
    rw [List.length_map, List.length_reverse]
    exact digitsRev_length 3 (n + 1) n (by norm_num; omega) (Nat.lt_succ_self n)
  simp only [appendInt, hx, if_false, Int.toNat_ofNat, List.length_append, List.length_replicate]
  omega

/-- A number in `1..9` is written by `%d` as its single digit. -/
theorem itoa_digit (x : Int) (h0 : 0 ≤ x) (h1 : x ≤ 9) : itoa x = String.mk [digitChar x.toNat] := by
  have hx : ¬ x < 0 := by omega
  obtain ⟨n, rfl⟩ := Int.eq_ofNat_of_zero_le h0
  simp only [itoa, hx, if_false, Int.toNat_ofNat]
  unfold decimal
  rw [digitsRev_of_lt n n (by omega)]
  rfl

theorem appendInt_no_slash (x : Int) (width : Nat) : '/' ∉ (appendInt x width).data := by
  unfold appendInt
  intro h
  by_cases hx : x < 0
  · simp only [hx, if_true, List.mem_cons, List.mem_append] at h
    rcases h with h | h | h
    · cases h
    · have := List.eq_of_mem_replicate h
      cases this
    · exact absurd rfl (decimal_chars _ _ h).1
  · simp only [hx, if_false, List.mem_append] at h
    rcases h with h | h
    · have := List.eq_of_mem_replicate h
      cases this
    · exact absurd rfl (decimal_chars _ _ h).1

theorem components_of_no_sep : ∀ (l : List Char), '/' ∉ l → components l = [l] := by
  intro l
  induction l with
  | nil => intro _; rfl
  | cons c l ih =>
    intro h
    have hc : ¬ c = '/' := fun e => h (e ▸ List.mem_cons_self _ _)
    simp only [components, hc, if_false]
    rw [ih (fun hm => h (List.mem_cons_of_mem _ hm))]

theorem components_sep : ∀ (l r : List Char), '/' ∉ l →
    components (l ++ '/' :: r) = l :: components r := by
  intro l
  induction l with
  | nil => intro r _; simp [components]
  | cons c l ih =>
    intro r h
    have hc : ¬ c = '/' := fun e => h (e ▸ List.mem_cons_self _ _)
    have e : components (c :: (l ++ '/' :: r))
        = (match components (l ++ '/' :: r) with
          | [] => [[c]]
          | w :: ws => (c :: w) :: ws) := by
      simp only [components, hc, if_false]
    rw [List.cons_append, e, ih r (fun hm => h (List.mem_cons_of_mem _ hm))]

theorem not_mem_append_of {α : Type} {a : α} {l1 l2 : List α} (h1 : a ∉ l1) (h2 : a ∉ l2) :
    a ∉ l1 ++ l2 := by
  intro h
  rcases List.mem_append.1 h with h | h
  · exact h1 h
  · exact h2 h

theorem Format_no_slash (t : Time) : '/' ∉ t.Format_2006_01_02_15_04_05.data := by
  simp only [Time.Format_2006_01_02_15_04_05, String.data_append]
  have hd : '/' ∉ "-".data := by decide
  have hu : '/' ∉ "_".data := by decide
  exact not_mem_append_of (not_mem_append_of (not_mem_append_of (not_mem_append_of
    (not_mem_append_of (not_mem_append_of (not_mem_append_of (not_mem_append_of
    (not_mem_append_of (not_mem_append_of (appendInt_no_slash _ _) hd) (appendInt_no_slash _ _))
    hd) (appendInt_no_slash _ _)) hu) (appendInt_no_slash _ _)) hd) (appendInt_no_slash _ _))
    hd) (appendInt_no_slash _ _)

/-- What follows `{category}={identity}/` in the key has four components: the year, the
month, the day and the file name. -/
theorem key_tail_components (t : Time) :
    pathComponents ("year=" ++ itoa t.Year ++ "/month=" ++ itoa t.Month ++ "/day=" ++ itoa t.Day
        ++ "/" ++ ("audit-logs-" ++ t.Format_2006_01_02_15_04_05 ++ ".json.gz"))
      = ["year=" ++ itoa t.Year, "month=" ++ itoa t.Month, "day=" ++ itoa t.Day,
          "audit-logs-" ++ t.Format_2006_01_02_15_04_05 ++ ".json.gz"] := by
  have hy : '/' ∉ "year=".data := by decide
  have hm : '/' ∉ "month=".data := by decide
  have hd : '/' ∉ "day=".data := by decide
  have ha : '/' ∉ "audit-logs-".data := by decide
  have hj : '/' ∉ ".json.gz".data := by decide
  have e : ("year=" ++ itoa t.Year ++ "/month=" ++ itoa t.Month ++ "/day=" ++ itoa t.Day
        ++ "/" ++ ("audit-logs-" ++ t.Format_2006_01_02_15_04_05 ++ ".json.gz")).data
      = ("year=" ++ itoa t.Year).data ++ '/' :: (("month=" ++ itoa t.Month).data ++ '/' ::
          (("day=" ++ itoa t.Day).data ++ '/' ::
            ("audit-logs-" ++ t.Format_2006_01_02_15_04_05 ++ ".json.gz").data)) := by
    simp only [String.data_append, List.append_assoc]
    rfl
  unfold pathComponents
  rw [e, components_sep _ _ (by
      rw [String.data_append]; exact not_mem_append_of hy (itoa_no_slash _)),
    components_sep _ _ (by
      rw [String.data_append]; exact not_mem_append_of hm (itoa_no_slash _)),
    components_sep _ _ (by
      rw [String.data_append]; exact not_mem_append_of hd (itoa_no_slash _)),
    components_of_no_sep _ (by
      rw [String.data_append, String.data_append]
      exact not_mem_append_of (not_mem_append_of ha (Format_no_slash t)) hj)]
  rfl

/-! ## Lemmas: windows of one entry, and empty windows -/

theorem slice_one (pre : List AuditLogEntry) (p : AuditLogEntry) (rest : List AuditLogEntry) :
    slice (pre ++ p :: rest) pre.length (pre.length + 1) = [p] := by
  simp [slice]

/-- The scan entered behind an entry `p` that opens the window, when each entry still
to come is more than one further day beyond the anchor: every entry but the last is
closed as a window of its own, and the last one opens the final window. -/
theorem scanWindows_singletons : ∀ (rest pre : List AuditLogEntry) (p : AuditLogEntry)
    (cursorDay : Time),
    (∀ (j : Nat) (hj : j < rest.length),
      cursorDay.unixNano + ((j : Int) + 1) * 86400000000000 < (rest[j]).AuditLog.Timestamp.unixNano) →
    scanWindows (pre ++ p :: rest) rest (pre.length + 1) pre.length cursorDay
      = ((p :: rest).dropLast.map (fun e => [e]), pre.length + rest.length) := by
  intro rest
  induction rest with
  | nil => intro pre p cd _; simp [scanWindows]
  | cons e rest ih =>
    intro pre p cd h
    have h0 := h 0 (by simp)
    simp only [List.getElem_cons_zero] at h0
    have hA : e.AuditLog.Timestamp.After (cd.Add (24 * Hour)) = true := by
      rw [After_add_day, day_eq]; omega
    have hstep : scanWindows (pre ++ p :: e :: rest) (e :: rest) (pre.length + 1) pre.length cd
        = (slice (pre ++ p :: e :: rest) pre.length (pre.length + 1) ::
            (scanWindows (pre ++ p :: e :: rest) rest (pre.length + 1 + 1) (pre.length + 1)
              (cd.Add (Hour * 24))).1,
           (scanWindows (pre ++ p :: e :: rest) rest (pre.length + 1 + 1) (pre.length + 1)
              (cd.Add (Hour * 24))).2) := by
      simp [scanWindows, hA]
    have hih := ih (pre ++ [p]) e (cd.Add (Hour * 24)) (by
      intro j hj
      have := h (j + 1) (by simp; omega)
      simp only [List.getElem_cons_succ] at this
      simp only [Time.Add, day_eq']
      push_cast at this
      omega)
    have e1 : pre ++ [p] ++ e :: rest = pre ++ p :: e :: rest := by simp
    have e2 : (pre ++ [p]).length = pre.length + 1 := by simp
    rw [e1, e2] at hih
    rw [hstep, hih, slice_one]
    simp only [List.length_cons]
    refine Prod.ext ?_ (by simp only []; omega)
    simp [List.dropLast]

/-- A page whose first entry is within 24 hours of the anchor and whose entry `j`, for
each `j ≥ 1`, is more than `j` days beyond the anchor: every entry is a window. -/
theorem windows_singletons (first : AuditLogEntry) (rest : List AuditLogEntry)
    (h0 : first.AuditLog.Timestamp.unixNano ≤ (anchorOf first).unixNano + 24 * Hour)
    (h : ∀ (j : Nat) (hj : j < rest.length),
      (anchorOf first).unixNano + ((j : Int) + 1) * 86400000000000
        < (rest[j]).AuditLog.Timestamp.unixNano) :
    windows (first :: rest) = (first :: rest).map (fun e => [e]) := by
  have hA : ¬ first.AuditLog.Timestamp.After ((anchorOf first).Add (24 * Hour)) = true := by
    rw [After_add_day]; omega
  have hs := scanWindows_singletons rest [] first (anchorOf first) h
  simp only [List.nil_append, List.length_nil, Nat.zero_add] at hs
  have hscan : scanWindows (first :: rest) (first :: rest) 0 0 (anchorOf first)
      = ((first :: rest).dropLast.map (fun e => [e]), rest.length) := by
    rw [← hs]
    simp [scanWindows, hA]
  have hdrop : (first :: rest).drop rest.length = [(first :: rest).getLast (by simp)] := by
    have := List.dropLast_append_getLast (l := first :: rest) (by simp)
    conv_lhs => rw [← this]
    rw [List.drop_left' (by simp)]
  simp only [windows, hscan, hdrop, List.length_singleton, gt_iff_lt, Nat.lt_one_iff,
    zero_lt_one, if_true]
  have := List.dropLast_append_getLast (l := first :: rest) (by simp)
  conv_rhs => rw [← this]
  simp

/-- Each slice the scan closes is non-empty, when it is entered with the window open
before the index. -/
theorem scanWindows_nonempty (auditLogs : List AuditLogEntry) :
    ∀ (rest : List AuditLogEntry) (i windowStart : Nat) (cursorDay : Time),
      windowStart < i → i + rest.length ≤ auditLogs.length →
      ∀ w ∈ (scanWindows auditLogs rest i windowStart cursorDay).1, w ≠ [] := by
  intro rest
  induction rest with
  | nil => intro i ws cd _ _ w hw; simp [scanWindows] at hw
  | cons e rest ih =>
    intro i ws cd hlt hlen w hw
    simp only [List.length_cons] at hlen
    by_cases hA : e.AuditLog.Timestamp.After (cd.Add (24 * Hour)) = true
    · simp only [scanWindows, hA, if_true, List.mem_cons] at hw
      rcases hw with rfl | hw
      · intro hnil
        have := congrArg List.length hnil
        simp only [slice, List.length_take, List.length_drop, List.length_nil] at this
        omega
      · exact ih (i + 1) i _ (Nat.lt_succ_self i) (by omega) w hw
    · simp only [scanWindows, hA] at hw
      exact ih (i + 1) ws cd (by omega) (by omega) w hw

/-- A page has an empty window exactly when its first entry is already later than the
anchor plus 24 hours; the empty window is then the first one. -/
theorem windows_empty_iff (first : AuditLogEntry) (tl : List AuditLogEntry) :
    ([] ∈ windows (first :: tl) ↔
      (anchorOf first).unixNano + 24 * Hour < first.AuditLog.Timestamp.unixNano) ∧
    ((anchorOf first).unixNano + 24 * Hour < first.AuditLog.Timestamp.unixNano →
      (windows (first :: tl)).head? = some []) := by
  have hfin : ∀ (r : List (List AuditLogEntry) × Nat),
      [] ∈ (if ((first :: tl).drop r.2).length > 0 then r.1 ++ [(first :: tl).drop r.2] else r.1)
        → [] ∈ r.1 := by
    intro r h
    split_ifs at h with hl
    · rcases List.mem_append.1 h with h | h
      · exact h
      · simp only [List.mem_singleton] at h
        rw [← h] at hl
        simp at hl
    · exact h
  by_cases hA : first.AuditLog.Timestamp.After ((anchorOf first).Add (24 * Hour)) = true
  · have hlt := (After_add_day _ _).1 hA
    have hhead : (windows (first :: tl)).head? = some [] := by
      simp only [windows, scanWindows, hA, if_true]
      split_ifs <;> simp [slice]
    refine ⟨⟨fun _ => hlt, fun _ => ?_⟩, fun _ => hhead⟩
    exact List.mem_of_mem_head? hhead
  · have hnlt : ¬ (anchorOf first).unixNano + 24 * Hour < first.AuditLog.Timestamp.unixNano :=
      fun h => hA ((After_add_day _ _).2 h)
    refine ⟨⟨fun h => ?_, fun h => absurd h hnlt⟩, fun h => absurd h hnlt⟩
    exfalso
    have h1 := hfin _ h
    have hs : scanWindows (first :: tl) (first :: tl) 0 0 (anchorOf first)
        = scanWindows (first :: tl) tl 1 0 (anchorOf first) := by
      simp [scanWindows, hA]
    rw [hs] at h1
    exact scanWindows_nonempty (first :: tl) tl 1 0 (anchorOf first) (by omega)
      (by simp; omega) [] h1 rfl

/-! ## Lemmas: a source that serves a list of entries -/

theorem entriesAfter_of_not_mem (entries : List AuditLogEntry) (cursor : String)
    (h : ∀ e ∈ entries, e.Cursor ≠ cursor) : entriesAfter entries cursor = entries := by
  have : entries.dropWhile (fun e => decide (e.Cursor ≠ cursor)) = [] := by
    rw [List.dropWhile_eq_nil_iff]
    intro e he
    simpa using h e he
  unfold entriesAfter
  rw [this]

theorem entriesAfter_of_split (entries pre post : List AuditLogEntry) (e : AuditLogEntry)
    (hnd : (entries.map (fun e => e.Cursor)).Nodup) (hs : entries = pre ++ e :: post) :
    entriesAfter entries e.Cursor = post := by
  subst hs
  have hpre : ∀ x ∈ pre, x.Cursor ≠ e.Cursor := by
    intro x hx heq
    rw [List.map_append, List.map_cons] at hnd
    have := (List.nodup_append.1 hnd).2.2
    exact this (List.mem_map_of_mem _ hx) (by rw [heq]; exact List.mem_cons_self _ _)
  have : (pre ++ e :: post).dropWhile (fun x => decide (x.Cursor ≠ e.Cursor)) = e :: post := by
    rw [List.dropWhile_append_of_pos (by
      intro x hx
      simpa using hpre x hx)]
    simp [List.dropWhile]
  unfold entriesAfter
  rw [this]

theorem slice_take (entries : List AuditLogEntry) (j : Nat) :
    slice entries (j + 1) (min (j + 1001) entries.length) = (entries.drop (j + 1)).take 1000 := by
  unfold slice
  apply List.ext_getElem?
  intro n
  simp only [List.getElem?_take, List.getElem?_drop]
  by_cases h1 : n < 1000
  · by_cases h2 : n < min (j + 1001) entries.length - (j + 1)
    · simp [h1, h2]
    · simp only [h1, h2, if_true, if_false]
      symm
      apply List.getElem?_eq_none
      omega
  · have h2 : ¬ n < min (j + 1001) entries.length - (j + 1) := by omega
    simp [h1, h2]

/-- The search of the mock service finds what follows the first entry with the cursor. -/
theorem mockGetFrom_eq (entries : List AuditLogEntry) (cursor : String) :
    ∀ (rest : List AuditLogEntry) (i : Nat), rest = entries.drop i →
      mockGetFrom entries cursor rest i
        = (match rest.dropWhile (fun e => decide (e.Cursor ≠ cursor)) with
          | [] => none
          | _ :: r => some (r.take 1000)) := by
  intro rest
  induction rest with
  | nil => intro i _; rfl
  | cons e rest ih =>
    intro i hrest
    have hrest' := drop_succ_of_drop_eq_cons hrest
    by_cases hc : e.Cursor = cursor
    · simp only [mockGetFrom, hc, if_true, List.dropWhile, ne_eq, not_true_eq_false, decide_False]
      rw [slice_take, ← hrest']
    · have hd : decide (e.Cursor ≠ cursor) = true := by simpa using hc
      simp only [mockGetFrom, hc, if_false, List.dropWhile, hd]
      exact ih (i + 1) hrest'

/-- The mock service of the tests serves its list: at most 1000 entries strictly after
the requested cursor, from the start when no entry has that cursor. -/
theorem mock_serves (entries : List AuditLogEntry) (lt : LogType) (id cursor : String)
    (limit : Int) (m : MockState) :
    ((mockAuditLogService entries lt none).Get id cursor limit m).1
      = .ok (servedPage entries cursor) := by
  have h := mockGetFrom_eq entries cursor entries 0 rfl
  unfold servedPage entriesAfter
  rcases hd : entries.dropWhile (fun e => decide (e.Cursor ≠ cursor)) with _ | ⟨x, r⟩
  · rw [hd] at h
    have h' : mockGetFrom entries cursor entries 0 = none := h
    have hs : slice entries 0 (min entries.length 1000) = entries.take 1000 := by
      unfold slice
      simp only [List.drop_zero, Nat.sub_zero]
      apply List.ext_getElem?
      intro n
      simp only [List.getElem?_take]
      by_cases h1 : n < 1000
      · by_cases h2 : n < min entries.length 1000
        · simp [h1, h2]
        · simp only [h1, h2, if_true, if_false]
          symm
          apply List.getElem?_eq_none
          omega
      · have h2 : ¬ n < min entries.length 1000 := by omega
        simp [h1, h2]
    simp only [mockAuditLogService, h', hs]
    rw [hd]
  · rw [hd] at h
    have h' : mockGetFrom entries cursor entries 0 = some (r.take 1000) := h
    simp only [mockAuditLogService, h']
    rw [hd]

/-! ## Lemmas: every fetch of a run carries the answer of the source -/

/-- The method `processPage` makes one fetch, its first call, and records the answer of
the source to it. -/
theorem processPage_fetch (lp : LogProcessor σ) (id cursor : String) (s : σ) :
    ∃ rest, (processPage lp id cursor s).calls
        = Call.fetch id cursor pageSize (lp.auditLogSvc.Get id cursor pageSize s).1 :: rest ∧
      ∀ c ∈ rest, c.isFetch = false := by
  rcases hG : lp.auditLogSvc.Get id cursor pageSize s with ⟨res, s1⟩
  cases res with
  | error err => exact ⟨[], by simp [processPage, hG], by simp⟩
  | ok page =>
    cases page with
    | nil => exact ⟨[], by simp [processPage, hG], by simp⟩
    | cons first tl =>
      refine ⟨(uploadWindows lp id first (first :: tl) s1).calls, by simp [processPage, hG], ?_⟩
      rcases uploadWindows_spec lp id first tl s1 with ⟨_, h2, _⟩ | ⟨err, ups, data, _, h2, h3, _⟩
      · exact h2.isFetch
      · rw [h2]
        intro c hc
        rcases List.mem_append.1 hc with hc | hc
        · exact h3.isFetch c hc
        · simp only [List.mem_singleton] at hc
          subst hc
          rfl

theorem fetchCalls_eq_nil_of_no_fetch :
    ∀ (tr : List Call), (∀ c ∈ tr, c.isFetch = false) → fetchCalls tr = [] := by
  intro tr
  induction tr with
  | nil => intro _; rfl
  | cons c tr ih =>
    intro h
    have hc := h c (List.mem_cons_self _ _)
    have ht := ih (fun c' hc' => h c' (List.mem_cons_of_mem _ hc'))
    cases c <;> simp_all [fetchCalls, Call.isFetch]

/-- Every fetch recorded by the loop of `Process` carries what the source answered to it. -/
theorem pageLoop_fetches (lp : LogProcessor σ) (id : String) :
    ∀ (fuel : Nat) (cursor : String) (fin : Option AuditLogEntry) (s : σ)
      (id' cur : String) (lim : Int) (r : Except Error (List AuditLogEntry)),
      Call.fetch id' cur lim r ∈ (pageLoop lp id fuel cursor fin s).calls →
      ∃ s', r = (lp.auditLogSvc.Get id cur pageSize s').1 := by
  intro fuel
  induction fuel with
  | zero => intro cursor fin s id' cur lim r h; simp [pageLoop] at h
  | succ fuel ih =>
    intro cursor fin s id' cur lim r h
    obtain ⟨rest, hcalls, hrest⟩ := processPage_fetch lp id cursor s
    have hp : Call.fetch id' cur lim r ∈ (processPage lp id cursor s).calls →
        ∃ s', r = (lp.auditLogSvc.Get id cur pageSize s').1 := by
      intro hmem
      rw [hcalls] at hmem
      rcases List.mem_cons.1 hmem with heq | hmem
      · injection heq with h1 h2 h3 h4
        subst h2
        exact ⟨s, h4⟩
      · have := hrest _ hmem
        simp [Call.isFetch] at this
    rcases hv : (processPage lp id cursor s).val with err | last
    · simp only [pageLoop, hv] at h
      exact hp h
    · cases last with
      | none =>
        simp only [pageLoop, hv] at h
        exact hp h
      | some last =>
        simp only [pageLoop, hv] at h
        rcases List.mem_append.1 h with h | h
        · exact hp h
        · exact ih _ _ _ _ _ _ _ h

/-- While the loop has not left, it has made one fetch per unit of fuel. -/
theorem pageLoop_fetch_count (lp : LogProcessor σ) (id : String) :
    ∀ (fuel : Nat) (cursor : String) (fin : Option AuditLogEntry) (s : σ),
      (pageLoop lp id fuel cursor fin s).val = none →
      (fetchCalls (pageLoop lp id fuel cursor fin s).calls).length = fuel := by
  intro fuel
  induction fuel with
  | zero => intro cursor fin s _; rfl
  | succ fuel ih =>
    intro cursor fin s h
    obtain ⟨rest, hcalls, hrest⟩ := processPage_fetch lp id cursor s
    have h1 : (fetchCalls (processPage lp id cursor s).calls).length = 1 := by
      rw [hcalls]
      have := fetchCalls_eq_nil_of_no_fetch rest hrest
      simp only [fetchCalls, List.filterMap_cons] at this ⊢
      rw [this]
      rfl
    rcases hv : (processPage lp id cursor s).val with err | last
    · simp [pageLoop, hv] at h
    · cases last with
      | none => simp [pageLoop, hv] at h
      | some last =>
        simp only [pageLoop, hv] at h ⊢
        rw [fetchCalls_append, List.length_append, h1, ih _ _ _ h]
        omega

/-- A run of `Process` whose load answered `checkpoint`: its trace is the load, the
calls of the loop entered at the start cursor, and at most one save; it runs out
of fuel only when the loop does. -/
theorem Process_of_load (lp : LogProcessor σ) (id : String) (fuel : Nat) (s s1 : σ)
    (checkpoint : Option Checkpoint)
    (hload : lp.uploader.LoadCheckpoint lp.auditLogSvc.logType id s = (.ok checkpoint, s1)) :
    ∃ tail, (Process lp id fuel s).trace
        = Call.load lp.auditLogSvc.logType id (.ok checkpoint) ::
            ((pageLoop lp id fuel (startCursor checkpoint) none s1).calls ++ tail) ∧
      (∀ c ∈ tail, c.isFetch = false) ∧
      ((Process lp id fuel s).outcome = .outOfFuel →
        (pageLoop lp id fuel (startCursor checkpoint) none s1).val = none) := by
  rcases hv : (pageLoop lp id fuel (startCursor checkpoint) none s1).val with _ | r
  · refine ⟨[], ?_, by simp, fun _ => rfl⟩
    simp [Process, getLastCheckpoint, hload, hv]
  · cases r with
    | error err =>
      refine ⟨[], ?_, by simp, ?_⟩
      · simp [Process, getLastCheckpoint, hload, hv]
      · simp [Process, getLastCheckpoint, hload, hv]
    | ok fin =>
      cases fin with
      | none =>
        refine ⟨[], ?_, by simp, ?_⟩
        · simp [Process, getLastCheckpoint, hload, hv]
        · simp [Process, getLastCheckpoint, hload, hv]
      | some fin =>
        refine ⟨(updateLastCheckpoint lp id ⟨fin.Cursor, fin.AuditLog.Timestamp⟩
          (pageLoop lp id fuel (startCursor checkpoint) none s1).state).calls, ?_, ?_, ?_⟩
        · simp [Process, getLastCheckpoint, hload, hv]
        · intro c hc
          unfold updateLastCheckpoint at hc
          split at hc <;> simp at hc <;> subst hc <;> rfl
        · simp [Process, getLastCheckpoint, hload, hv]

/-! ## Lemmas: the pages of a served list -/

theorem take_eq_nil_of_pos {α : Type} (l : List α) (h : List.take 1000 l = []) : l = [] := by
  cases l with
  | nil => rfl
  | cons a l => simp at h

/-- The loop of `Process` over a source that serves `entries`, entered at a cursor after
which `entries.drop k` is still to serve: it fetches the rest in pages of 1000. -/
theorem LoopTrace.served {lt id cursor : String} {fin : Option AuditLogEntry} {tr : List Call}
    {res : Option (Except Error (Option AuditLogEntry))}
    (h : LoopTrace lt id cursor fin tr res) (entries : List AuditLogEntry)
    (hnd : (entries.map (fun e => e.Cursor)).Nodup) :
    (∀ id' cur lim r, Call.fetch id' cur lim r ∈ tr → r = .ok (servedPage entries cur)) →
    ∀ k, entriesAfter entries cursor = entries.drop k →
      (res = none → (fetchCalls tr).length ≤ (entries.length - k + 999) / 1000) ∧
      (∀ f, res = some (.ok f) →
        ∃ ps, pages tr = ps ++ [[]] ∧ ps.flatten = entries.drop k ∧
          ps.length = (entries.length - k + 999) / 1000 ∧
          ∀ p ∈ ps, p ≠ [] ∧ p.length ≤ 1000 ∧ ∀ e ∈ p, e ∈ entries) := by
  induction h with
  | outOfFuel cursor fin =>
    intro _ k _
    exact ⟨fun _ => (by simp [fetchCalls]), fun f hf => (by cases hf)⟩
  | fetchFailed cursor fin err =>
    intro _ k _
    exact ⟨fun hf => (by cases hf), fun f hf => (by cases hf)⟩
  | drained cursor fin =>
    intro hsrv k hk
    refine ⟨fun hf => (by cases hf), fun f _ => ?_⟩
    have h1 := hsrv id cursor pageSize (.ok []) (List.mem_singleton.2 rfl)
    have h2 : servedPage entries cursor = [] := by
      injection h1 with h1
      exact h1.symm
    unfold servedPage at h2
    rw [hk] at h2
    have h3 := take_eq_nil_of_pos _ h2
    have h4 : entries.length ≤ k := by
      have := congrArg List.length h3
      simp only [List.length_drop, List.length_nil] at this
      omega
    refine ⟨[], rfl, by rw [h3]; rfl, ?_, by simp⟩
    simp only [List.length_nil]
    omega
  | uploadFailed cursor fin page ups data err hne hups hpre =>
    intro _ k _
    exact ⟨fun hf => (by cases hf), fun f hf => (by cases hf)⟩
  | page cursor fin page last ups rest res hlast hups hw hrest ih =>
    intro hsrv k hk
    have h1 := hsrv id cursor pageSize (.ok page) (List.mem_cons_self _ _)
    have hpage : page = (entries.drop k).take 1000 := by
      injection h1 with h1
      rw [h1]
      unfold servedPage
      rw [hk]
    obtain ⟨pre, hpre⟩ := getLast?_eq_some_concat page last hlast
    have hsplit : entries.drop k = page ++ entries.drop (k + 1000) := by
      rw [hpage, ← List.drop_drop, List.take_append_drop]
    have hk2 : k < entries.length := by
      by_contra hcon
      have : entries.drop k = [] := List.drop_eq_nil_of_le (by omega)
      rw [this] at hpage
      rw [hpage] at hpre
      simp at hpre
    have hent : entries = (entries.take k ++ pre) ++ last :: entries.drop (k + 1000) := by
      calc entries = entries.take k ++ entries.drop k := (List.take_append_drop k entries).symm
        _ = entries.take k ++ (page ++ entries.drop (k + 1000)) := by rw [← hsplit]
        _ = (entries.take k ++ pre) ++ last :: entries.drop (k + 1000) := by
            rw [hpre]; simp
    have hnext := entriesAfter_of_split entries _ _ last hnd hent
    have hsrv' : ∀ id' cur lim r, Call.fetch id' cur lim r ∈ rest →
        r = .ok (servedPage entries cur) := by
      intro id' cur lim r hmem
      exact hsrv id' cur lim r
        (List.mem_cons_of_mem _ (List.mem_append_right _ hmem))
    obtain ⟨ih1, ih2⟩ := ih hsrv' (k + 1000) hnext
    have hmem : ∀ e ∈ page, e ∈ entries := by
      intro e he
      rw [hpage] at he
      exact List.mem_of_mem_drop (List.mem_of_mem_take he)
    have hlen : page.length ≤ 1000 := by
      rw [hpage, List.length_take]
      omega
    refine ⟨fun hf => ?_, fun f hf => ?_⟩
    · have := ih1 hf
      have hfc : fetchCalls (Call.fetch id cursor pageSize (.ok page) :: (ups ++ rest))
          = ⟨id, cursor, pageSize, .ok page⟩ :: fetchCalls rest := by
        have e : fetchCalls (Call.fetch id cursor pageSize (.ok page) :: (ups ++ rest))
            = ⟨id, cursor, pageSize, .ok page⟩ :: fetchCalls (ups ++ rest) := rfl
        rw [e, fetchCalls_append, hups.fetchCalls, List.nil_append]
      rw [hfc, List.length_cons]
      omega
    · obtain ⟨ps, hp1, hp2, hp3, hp4⟩ := ih2 f hf
      refine ⟨page :: ps, ?_, ?_, ?_, ?_⟩
      · rw [pages_cons_fetch_ok, pages_append, hups.pages, hp1]
        rfl
      · rw [List.flatten_cons, hp2, ← hsplit]
      · rw [List.length_cons, hp3]
        omega
      · intro p hp
        rcases List.mem_cons.1 hp with rfl | hp
        · refine ⟨?_, hlen, hmem⟩
          intro hnil
          rw [hnil] at hlast
          simp at hlast
        · exact hp4 p hp

/-- A non-empty page whose entries are all stamped in UTC on one day is one window. -/
theorem windows_same_day (day : Int) (p : List AuditLogEntry) (hne : p ≠ [])
    (hday : ∀ e ∈ p, e.AuditLog.Timestamp.offset = 0 ∧
      day * 86400000000000 ≤ e.AuditLog.Timestamp.unixNano ∧
      e.AuditLog.Timestamp.unixNano < (day + 1) * 86400000000000) :
    windows p = [p] := by
  cases p with
  | nil => exact absurd rfl hne
  | cons first tl =>
    obtain ⟨h0, h1, h2⟩ := hday first (List.mem_cons_self _ _)
    have ha := anchorOf_on_day first day h0 h1 h2
    apply windows_single
    intro e he
    have := (hday e he).2.2
    rw [ha, day_eq]
    omega

/-- The windows of pages that are each one window, followed by the empty page. -/
theorem windows_of_whole_pages : ∀ (ps : List (List AuditLogEntry)),
    (∀ p ∈ ps, windows p = [p]) → ((ps ++ [[]]).map windows).flatten = ps := by
  intro ps
  induction ps with
  | nil => intro _; rfl
  | cons p ps ih =>
    intro h
    rw [List.cons_append, List.map_cons, List.flatten_cons, h p (List.mem_cons_self _ _),
      ih (fun q hq => h q (List.mem_cons_of_mem _ hq))]
    rfl

theorem pages_eq_nil_of_no_fetch :
    ∀ (tr : List Call), (∀ c ∈ tr, c.isFetch = false) → pages tr = [] := by
  intro tr
  induction tr with
  | nil => intro _; rfl
  | cons c tr ih =>
    intro h
    have hc := h c (List.mem_cons_self _ _)
    have ht := ih (fun c' hc' => h c' (List.mem_cons_of_mem _ hc'))
    cases c <;> simp_all [pages, Call.isFetch]

/-- A run of `Process` over a source that serves `entries` from their start, in which no
call fails and the fuel exceeds the number of pages: it fetches `entries` in pages
of at most 1000, then the empty page, and returns. -/
theorem Process_served (lp : LogProcessor σ) (id : String) (fuel : Nat) (s s1 : σ)
    (checkpoint : Option Checkpoint) (entries : List AuditLogEntry)
    (hnd : (entries.map (fun e => e.Cursor)).Nodup)
    (hsrc : ∀ cursor s',
      (lp.auditLogSvc.Get id cursor pageSize s').1 = .ok (servedPage entries cursor))
    (hload : lp.uploader.LoadCheckpoint lp.auditLogSvc.logType id s = (.ok checkpoint, s1))
    (hstart : ∀ e ∈ entries, e.Cursor ≠ startCursor checkpoint)
    (hok : ∀ c ∈ (Process lp id fuel s).trace, c.failed = false)
    (hfuel : (entries.length + 999) / 1000 < fuel) :
    ∃ ps, pages (Process lp id fuel s).trace = ps ++ [[]] ∧ ps.flatten = entries ∧
      ps.length = (entries.length + 999) / 1000 ∧
      ∀ p ∈ ps, p ≠ [] ∧ p.length ≤ 1000 ∧ ∀ e ∈ p, e ∈ entries := by
  obtain ⟨tail, htr, htail, hout⟩ := Process_of_load lp id fuel s s1 checkpoint hload
  have hloop := pageLoop_trace lp id fuel (startCursor checkpoint) none s1
  have hsrv : ∀ id' cur lim r,
      Call.fetch id' cur lim r ∈ (pageLoop lp id fuel (startCursor checkpoint) none s1).calls →
      r = .ok (servedPage entries cur) := by
    intro id' cur lim r hmem
    obtain ⟨s', hs'⟩ := pageLoop_fetches lp id fuel _ _ _ id' cur lim r hmem
    rw [hs', hsrc]
  have hk0 : entriesAfter entries (startCursor checkpoint) = entries.drop 0 :=
    entriesAfter_of_not_mem entries _ hstart
  obtain ⟨hB1, hB2⟩ := hloop.served entries hnd hsrv 0 hk0
  have hpages : pages (Process lp id fuel s).trace
      = pages (pageLoop lp id fuel (startCursor checkpoint) none s1).calls := by
    rw [htr]
    have e : pages (Call.load lp.auditLogSvc.logType id (.ok checkpoint) ::
          ((pageLoop lp id fuel (startCursor checkpoint) none s1).calls ++ tail))
        = pages ((pageLoop lp id fuel (startCursor checkpoint) none s1).calls ++ tail) := rfl
    rw [e, pages_append, pages_eq_nil_of_no_fetch tail htail, List.append_nil]
  rcases hv : (pageLoop lp id fuel (startCursor checkpoint) none s1).val with _ | r
  · exfalso
    have h1 := hB1 hv
    rw [pageLoop_fetch_count lp id fuel _ _ _ hv] at h1
    simp only [Nat.sub_zero] at h1
    omega
  · cases r with
    | error err =>
      exfalso
      obtain ⟨pre, c, h1, h2, _, _, _⟩ := hloop.error err hv
      have hmem : c ∈ (Process lp id fuel s).trace := by
        rw [htr, h1]
        simp
      rw [hok c hmem] at h2
      cases h2
    | ok f =>
      obtain ⟨ps, hp1, hp2, hp3, hp4⟩ := hB2 f hv
      refine ⟨ps, ?_, ?_, ?_, hp4⟩
      · rw [hpages, hp1]
      · rw [hp2]; rfl
      · rw [hp3]; rfl

/-! ## Lemmas: the span of a window -/

theorem slice_snoc (auditLogs rest : List AuditLogEntry) (e : AuditLogEntry) (ws i : Nat)
    (hle : ws ≤ i) (h : e :: rest = auditLogs.drop i) :
    slice auditLogs ws (i + 1) = slice auditLogs ws i ++ [e] := by
  have h1 := slice_append_drop auditLogs ws (i + 1) (by omega)
  have h2 := slice_append_drop auditLogs ws i hle
  rw [← drop_succ_of_drop_eq_cons h] at h1
  rw [← h] at h2
  have : slice auditLogs ws (i + 1) ++ rest = (slice auditLogs ws i ++ [e]) ++ rest := by
    rw [h1, ← h2]
    simp
  exact List.append_cancel_right this

theorem slice_self (auditLogs : List AuditLogEntry) (i : Nat) : slice auditLogs i i = [] := by
  simp [slice]

theorem getElem?_of_initial_segment {α : Type} {l1 l2 : List α} (h : l1 <+: l2) (k : Nat) (a : α)
    (hk : l1[k]? = some a) : l2[k]? = some a := by
  obtain ⟨t, rfl⟩ := h
  have hlt : k < l1.length := by
    by_contra hcon
    rw [List.getElem?_eq_none (by omega)] at hk
    cases hk
  rw [List.getElem?_append_left hlt]
  exact hk

/-- The scan of entries in non-decreasing order of time, entered with anchor `cursorDay`:
the window open at entry is completed by entries within 24 hours of the anchor; window
number `j ≥ 1` after it has all its entries later than the anchor plus `j` days, and
when it has two or more entries they are within the next 24 hours. -/
theorem scanWindows_spans (auditLogs : List AuditLogEntry) :
    ∀ (rest : List AuditLogEntry) (i windowStart : Nat) (cursorDay : Time),
      windowStart ≤ i → rest = auditLogs.drop i →
      rest.Pairwise
        (fun a b => a.AuditLog.Timestamp.unixNano ≤ b.AuditLog.Timestamp.unixNano) →
      ∀ (j : Nat) (w : List AuditLogEntry),
        ((scanWindows auditLogs rest i windowStart cursorDay).1
          ++ [auditLogs.drop (scanWindows auditLogs rest i windowStart cursorDay).2])[j]? = some w →
        (j = 0 → ∃ l1, w = slice auditLogs windowStart i ++ l1 ∧ (∀ e ∈ l1, e ∈ rest) ∧
          ∀ e ∈ l1, e.AuditLog.Timestamp.unixNano ≤ cursorDay.unixNano + 86400000000000) ∧
        (1 ≤ j → w ≠ [] ∧
          (∀ e ∈ w, cursorDay.unixNano + (j : Int) * 86400000000000
            < e.AuditLog.Timestamp.unixNano) ∧
          (2 ≤ w.length → ∀ e ∈ w,
            e.AuditLog.Timestamp.unixNano ≤ cursorDay.unixNano + ((j : Int) + 1) * 86400000000000)) := by
  intro rest
  induction rest with
  | nil =>
    intro i ws cd hle hrest _ j w hw
    simp only [scanWindows, List.nil_append] at hw
    cases j with
    | zero =>
      simp only [List.getElem?_cons_zero, Option.some.injEq] at hw
      refine ⟨fun _ => ⟨[], ?_, by simp, by simp⟩, fun h => by omega⟩
      have := slice_append_drop auditLogs ws i hle
      rw [← hrest] at this
      rw [← hw, ← this]
    | succ j => simp at hw
  | cons e rest ih =>
    intro i ws cd hle hrest hs j w hw
    have hrest' := drop_succ_of_drop_eq_cons hrest
    obtain ⟨hs1, hs2⟩ := List.pairwise_cons.1 hs
    by_cases hA : e.AuditLog.Timestamp.After (cd.Add (24 * Hour)) = true
    · have hlate := (After_add_day _ _).1 hA
      rw [day_eq] at hlate
      simp only [scanWindows, hA, if_true, List.cons_append] at hw
      cases j with
      | zero =>
        simp only [List.getElem?_cons_zero, Option.some.injEq] at hw
        exact ⟨fun _ => ⟨[], by rw [← hw]; simp, by simp, by simp⟩, fun h => by omega⟩
      | succ j =>
        simp only [List.getElem?_cons_succ] at hw
        have hcd : (cd.Add (Hour * 24)).unixNano = cd.unixNano + 86400000000000 := by
          simp only [Time.Add, day_eq']
        obtain ⟨ih0, ih1⟩ := ih (i + 1) i (cd.Add (Hour * 24)) (Nat.le_succ i) hrest' hs2 j w hw
        refine ⟨fun h => by omega, fun _ => ?_⟩
        rcases Nat.eq_zero_or_pos j with hj | hj
        · subst hj
          obtain ⟨l1, hw1, hl1, hl2⟩ := ih0 rfl
          have hone : slice auditLogs i (i + 1) = [e] := by
            rw [slice_snoc auditLogs rest e i i (Nat.le_refl i) hrest, slice_self]
            rfl
          rw [hone] at hw1
          subst hw1
          refine ⟨by simp, ?_, ?_⟩
          · intro x hx
            simp only [List.singleton_append, List.mem_cons] at hx
            rcases hx with rfl | hx
            · simpa using hlate
            · have := hs1 x (hl1 x hx)
              simp only [Nat.zero_add, Nat.cast_one, one_mul]
              omega
          · intro hlen x hx
            cases l1 with
            | nil => simp at hlen
            | cons y l1 =>
              have hy := hl2 y (List.mem_cons_self _ _)
              have hey := hs1 y (hl1 y (List.mem_cons_self _ _))
              rw [hcd] at hy
              simp only [List.singleton_append, List.mem_cons] at hx
              simp only [Nat.zero_add, Nat.cast_one]
              rcases hx with rfl | rfl | hx
              · omega
              · omega
              · have := hl2 x (List.mem_cons_of_mem _ hx)
                rw [hcd] at this
                omega
        · obtain ⟨hne, hlo, hup⟩ := ih1 hj
          refine ⟨hne, ?_, ?_⟩
          · intro x hx
            have := hlo x hx
            rw [hcd] at this
            push_cast
            omega
          · intro hlen x hx
            have := hup hlen x hx
            rw [hcd] at this
            push_cast
            omega
    · have hearly : e.AuditLog.Timestamp.unixNano ≤ cd.unixNano + 86400000000000 := by
        have := (After_add_day e.AuditLog.Timestamp cd).not.1 hA
        rw [day_eq] at this
        omega
      simp only [scanWindows, hA] at hw
      obtain ⟨ih0, ih1⟩ := ih (i + 1) ws cd (Nat.le_succ_of_le hle) hrest' hs2 j w hw
      refine ⟨fun hj => ?_, ih1⟩
      obtain ⟨l1, hw1, hl1, hl2⟩ := ih0 hj
      refine ⟨e :: l1, ?_, ?_, ?_⟩
      · rw [hw1, slice_snoc auditLogs rest e ws i hle hrest]
        simp
      · intro x hx
        rcases List.mem_cons.1 hx with rfl | hx
        · exact List.mem_cons_self _ _
        · exact List.mem_cons_of_mem _ (hl1 x hx)
      · intro x hx
        rcases List.mem_cons.1 hx with rfl | hx
        · exact hearly
        · exact hl2 x hx


/-- The windows of a page whose first timestamp is in UTC and whose timestamps do not
decrease: none is empty, each keeps the order, any two entries of one window are at most
24 hours apart, the first window lies within `[A, A + 24h]` of the initial anchor `A`,
and window `k ≥ 1` with two or more entries within `(A + k * 24h, A + (k + 1) * 24h]`. -/
theorem windows_spans (first : AuditLogEntry) (tl : List AuditLogEntry)
    (hutc : first.AuditLog.Timestamp.offset = 0)
    (hsorted : (first :: tl).Pairwise
      (fun a b => a.AuditLog.Timestamp.unixNano ≤ b.AuditLog.Timestamp.unixNano))
    (k : Nat) (w : List AuditLogEntry) (hw : (windows (first :: tl))[k]? = some w) :
    w ≠ [] ∧
    w.Pairwise (fun a b => a.AuditLog.Timestamp.unixNano ≤ b.AuditLog.Timestamp.unixNano) ∧
    (∀ a ∈ w, ∀ b ∈ w,
      b.AuditLog.Timestamp.unixNano ≤ a.AuditLog.Timestamp.unixNano + 86400000000000) ∧
    (k = 0 → ∀ e ∈ w, (anchorOf first).unixNano ≤ e.AuditLog.Timestamp.unixNano ∧
      e.AuditLog.Timestamp.unixNano ≤ (anchorOf first).unixNano + 86400000000000) ∧
    (1 ≤ k → 2 ≤ w.length → ∀ e ∈ w,
      (anchorOf first).unixNano + (k : Int) * 86400000000000 < e.AuditLog.Timestamp.unixNano ∧
      e.AuditLog.Timestamp.unixNano
        ≤ (anchorOf first).unixNano + ((k : Int) + 1) * 86400000000000) := by
  have hmem : w ∈ windows (first :: tl) := List.getElem?_mem hw
  have hA := anchorOf_utc first hutc
  have hfirst : (anchorOf first).unixNano ≤ first.AuditLog.Timestamp.unixNano ∧
      first.AuditLog.Timestamp.unixNano < (anchorOf first).unixNano + 86400000000000 := by
    rw [hA]
    omega
  have hne : w ≠ [] := by
    intro hnil
    rw [hnil] at hmem
    have := (windows_empty_iff first tl).1.1 hmem
    rw [day_eq] at this
    omega
  have hsub : w.Sublist (first :: tl) := by
    have := List.sublist_flatten_of_mem hmem
    rwa [windows_flatten] at this
  have hws := hsorted.sublist hsub
  have hge : ∀ e ∈ w, first.AuditLog.Timestamp.unixNano ≤ e.AuditLog.Timestamp.unixNano := by
    intro e he
    rcases List.mem_cons.1 (hsub.subset he) with rfl | h
    · exact le_refl _
    · exact (List.pairwise_cons.1 hsorted).1 e h
  have hpre : windows (first :: tl) <+:
      (scanWindows (first :: tl) (first :: tl) 0 0 (anchorOf first)).1
        ++ [(first :: tl).drop (scanWindows (first :: tl) (first :: tl) 0 0 (anchorOf first)).2] := by
    simp only [windows]
    split_ifs
    · exact List.prefix_refl _
    · exact List.prefix_append _ _
  obtain ⟨h0, h1⟩ := scanWindows_spans (first :: tl) (first :: tl) 0 0 (anchorOf first)
    (Nat.le_refl 0) rfl hsorted k w (getElem?_of_initial_segment hpre k w hw)
  have hk0 : k = 0 → ∀ e ∈ w, (anchorOf first).unixNano ≤ e.AuditLog.Timestamp.unixNano ∧
      e.AuditLog.Timestamp.unixNano ≤ (anchorOf first).unixNano + 86400000000000 := by
    intro hk e he
    obtain ⟨l1, hw1, -, hl2⟩ := h0 hk
    rw [slice_self, List.nil_append] at hw1
    have := hge e he
    exact ⟨by omega, hl2 e (by rw [← hw1]; exact he)⟩
  have hk1 : 1 ≤ k → 2 ≤ w.length → ∀ e ∈ w,
      (anchorOf first).unixNano + (k : Int) * 86400000000000 < e.AuditLog.Timestamp.unixNano ∧
      e.AuditLog.Timestamp.unixNano
        ≤ (anchorOf first).unixNano + ((k : Int) + 1) * 86400000000000 := by
    intro hk hlen e he
    obtain ⟨-, hlo, hup⟩ := h1 hk
    exact ⟨hlo e he, hup hlen e he⟩
  refine ⟨hne, hws, ?_, hk0, hk1⟩
  intro a ha b hb
  rcases Nat.eq_zero_or_pos k with hk | hk
  · have h1 := hk0 hk a ha
    have h2 := hk0 hk b hb
    omega
  · by_cases hlen : 2 ≤ w.length
    · have h1 := hk1 hk hlen a ha
      have h2 := hk1 hk hlen b hb
      omega
    · cases w with
      | nil => exact absurd rfl hne
      | cons x t =>
        cases t with
        | nil =>
          simp only [List.mem_singleton] at ha hb
          subst ha
          subst hb
          omega
        | cons y t => simp at hlen

/-! ## Lemmas: the number of fetches -/

/-- When no call failed, the answers of the fetches are the pages. -/
theorem fetch_answers_of_no_failure : ∀ (tr : List Call), (∀ c ∈ tr, c.failed = false) →
    (fetchCalls tr).map (fun f => f.res) = (pages tr).map Except.ok := by
  intro tr
  induction tr with
  | nil => intro _; rfl
  | cons c tr ih =>
    intro h
    have hc := h c (List.mem_cons_self _ _)
    have ht := ih (fun c' hc' => h c' (List.mem_cons_of_mem _ hc'))
    cases c with
    | load lt id r => exact ht
    | upload lt id d r => exact ht
    | save cp lt id r => exact ht
    | fetch id cur lim r =>
      cases r with
      | error e => cases hc
      | ok page =>
        have e1 : fetchCalls (Call.fetch id cur lim (.ok page) :: tr)
            = ⟨id, cur, lim, .ok page⟩ :: fetchCalls tr := rfl
        rw [e1, pages_cons_fetch_ok, List.map_cons, List.map_cons, ht]

/-- Over a source that serves `entries` from their start, `Process` leaves its loop
within `ceil(N/1000) + 1` iterations, whether or not a call fails. -/
theorem Process_served_returns (lp : LogProcessor σ) (id : String) (fuel : Nat) (s s1 : σ)
    (checkpoint : Option Checkpoint) (entries : List AuditLogEntry)
    (hnd : (entries.map (fun e => e.Cursor)).Nodup)
    (hsrc : ∀ cursor s',
      (lp.auditLogSvc.Get id cursor pageSize s').1 = .ok (servedPage entries cursor))
    (hload : lp.uploader.LoadCheckpoint lp.auditLogSvc.logType id s = (.ok checkpoint, s1))
    (hstart : ∀ e ∈ entries, e.Cursor ≠ startCursor checkpoint)
    (hfuel : (entries.length + 999) / 1000 < fuel) :
    (Process lp id fuel s).outcome ≠ .outOfFuel := by
  intro hout
  obtain ⟨tail, -, -, hout'⟩ := Process_of_load lp id fuel s s1 checkpoint hload
  have hv := hout' hout
  have hloop := pageLoop_trace lp id fuel (startCursor checkpoint) none s1
  have hsrv : ∀ id' cur lim r,
      Call.fetch id' cur lim r ∈ (pageLoop lp id fuel (startCursor checkpoint) none s1).calls →
      r = .ok (servedPage entries cur) := by
    intro id' cur lim r hmem
    obtain ⟨s', hs'⟩ := pageLoop_fetches lp id fuel _ _ _ id' cur lim r hmem
    rw [hs', hsrc]
  have hk0 : entriesAfter entries (startCursor checkpoint) = entries.drop 0 :=
    entriesAfter_of_not_mem entries _ hstart
  have h1 := (hloop.served entries hnd hsrv 0 hk0).1 hv
  rw [pageLoop_fetch_count lp id fuel _ _ _ hv] at h1
  simp only [Nat.sub_zero] at h1
  omega

/-! ## The claims -/

/-- C1: in a run of `Process` in which no collaborator call fails and a non-empty page
is fetched before the empty page, `Process` returns `nil` (with this fuel and with any
larger one) and `SaveCheckpoint` is called, once and as the last call, with exactly
the cursor and the timestamp of the last entry of the last non-empty page. -/
theorem C1_checkpoint_of_last_entry (lp : LogProcessor σ) (id : String) (fuel : Nat) (s : σ)
    (hok : ∀ c ∈ (Process lp id fuel s).trace, c.failed = false)
    (hempty : [] ∈ pages (Process lp id fuel s).trace)
    (hne : ∃ p ∈ pages (Process lp id fuel s).trace, p ≠ []) :
    ∃ ps page last,
      pages (Process lp id fuel s).trace = ps ++ [page ++ [last], []] ∧
      (∀ p ∈ ps, p ≠ []) ∧
      (Process lp id fuel s).outcome = .returned none ∧
      saves (Process lp id fuel s).trace = [⟨last.Cursor, last.AuditLog.Timestamp⟩] ∧
      (Process lp id fuel s).trace.getLast?
        = some (Call.save ⟨last.Cursor, last.AuditLog.Timestamp⟩ lp.auditLogSvc.logType id none) ∧
      ∀ n, fuel ≤ n → Process lp id n s = Process lp id fuel s := by
  obtain ⟨ps, page, last, h1, h2, h3, h4, h5⟩ :=
    (Process_trace lp id fuel s).checkpoint hok hempty hne
  exact ⟨ps, page, last, h1, h2, h3, h4, h5,
    Process_stable lp id fuel s (by rw [h3]; intro h; cases h)⟩

set_option maxRecDepth 100000 in
/-- C1 on the test `LogsWithinSameDay`. -/
theorem C1_checkpoint_of_last_entry_witness :
    ∃ ps page last,
      pages (Process (testProcessor sameDayLogs none none) "workspace-123" 2 testStart).trace
        = ps ++ [page ++ [last], []] ∧
      (∀ p ∈ ps, p ≠ []) ∧
      (Process (testProcessor sameDayLogs none none) "workspace-123" 2 testStart).outcome
        = .returned none ∧
      saves (Process (testProcessor sameDayLogs none none) "workspace-123" 2 testStart).trace
        = [⟨last.Cursor, last.AuditLog.Timestamp⟩] ∧
      (Process (testProcessor sameDayLogs none none) "workspace-123" 2 testStart).trace.getLast?
        = some (Call.save ⟨last.Cursor, last.AuditLog.Timestamp⟩
            (testProcessor sameDayLogs none none).auditLogSvc.logType "workspace-123" none) ∧
      ∀ n, 2 ≤ n → Process (testProcessor sameDayLogs none none) "workspace-123" n testStart
        = Process (testProcessor sameDayLogs none none) "workspace-123" 2 testStart :=
  C1_checkpoint_of_last_entry (testProcessor sameDayLogs none none) "workspace-123" 2 testStart
    (by decide) (by decide) (by decide)

/-- C2: whatever checkpoint the load answers (one or none), when the first fetch answers
an empty page `Process` returns `nil` and its only calls are that load and that fetch:
no `UploadAuditLogs`, no `SaveCheckpoint`. The final collaborator state is the one the
fetch left, so whatever the load and the fetch leave unchanged (the stored checkpoint)
is as before the run. -/
theorem C2_empty_first_page (lp : LogProcessor σ) (id : String) (fuel : Nat) (s s1 s2 : σ)
    (checkpoint : Option Checkpoint) (hfuel : 1 ≤ fuel)
    (hload : lp.uploader.LoadCheckpoint lp.auditLogSvc.logType id s = (.ok checkpoint, s1))
    (hget : lp.auditLogSvc.Get id (startCursor checkpoint) pageSize s1 = (.ok [], s2)) :
    (Process lp id fuel s).outcome = .returned none ∧
    (Process lp id fuel s).trace
      = [Call.load lp.auditLogSvc.logType id (.ok checkpoint),
         Call.fetch id (startCursor checkpoint) pageSize (.ok [])] ∧
    uploads (Process lp id fuel s).trace = [] ∧
    saves (Process lp id fuel s).trace = [] ∧
    (Process lp id fuel s).state = s2 ∧
    ∀ (β : Type) (stored : σ → β), stored s1 = stored s → stored s2 = stored s1 →
      stored (Process lp id fuel s).state = stored s := by
  obtain ⟨k, rfl⟩ := Nat.exists_eq_add_of_le hfuel
  have hp : processPage lp id (startCursor checkpoint) s1
      = ⟨.ok none, [Call.fetch id (startCursor checkpoint) pageSize (.ok [])], s2⟩ := by
    simp [processPage, hget]
  have hrun : Process lp id (1 + k) s
      = ⟨.returned none, [Call.load lp.auditLogSvc.logType id (.ok checkpoint),
          Call.fetch id (startCursor checkpoint) pageSize (.ok [])], s2⟩ := by
    rw [Nat.add_comm]
    simp [Process, getLastCheckpoint, hload, pageLoop, hp]
  rw [hrun]
  refine ⟨rfl, rfl, rfl, rfl, rfl, ?_⟩
  intro β stored h1 h2
  rw [h2, h1]

/-- C2 on the test `EmptyLogs`: a stored checkpoint `cursor-123` and no entry. -/
theorem C2_empty_first_page_witness :
    (Process (testProcessor [] none none) "workspace-123" 1 ⟨some ⟨"cursor-123", zeroTime⟩, 0⟩).outcome
      = .returned none ∧
    (Process (testProcessor [] none none) "workspace-123" 1 ⟨some ⟨"cursor-123", zeroTime⟩, 0⟩).trace
      = [Call.load (testProcessor [] none none).auditLogSvc.logType "workspace-123"
          (.ok (some ⟨"cursor-123", zeroTime⟩)),
         Call.fetch "workspace-123" (startCursor (some ⟨"cursor-123", zeroTime⟩)) pageSize (.ok [])] ∧
    uploads (Process (testProcessor [] none none) "workspace-123" 1
      ⟨some ⟨"cursor-123", zeroTime⟩, 0⟩).trace = [] ∧
    saves (Process (testProcessor [] none none) "workspace-123" 1
      ⟨some ⟨"cursor-123", zeroTime⟩, 0⟩).trace = [] ∧
    (Process (testProcessor [] none none) "workspace-123" 1 ⟨some ⟨"cursor-123", zeroTime⟩, 0⟩).state
      = ⟨some ⟨"cursor-123", zeroTime⟩, 0⟩ ∧
    ∀ (β : Type) (stored : MockState → β),
      stored ⟨some ⟨"cursor-123", zeroTime⟩, 0⟩ = stored ⟨some ⟨"cursor-123", zeroTime⟩, 0⟩ →
      stored ⟨some ⟨"cursor-123", zeroTime⟩, 0⟩ = stored ⟨some ⟨"cursor-123", zeroTime⟩, 0⟩ →
      stored (Process (testProcessor [] none none) "workspace-123" 1
        ⟨some ⟨"cursor-123", zeroTime⟩, 0⟩).state = stored ⟨some ⟨"cursor-123", zeroTime⟩, 0⟩ :=
  C2_empty_first_page (testProcessor [] none none) "workspace-123" 1
    ⟨some ⟨"cursor-123", zeroTime⟩, 0⟩ ⟨some ⟨"cursor-123", zeroTime⟩, 0⟩
    ⟨some ⟨"cursor-123", zeroTime⟩, 0⟩ (some ⟨"cursor-123", zeroTime⟩) (Nat.le_refl 1) rfl rfl

/-- C3: in every run of `Process`, `SaveCheckpoint` is called at most once; a call of
it is the last call of the run, comes right after a fetch that answered an empty page,
and has only successful calls before it; a run in which the load, a fetch or an upload
failed has no `SaveCheckpoint` call at all. -/
theorem C3_save_only_after_drain (lp : LogProcessor σ) (id : String) (fuel : Nat) (s : σ) :
    (saves (Process lp id fuel s).trace).length ≤ 1 ∧
    (∀ pre cp lt id' res post,
      (Process lp id fuel s).trace = pre ++ Call.save cp lt id' res :: post →
      post = [] ∧ (∃ pre' cur, pre = pre' ++ [Call.fetch id cur pageSize (.ok [])]) ∧
        ∀ c ∈ pre, c.failed = false) ∧
    ((∃ c ∈ (Process lp id fuel s).trace, c.failed = true ∧ c.isSave = false) →
      saves (Process lp id fuel s).trace = []) :=
  (Process_trace lp id fuel s).save_once

set_option maxRecDepth 100000 in
/-- C3 on the test `ErrorFetchingAuditLogs`: the fetch fails, nothing is saved. -/
theorem C3_save_only_after_drain_witness :
    saves (Process (testProcessor sameDayLogs none (some "cannot get logs")) "workspace-123" 1
      testStart).trace = [] :=
  (C3_save_only_after_drain (testProcessor sameDayLogs none (some "cannot get logs"))
    "workspace-123" 1 testStart).2.2
    ⟨Call.fetch "workspace-123" "0" pageSize (.error "cannot get logs"),
      List.mem_cons_of_mem _ (List.mem_cons_self _ _), rfl, rfl⟩

/-- C4: when a run of `Process` returns, it returns a non-nil error exactly when some
collaborator call of the run failed: the load, a fetch, an upload or the save. -/
theorem C4_error_iff_call_failed (lp : LogProcessor σ) (id : String) (fuel : Nat) (s : σ)
    (err : Option Error) (hret : (Process lp id fuel s).outcome = .returned err) :
    err.isSome = true ↔
      (∃ lt id' e, Call.load lt id' (.error e) ∈ (Process lp id fuel s).trace) ∨
      (∃ id' cursor limit e, Call.fetch id' cursor limit (.error e) ∈ (Process lp id fuel s).trace) ∨
      (∃ lt id' data e, Call.upload lt id' data (.error e) ∈ (Process lp id fuel s).trace) ∨
      (∃ cp lt id' e, Call.save cp lt id' (some e) ∈ (Process lp id fuel s).trace) := by
  rw [(Process_trace lp id fuel s).error_iff err hret]
  constructor
  · rintro ⟨c, hc, hf⟩
    rcases (Call.failed_iff c).1 hf with ⟨lt, i, e, rfl⟩ | ⟨i, cur, lim, e, rfl⟩ |
      ⟨lt, i, d, e, rfl⟩ | ⟨cp, lt, i, e, rfl⟩
    · exact Or.inl ⟨lt, i, e, hc⟩
    · exact Or.inr (Or.inl ⟨i, cur, lim, e, hc⟩)
    · exact Or.inr (Or.inr (Or.inl ⟨lt, i, d, e, hc⟩))
    · exact Or.inr (Or.inr (Or.inr ⟨cp, lt, i, e, hc⟩))
  · rintro (⟨lt, i, e, hc⟩ | ⟨i, cur, lim, e, hc⟩ | ⟨lt, i, d, e, hc⟩ | ⟨cp, lt, i, e, hc⟩)
    · exact ⟨_, hc, rfl⟩
    · exact ⟨_, hc, rfl⟩
    · exact ⟨_, hc, rfl⟩
    · exact ⟨_, hc, rfl⟩

set_option maxRecDepth 100000 in
/-- C4 on the test `ErrorFetchingAuditLogs`: the source fails, `Process` returns the
wrapped error. -/
theorem C4_error_iff_call_failed_witness :
    (some "error processing workspace page: error fetching audit logs cannot get logs" :
        Option Error).isSome = true ↔
      (∃ lt id' e, Call.load lt id' (.error e) ∈
        (Process (testProcessor sameDayLogs none (some "cannot get logs")) "workspace-123" 1
          testStart).trace) ∨
      (∃ id' cursor limit e, Call.fetch id' cursor limit (.error e) ∈
        (Process (testProcessor sameDayLogs none (some "cannot get logs")) "workspace-123" 1
          testStart).trace) ∨
      (∃ lt id' data e, Call.upload lt id' data (.error e) ∈
        (Process (testProcessor sameDayLogs none (some "cannot get logs")) "workspace-123" 1
          testStart).trace) ∨
      (∃ cp lt id' e, Call.save cp lt id' (some e) ∈
        (Process (testProcessor sameDayLogs none (some "cannot get logs")) "workspace-123" 1
          testStart).trace) :=
  C4_error_iff_call_failed (testProcessor sameDayLogs none (some "cannot get logs"))
    "workspace-123" 1 testStart _ (by decide)

/-- C5: a collaborator call that failed is the last call of the run, no call before it
failed, and the run returned an error; when the first fetch failed the run has no
upload; and a `SaveCheckpoint` call (failing or not) has only successful calls, so only
successful uploads, before it. -/
theorem C5_failed_call_is_last (lp : LogProcessor σ) (id : String) (fuel : Nat) (s : σ) :
    (∀ pre c post, (Process lp id fuel s).trace = pre ++ c :: post → c.failed = true →
      post = [] ∧ (∀ c' ∈ pre, c'.failed = false) ∧
        ∃ e, (Process lp id fuel s).outcome = .returned (some e)) ∧
    (∀ f, (fetchCalls (Process lp id fuel s).trace).head? = some f → (∃ e, f.res = .error e) →
      uploads (Process lp id fuel s).trace = []) ∧
    (∀ pre cp lt id' res post,
      (Process lp id fuel s).trace = pre ++ Call.save cp lt id' res :: post →
      ∀ c ∈ pre, c.failed = false) := by
  refine ⟨?_, ?_, ?_⟩
  · intro pre c post htr hc
    exact (Process_trace lp id fuel s).failed_last pre post c htr hc
  · intro f hf he
    exact (Process_trace lp id fuel s).first_fetch_failed f hf he
  · intro pre cp lt id' res post htr
    exact ((Process_trace lp id fuel s).save_once.2.1 pre cp lt id' res post htr).2.2

set_option maxRecDepth 100000 in
/-- C5 on the test `ErrorFetchingAuditLogs`: the failed fetch is the last call. -/
theorem C5_failed_call_is_last_witness :
    ([] : List Call) = [] ∧
    (∀ c' ∈ [Call.load "workspace" "workspace-123" (.ok (some ⟨"0", zeroTime⟩))],
      c'.failed = false) ∧
    ∃ e, (Process (testProcessor sameDayLogs none (some "cannot get logs")) "workspace-123" 1
      testStart).outcome = .returned (some e) :=
  (C5_failed_call_is_last (testProcessor sameDayLogs none (some "cannot get logs"))
    "workspace-123" 1 testStart).1
    [Call.load "workspace" "workspace-123" (.ok (some ⟨"0", zeroTime⟩))]
    (Call.fetch "workspace-123" "0" pageSize (.error "cannot get logs")) [] rfl rfl

/-- C6: every fetch of a run is made for the run's identity with limit 1000; the first
fetch follows a successful load and uses the loaded checkpoint's `LastCursor`, or the
empty string when there is no checkpoint; every later fetch uses the cursor of the last
entry of the page the fetch before it answered. -/
theorem C6_fetch_requests (lp : LogProcessor σ) (id : String) (fuel : Nat) (s : σ) :
    (∀ f ∈ fetchCalls (Process lp id fuel s).trace, f.limit = 1000 ∧ f.id = id) ∧
    (∀ f, (fetchCalls (Process lp id fuel s).trace).head? = some f →
      ∃ checkpoint,
        (Process lp id fuel s).trace.head?
          = some (Call.load lp.auditLogSvc.logType id (.ok checkpoint)) ∧
        (∀ cp, checkpoint = some cp → f.cursor = cp.LastCursor) ∧
        (checkpoint = none → f.cursor = "")) ∧
    (∀ k f g, (fetchCalls (Process lp id fuel s).trace)[k]? = some f →
      (fetchCalls (Process lp id fuel s).trace)[k + 1]? = some g →
      ∃ page last, f.res = .ok (page ++ [last]) ∧ g.cursor = last.Cursor) := by
  rcases (Process_trace lp id fuel s).fetches.2 with h | ⟨checkpoint, h1, h2⟩
  · rw [h]
    exact ⟨by simp, by simp, by simp⟩
  · refine ⟨h2.all, ?_, h2.next⟩
    intro f hf
    refine ⟨checkpoint, h1, ?_, ?_⟩
    · intro cp hcp
      rw [h2.head f hf, hcp]; rfl
    · intro hcp
      rw [h2.head f hf, hcp]; rfl

set_option maxRecDepth 100000 in
/-- C6 on the test `LogsWithinSameDay`: the second fetch uses the cursor of the last
entry of the first page. -/
theorem C6_fetch_requests_witness :
    ∃ page last,
      (FetchCall.mk "workspace-123" "0" 1000 (.ok sameDayLogs)).res = .ok (page ++ [last]) ∧
      (FetchCall.mk "workspace-123" "id-3" 1000 (.ok [])).cursor = last.Cursor :=
  (C6_fetch_requests (testProcessor sameDayLogs none none) "workspace-123" 2 testStart).2.2 0
    ⟨"workspace-123", "0", 1000, .ok sameDayLogs⟩ ⟨"workspace-123", "id-3", 1000, .ok []⟩ rfl rfl

/-- C7: in a run in which no collaborator call fails, the slices passed to
`UploadAuditLogs`, concatenated in call order, are the fetched pages concatenated in
fetch order; and at the moment of each fetch, everything fetched before it has been
uploaded already, in order. -/
theorem C7_uploads_cover_pages (lp : LogProcessor σ) (id : String) (fuel : Nat) (s : σ)
    (hok : ∀ c ∈ (Process lp id fuel s).trace, c.failed = false) :
    (uploads (Process lp id fuel s).trace).flatten = (pages (Process lp id fuel s).trace).flatten ∧
    ∀ pre id' cur lim r post,
      (Process lp id fuel s).trace = pre ++ Call.fetch id' cur lim r :: post →
      (uploads pre).flatten = (pages pre).flatten :=
  ⟨(Process_trace lp id fuel s).flatten.2 hok, (Process_trace lp id fuel s).flatten.1⟩

set_option maxRecDepth 100000 in
/-- C7 on the test `LogsWithinSameDay`. -/
theorem C7_uploads_cover_pages_witness :
    (uploads (Process (testProcessor sameDayLogs none none) "workspace-123" 2 testStart).trace).flatten
      = (pages (Process (testProcessor sameDayLogs none none) "workspace-123" 2 testStart).trace).flatten ∧
    ∀ pre id' cur lim r post,
      (Process (testProcessor sameDayLogs none none) "workspace-123" 2 testStart).trace
        = pre ++ Call.fetch id' cur lim r :: post →
      (uploads pre).flatten = (pages pre).flatten :=
  C7_uploads_cover_pages (testProcessor sameDayLogs none none) "workspace-123" 2 testStart
    (by decide)

/-- C8: in the scan of a page, at any index and for any current anchor, an entry stamped
exactly anchor + 24h (or earlier) closes no window: nothing is uploaded at that index
and `windowStart` and the anchor stay as they are, so the entry stays in the open
window; an entry strictly later than anchor + 24h closes the window `[windowStart, i)`.
For a whole page: when every entry is at most 24h after the initial anchor, the
boundary instant included, the page is uploaded as one window. -/
theorem C8_boundary_is_strict (lp : LogProcessor σ) (id : String) (auditLogs : List AuditLogEntry)
    (auditLog : AuditLogEntry) (rest : List AuditLogEntry) (i windowStart : Nat)
    (cursorDay : Time) (s : σ) :
    (auditLog.AuditLog.Timestamp.unixNano = cursorDay.unixNano + 24 * Hour →
      windowLoop lp id auditLogs (auditLog :: rest) i windowStart cursorDay s
        = windowLoop lp id auditLogs rest (i + 1) windowStart cursorDay s) ∧
    (¬ cursorDay.unixNano + 24 * Hour < auditLog.AuditLog.Timestamp.unixNano →
      windowLoop lp id auditLogs (auditLog :: rest) i windowStart cursorDay s
        = windowLoop lp id auditLogs rest (i + 1) windowStart cursorDay s) ∧
    (cursorDay.unixNano + 24 * Hour < auditLog.AuditLog.Timestamp.unixNano →
      ∃ res, (windowLoop lp id auditLogs (auditLog :: rest) i windowStart cursorDay s).calls.head?
        = some (Call.upload lp.auditLogSvc.logType id (slice auditLogs windowStart i) res)) ∧
    ((∀ e ∈ auditLog :: rest,
        e.AuditLog.Timestamp.unixNano ≤ (anchorOf auditLog).unixNano + 24 * Hour) →
      uploads (uploadWindows lp id auditLog (auditLog :: rest) s).calls = [auditLog :: rest]) := by
  refine ⟨?_, ?_, ?_, ?_⟩
  · intro h
    exact windowLoop_skip lp id auditLogs auditLog rest i windowStart cursorDay s (by omega)
  · intro h
    exact windowLoop_skip lp id auditLogs auditLog rest i windowStart cursorDay s (by omega)
  · intro h
    obtain ⟨res, h1, -⟩ := windowLoop_close lp id auditLogs auditLog rest i windowStart cursorDay s h
    exact ⟨res, h1⟩
  · intro h
    obtain ⟨h1, h2⟩ := uploadWindows_uploads lp id auditLog rest s
    rw [windows_single auditLog rest h] at h1
    rcases List.prefix_cons_iff.1 h1 with h3 | ⟨t, h3, h4⟩
    · exact absurd h3 h2
    · rw [h3, List.prefix_nil.1 h4]

set_option maxRecDepth 100000 in
/-- C8 on a page of two entries, the second stamped exactly 24 hours after the midnight
of the first: one window holding both. -/
theorem C8_boundary_is_strict_witness :
    uploads (uploadWindows (testProcessor [] none none) "workspace-123"
        (testEntry "id-1" testDay)
        [testEntry "id-1" testDay, testEntry "id-2" (testDay.Add (24 * Hour))] testStart).calls
      = [[testEntry "id-1" testDay, testEntry "id-2" (testDay.Add (24 * Hour))]] :=
  (C8_boundary_is_strict (testProcessor [] none none) "workspace-123" []
    (testEntry "id-1" testDay) [testEntry "id-2" (testDay.Add (24 * Hour))] 0 0 testDay
    testStart).2.2.2 (by decide)

set_option maxRecDepth 100000 in
/-- C9: for a first entry stamped 2024-01-01T23:30:00-05:00, the instant
2024-01-02T04:30:00Z, `processPage` anchors the page at 2024-01-01T00:00:00Z, the date
the timestamp renders in its own zone, and not at 2024-01-02T00:00:00Z, the start of
the UTC day that holds the instant. The entry is then already later than anchor + 24h
at index 0, and the empty slice `auditLogs[0:0]` is passed to `UploadAuditLogs`. -/
theorem C9_anchor_of_offset_timestamp :
    (Date 2024 1 2 0 0 0 0 UTC).unixNano ≤ offsetEntry.AuditLog.Timestamp.unixNano ∧
    offsetEntry.AuditLog.Timestamp.unixNano < (Date 2024 1 3 0 0 0 0 UTC).unixNano ∧
    anchorOf offsetEntry = Date 2024 1 1 0 0 0 0 UTC ∧
    anchorOf offsetEntry ≠ Date 2024 1 2 0 0 0 0 UTC ∧
    uploads (processPage (testProcessor [offsetEntry] none none) "workspace-123" "" testStart).calls
      = [[], [offsetEntry]] := by
  decide

set_option maxRecDepth 100000 in
/-- C10 fails for one entry at 00:00:00 UTC of day D-1 followed by one entry at 00:00:00
UTC of day D, served in one page: the run succeeds, saves the cursor of the entry of
day D, and performs one upload, not two. -/
theorem C10_counterexample :
    midnightLogs.map (fun e => (e.AuditLog.Timestamp.offset, e.AuditLog.Timestamp.localDays))
      = [(0, testDay.localDays - 1), (0, testDay.localDays)] ∧
    pages (Process (testProcessor midnightLogs none none) "workspace-123" 2 testStart).trace
      = [midnightLogs, []] ∧
    (Process (testProcessor midnightLogs none none) "workspace-123" 2 testStart).outcome
      = .returned none ∧
    (saves (Process (testProcessor midnightLogs none none) "workspace-123" 2 testStart).trace).map
      (fun cp => cp.LastCursor) = ["id-2"] ∧
    (uploads (Process (testProcessor midnightLogs none none) "workspace-123" 2 testStart).trace).length
      = 1 ∧
    ¬ (uploads (Process (testProcessor midnightLogs none none) "workspace-123" 2
        testStart).trace).length = 2 := by
  decide

/-- C10, amended: entries on UTC day D-1, the first of them stamped in UTC, followed by
entries on UTC day D, fetched as one page of a run in which no call fails: `Process`
returns `nil` and saves the cursor and timestamp of the last entry of day D; it
performs exactly 2 uploads when some entry of day D is strictly later than 00:00:00 UTC
of day D, and exactly 1 upload, of the whole page, when every entry of day D is stamped
exactly 00:00:00 UTC of day D. -/
theorem C10_day_split (lp : LogProcessor σ) (id : String) (fuel : Nat) (s : σ) (dayD : Int)
    (first : AuditLogEntry) (tl1 d2 : List AuditLogEntry) (last : AuditLogEntry)
    (hutc : first.AuditLog.Timestamp.offset = 0)
    (h1 : ∀ e ∈ first :: tl1, (dayD - 1) * 86400000000000 ≤ e.AuditLog.Timestamp.unixNano ∧
      e.AuditLog.Timestamp.unixNano < dayD * 86400000000000)
    (h2 : ∀ e ∈ d2, dayD * 86400000000000 ≤ e.AuditLog.Timestamp.unixNano ∧
      e.AuditLog.Timestamp.unixNano < (dayD + 1) * 86400000000000)
    (hlast : d2.getLast? = some last)
    (hok : ∀ c ∈ (Process lp id fuel s).trace, c.failed = false)
    (hpages : pages (Process lp id fuel s).trace = [first :: tl1 ++ d2, []]) :
    (Process lp id fuel s).outcome = .returned none ∧
    saves (Process lp id fuel s).trace = [⟨last.Cursor, last.AuditLog.Timestamp⟩] ∧
    ((∃ e ∈ d2, dayD * 86400000000000 < e.AuditLog.Timestamp.unixNano) →
      (uploads (Process lp id fuel s).trace).length = 2) ∧
    ((∀ e ∈ d2, e.AuditLog.Timestamp.unixNano = dayD * 86400000000000) →
      uploads (Process lp id fuel s).trace = [first :: tl1 ++ d2]) := by
  have hT := Process_trace lp id fuel s
  have hanchor : (anchorOf first).unixNano = (dayD - 1) * 86400000000000 := by
    have := h1 first (List.mem_cons_self _ _)
    exact anchorOf_on_day first (dayD - 1) hutc this.1 (by have := this.2; omega)
  have hup : uploads (Process lp id fuel s).trace = windows (first :: (tl1 ++ d2)) := by
    rw [hT.uploads_windows hok, hpages]
    simp [windows]
  obtain ⟨ps, page, last', h3, -, h5, h6, -⟩ :=
    hT.checkpoint hok (by rw [hpages]; simp) ⟨first :: tl1 ++ d2, by rw [hpages]; simp, by simp⟩
  have hps : ps = [] := by
    have hlen := congrArg List.length (hpages.symm.trans h3)
    simp only [List.length_append, List.length_cons, List.length_nil] at hlen
    exact List.eq_nil_of_length_eq_zero (by omega)
  subst hps
  have hpage : first :: tl1 ++ d2 = page ++ [last'] := by
    have := hpages.symm.trans h3
    simpa using this
  have hll : last' = last := by
    have h7 : (first :: tl1 ++ d2).getLast? = some last := by
      rw [List.getLast?_append, hlast]; rfl
    rw [hpage] at h7
    simpa using h7
  subst hll
  refine ⟨h5, h6, ?_, ?_⟩
  · rintro ⟨e, he, hlt⟩
    rw [hup]
    apply windows_two
    · exact ⟨e, by simp [he], by rw [hanchor, day_eq]; omega⟩
    · intro x hx
      rw [hanchor, day_eq]
      rw [← List.cons_append] at hx
      rcases List.mem_append.1 hx with hx | hx
      · have := h1 x hx; omega
      · have := h2 x hx; omega
  · intro hall
    rw [hup]
    apply windows_single
    intro x hx
    rw [hanchor, day_eq]
    rw [← List.cons_append] at hx
    rcases List.mem_append.1 hx with hx | hx
    · have := h1 x hx; omega
    · have := hall x hx; omega

set_option maxRecDepth 100000 in
/-- C10, amended, on the test `MultipleDays`: three entries a minute apart from midnight
of the day before, three from midnight of the day. -/
theorem C10_day_split_witness :
    (Process (testProcessor multipleDaysLogs none none) "workspace-123" 2 testStart).outcome
      = .returned none ∧
    saves (Process (testProcessor multipleDaysLogs none none) "workspace-123" 2 testStart).trace
      = [⟨"id-6", testDay.Add (2 * Minute)⟩] ∧
    ((∃ e ∈ CreateTestAuditLogs ["id-4", "id-5", "id-6"] testDay,
        19737 * 86400000000000 < e.AuditLog.Timestamp.unixNano) →
      (uploads (Process (testProcessor multipleDaysLogs none none) "workspace-123" 2
        testStart).trace).length = 2) ∧
    ((∀ e ∈ CreateTestAuditLogs ["id-4", "id-5", "id-6"] testDay,
        e.AuditLog.Timestamp.unixNano = 19737 * 86400000000000) →
      uploads (Process (testProcessor multipleDaysLogs none none) "workspace-123" 2
        testStart).trace
        = [testEntry "id-1" testDayBefore ::
            [testEntry "id-2" (testDayBefore.Add (1 * Minute)),
             testEntry "id-3" (testDayBefore.Add (2 * Minute))]
            ++ CreateTestAuditLogs ["id-4", "id-5", "id-6"] testDay]) :=
  C10_day_split (testProcessor multipleDaysLogs none none) "workspace-123" 2 testStart 19737
    (testEntry "id-1" testDayBefore)
    [testEntry "id-2" (testDayBefore.Add (1 * Minute)),
      testEntry "id-3" (testDayBefore.Add (2 * Minute))]
    (CreateTestAuditLogs ["id-4", "id-5", "id-6"] testDay)
    (testEntry "id-6" (testDay.Add (2 * Minute)))
    (by decide) (by decide) (by decide) (by decide) (by decide) (by decide)

/-- C12: for every category, identity and non-empty window, every `PutObject` request
of `UploadAuditLogs` goes to the configured bucket under the documented key, all of
whose date and time fields are those of the first entry's timestamp; a successful call
has made that request and answers `s3://{bucket}/{key}`. In the key, month, day, hour,
minute and second of the file name stand on exactly two digits (zero-padded), a year in
`0..9999` on four, while a month or day in `1..9` in the path is its single digit. -/
theorem C12_upload_key (u : aws.Uploader σ) (category identity : String)
    (first : AuditLogEntry) (tl : List AuditLogEntry) (s : σ) :
    (∀ input res,
      aws.Request.put input res ∈ (u.UploadAuditLogs category identity (first :: tl) s).requests →
      input.Bucket = some u.bucket ∧
      input.Key = some (documentedKey category identity first.AuditLog.Timestamp.Year
        first.AuditLog.Timestamp.Month first.AuditLog.Timestamp.Day
        first.AuditLog.Timestamp.Hour first.AuditLog.Timestamp.Minute
        first.AuditLog.Timestamp.Second)) ∧
    (∀ s3URI, (u.UploadAuditLogs category identity (first :: tl) s).ending = .returned (.ok s3URI) →
      s3URI = "s3://" ++ u.bucket ++ "/" ++ documentedKey category identity
        first.AuditLog.Timestamp.Year first.AuditLog.Timestamp.Month
        first.AuditLog.Timestamp.Day first.AuditLog.Timestamp.Hour
        first.AuditLog.Timestamp.Minute first.AuditLog.Timestamp.Second ∧
      ∃ input, (u.UploadAuditLogs category identity (first :: tl) s).requests
        = [aws.Request.put input none]) ∧
    (∀ t : Time,
      (appendInt t.Month 2).data.length = 2 ∧ (appendInt t.Day 2).data.length = 2 ∧
      (appendInt t.Hour 2).data.length = 2 ∧ (appendInt t.Minute 2).data.length = 2 ∧
      (appendInt t.Second 2).data.length = 2 ∧
      (0 ≤ t.Year → t.Year ≤ 9999 → (appendInt t.Year 4).data.length = 4) ∧
      (t.Month ≤ 9 → itoa t.Month = String.mk [digitChar t.Month.toNat] ∧
        appendInt t.Month 2 = String.mk ['0', digitChar t.Month.toNat]) ∧
      (t.Day ≤ 9 → itoa t.Day = String.mk [digitChar t.Day.toNat] ∧
        appendInt t.Day 2 = String.mk ['0', digitChar t.Day.toNat])) := by
  refine ⟨?_, ?_, ?_⟩
  · intro input res hmem
    rcases UploadAuditLogs_cases u category identity (first :: tl) s with ⟨h1, -⟩ |
      ⟨f, tl', j, c, r, hd, -, -, -, hreq, -⟩
    · rw [h1] at hmem; simp at hmem
    · rw [hreq] at hmem
      simp only [List.mem_singleton, aws.Request.put.injEq] at hmem
      cases hd
      rw [hmem.1, ← generateS3Key_eq]
      exact ⟨(uploadInput_fields u _ _).1, (uploadInput_fields u _ _).2.1⟩
  · intro uri hend
    rcases UploadAuditLogs_cases u category identity (first :: tl) s with ⟨-, h2⟩ |
      ⟨f, tl', j, c, r, hd, -, -, -, hreq, hres⟩
    · exact absurd hend (h2 uri)
    · cases hd
      rw [hres] at hend
      cases r with
      | some err => simp at hend
      | none =>
        simp only [aws.Ending.returned.injEq, Except.ok.injEq] at hend
        rw [← hend, ← generateS3Key_eq]
        exact ⟨rfl, _, hreq⟩
  · intro t
    have hM := t.Month_range
    have hD := t.Day_range
    have hh := t.Hour_range
    have hm := t.Minute_range
    have hs := t.Second_range
    refine ⟨appendInt_two_length _ (by omega) (by omega), appendInt_two_length _ (by omega) (by omega),
      appendInt_two_length _ hh.1 (by omega), appendInt_two_length _ hm.1 (by omega),
      appendInt_two_length _ hs.1 (by omega), appendInt_four_length _, ?_, ?_⟩
    · intro h9
      refine ⟨itoa_digit _ (by omega) h9, ?_⟩
      rw [appendInt_two _ (by omega) (by omega)]
      have e1 : t.Month.toNat / 10 = 0 := by omega
      have e2 : t.Month.toNat % 10 = t.Month.toNat := by omega
      rw [e1, e2]; rfl
    · intro h9
      refine ⟨itoa_digit _ (by omega) h9, ?_⟩
      rw [appendInt_two _ (by omega) (by omega)]
      have e1 : t.Day.toNat / 10 = 0 := by omega
      have e2 : t.Day.toNat % 10 = t.Day.toNat := by omega
      rw [e1, e2]; rfl

set_option maxRecDepth 100000 in
/-- C12 on the test `successfully uploads audit logs for workspace`. -/
theorem C12_upload_key_witness :
    "s3://test-bucket/workspace=workspace-123/year=2024/month=1/day=15/audit-logs-2024-01-15_00-00-00.json.gz"
      = "s3://" ++ (testUploader ⟨false, "", false⟩).bucket ++ "/"
        ++ documentedKey "workspace" "workspace-123" (testEntry "id-1" testDay).AuditLog.Timestamp.Year
          (testEntry "id-1" testDay).AuditLog.Timestamp.Month
          (testEntry "id-1" testDay).AuditLog.Timestamp.Day
          (testEntry "id-1" testDay).AuditLog.Timestamp.Hour
          (testEntry "id-1" testDay).AuditLog.Timestamp.Minute
          (testEntry "id-1" testDay).AuditLog.Timestamp.Second ∧
    ∃ input, ((testUploader ⟨false, "", false⟩).UploadAuditLogs "workspace" "workspace-123"
      (testEntry "id-1" testDay ::
        [testEntry "id-2" (testDay.Add (1 * Minute)), testEntry "id-3" (testDay.Add (2 * Minute))])
      0).requests = [aws.Request.put input none] :=
  (C12_upload_key (testUploader ⟨false, "", false⟩) "workspace" "workspace-123"
    (testEntry "id-1" testDay)
    [testEntry "id-2" (testDay.Add (1 * Minute)), testEntry "id-3" (testDay.Add (2 * Minute))]
    0).2.1 _ rfl

set_option maxRecDepth 100000 in
/-- C13 fails on the batch of `TestUploadAuditLogs`: its key has five components, the
category and identity, `year=2024`, `month=1`, `day=15` and the file name; the
component after `day=15` is the file name and no component is an `hour=`. -/
theorem C13_counterexample :
    aws.generateS3Key "workspace" "workspace-123" (testEntry "id-1" testDay).AuditLog.Timestamp
      = "workspace=workspace-123/year=2024/month=1/day=15/audit-logs-2024-01-15_00-00-00.json.gz" ∧
    pathComponents (aws.generateS3Key "workspace" "workspace-123"
        (testEntry "id-1" testDay).AuditLog.Timestamp)
      = ["workspace=workspace-123", "year=2024", "month=1", "day=15",
          "audit-logs-2024-01-15_00-00-00.json.gz"] ∧
    ¬ ∃ c ∈ pathComponents (aws.generateS3Key "workspace" "workspace-123"
        (testEntry "id-1" testDay).AuditLog.Timestamp), "hour=".data <+: c.data := by
  decide

/-- C13, amended: the key of a batch is `{category}={identity}/` followed by exactly
four components taken from the first entry's timestamp: `year={year}`, `month={month}`,
`day={day}` and the file name `audit-logs-{timestamp}.json.gz`; the file name comes
right after the `day=` component. -/
theorem C13_key_components (category identity : String) (t : Time) :
    ∃ tail, aws.generateS3Key category identity t = category ++ "=" ++ identity ++ "/" ++ tail ∧
      pathComponents tail
        = ["year=" ++ itoa t.Year, "month=" ++ itoa t.Month, "day=" ++ itoa t.Day,
            "audit-logs-" ++ t.Format_2006_01_02_15_04_05 ++ ".json.gz"] := by
  refine ⟨_, ?_, key_tail_components t⟩
  apply String.ext
  simp only [aws.generateS3Key, String.data_append, List.append_assoc]
  rfl

/-- C14: every `PutObject` request of `UploadAuditLogs` has content type
`application/gzip`; its `ServerSideEncryption` is `aws:kms` when `UseKMS` is set and
`AES256` otherwise; `SSEKMSKeyId` is the configured key exactly when `UseKMS` is set
and the key is not empty, and unset otherwise; `BucketKeyEnabled` is `true` exactly
when `UseKMS` and `BucketKeyEnabled` are both set, and unset otherwise. -/
theorem C14_upload_encryption (u : aws.Uploader σ) (category identity : String)
    (data : List AuditLogEntry) (s : σ) (input : aws.PutObjectInput) (res : Option Error)
    (hreq : aws.Request.put input res ∈ (u.UploadAuditLogs category identity data s).requests) :
    input.ContentType = some "application/gzip" ∧
    input.ServerSideEncryption = (if u.opts.UseKMS = true then "aws:kms" else "AES256") ∧
    input.SSEKMSKeyId
      = (if u.opts.UseKMS = true ∧ u.opts.KMSKeyID ≠ "" then some u.opts.KMSKeyID else none) ∧
    input.BucketKeyEnabled
      = (if u.opts.UseKMS = true ∧ u.opts.BucketKeyEnabled = true then some true else none) := by
  rcases UploadAuditLogs_cases u category identity data s with ⟨h1, -⟩ |
    ⟨f, tl, j, c, r, -, -, -, -, h, -⟩
  · rw [h1] at hreq; simp at hreq
  · rw [h] at hreq
    simp only [List.mem_singleton, aws.Request.put.injEq] at hreq
    rw [hreq.1]
    obtain ⟨-, -, -, h4, h5, h6, h7⟩ := uploadInput_fields u
      (aws.generateS3Key category identity f.AuditLog.Timestamp) c
    exact ⟨h4, h5, h6, h7⟩

set_option maxRecDepth 100000 in
/-- C14 on the uploader of the KMS tests, with a key and the bucket key enabled. -/
theorem C14_upload_encryption_witness :
    (aws.uploadInput (testUploader ⟨true, kmsKey, true⟩)
        (aws.generateS3Key "workspace" "workspace-123" testDay) "id-1,id-2,id-3").ContentType
      = some "application/gzip" ∧
    (aws.uploadInput (testUploader ⟨true, kmsKey, true⟩)
        (aws.generateS3Key "workspace" "workspace-123" testDay)
        "id-1,id-2,id-3").ServerSideEncryption
      = (if (testUploader ⟨true, kmsKey, true⟩).opts.UseKMS = true then "aws:kms" else "AES256") ∧
    (aws.uploadInput (testUploader ⟨true, kmsKey, true⟩)
        (aws.generateS3Key "workspace" "workspace-123" testDay) "id-1,id-2,id-3").SSEKMSKeyId
      = (if (testUploader ⟨true, kmsKey, true⟩).opts.UseKMS = true
            ∧ (testUploader ⟨true, kmsKey, true⟩).opts.KMSKeyID ≠ ""
          then some (testUploader ⟨true, kmsKey, true⟩).opts.KMSKeyID else none) ∧
    (aws.uploadInput (testUploader ⟨true, kmsKey, true⟩)
        (aws.generateS3Key "workspace" "workspace-123" testDay) "id-1,id-2,id-3").BucketKeyEnabled
      = (if (testUploader ⟨true, kmsKey, true⟩).opts.UseKMS = true
            ∧ (testUploader ⟨true, kmsKey, true⟩).opts.BucketKeyEnabled = true
          then some true else none) :=
  C14_upload_encryption (testUploader ⟨true, kmsKey, true⟩) "workspace" "workspace-123" testData 0
    (aws.uploadInput (testUploader ⟨true, kmsKey, true⟩)
      (aws.generateS3Key "workspace" "workspace-123" testDay) "id-1,id-2,id-3") none
    (List.mem_singleton.2 rfl)

set_option maxRecDepth 100000 in
/-- C15: with `UseKMS` set, a key ID and `BucketKeyEnabled` set, the one request of
`SaveCheckpoint` goes to `workspace=test-workspace/checkpoint.json` with
`ServerSideEncryption` `AES256`, not `aws:kms`, and with `SSEKMSKeyId` and
`BucketKeyEnabled` unset, while `UploadAuditLogs` of the same uploader sets all three
from the options. -/
theorem C15_save_checkpoint_encryption :
    ((testUploader ⟨true, kmsKey, true⟩).SaveCheckpoint ⟨"kms-cursor", testTime⟩ "workspace"
        "test-workspace" 0).requests
      = [aws.Request.put
          { Bucket := some "test-bucket"
            Key := some "workspace=test-workspace/checkpoint.json"
            Body := "kms-cursor"
            ContentType := some "application/json"
            ServerSideEncryption := "AES256"
            SSEKMSKeyId := none
            BucketKeyEnabled := none } none] ∧
    ((testUploader ⟨true, kmsKey, true⟩).UploadAuditLogs "workspace" "test-workspace" testData
        0).requests
      = [aws.Request.put
          { Bucket := some "test-bucket"
            Key := some "workspace=test-workspace/year=2024/month=1/day=15/audit-logs-2024-01-15_00-00-00.json.gz"
            Body := "id-1,id-2,id-3"
            ContentType := some "application/gzip"
            ServerSideEncryption := "aws:kms"
            SSEKMSKeyId := some kmsKey
            BucketKeyEnabled := some true } none] := by
  constructor <;> rfl

/-- C16: `LoadCheckpoint` makes one `GetObject` request, for the key
`{category}={identity}/checkpoint.json` of the bucket. It answers no checkpoint and no
error exactly when that request fails with `NoSuchKey`; for every other failure of the
request it answers the error `error reading checkpoint from S3: ...`; for a body that
does not unmarshal it answers the error `error unmarshaling checkpoint: ...`; for a
body that cannot be read, the error `error reading checkpoint body: ...`; and a body
that unmarshals is answered as the checkpoint. -/
theorem C16_load_checkpoint (u : aws.Uploader σ) (category identity : String) (s : σ) :
    (u.LoadCheckpoint category identity s).requests
      = [aws.Request.get ⟨some u.bucket, some (category ++ "=" ++ identity ++ "/checkpoint.json")⟩
          (u.client.GetObject
            ⟨some u.bucket, some (category ++ "=" ++ identity ++ "/checkpoint.json")⟩ s).1] ∧
    ((u.LoadCheckpoint category identity s).ending = .returned (.ok none) ↔
      ∃ err, (u.client.GetObject
          ⟨some u.bucket, some (category ++ "=" ++ identity ++ "/checkpoint.json")⟩ s).1 = .error err ∧
        err.noSuchKey = true) ∧
    (∀ err, (u.client.GetObject
          ⟨some u.bucket, some (category ++ "=" ++ identity ++ "/checkpoint.json")⟩ s).1 = .error err →
        err.noSuchKey = false →
      (u.LoadCheckpoint category identity s).ending
        = .returned (.error ("error reading checkpoint from S3: " ++ err.message))) ∧
    (∀ data err, (u.client.GetObject
          ⟨some u.bucket, some (category ++ "=" ++ identity ++ "/checkpoint.json")⟩ s).1
          = .ok (.ok data) →
        u.codec.unmarshalCheckpoint data = .error err →
      (u.LoadCheckpoint category identity s).ending
        = .returned (.error ("error unmarshaling checkpoint: " ++ err))) ∧
    (∀ err, (u.client.GetObject
          ⟨some u.bucket, some (category ++ "=" ++ identity ++ "/checkpoint.json")⟩ s).1
          = .ok (.error err) →
      (u.LoadCheckpoint category identity s).ending
        = .returned (.error ("error reading checkpoint body: " ++ err))) ∧
    (∀ data cp, (u.client.GetObject
          ⟨some u.bucket, some (category ++ "=" ++ identity ++ "/checkpoint.json")⟩ s).1
          = .ok (.ok data) →
        u.codec.unmarshalCheckpoint data = .ok cp →
      (u.LoadCheckpoint category identity s).ending = .returned (.ok (some cp))) := by
  unfold aws.Uploader.LoadCheckpoint
  rw [checkpoint_key_eq]
  rcases hg : u.client.GetObject
    ⟨some u.bucket, some (category ++ "=" ++ identity ++ "/checkpoint.json")⟩ s with ⟨res, s1⟩
  cases res with
  | error err =>
    by_cases hn : err.noSuchKey = true
    · simp [hg, hn]
    · simp [hg, hn]
  | ok body =>
    cases body with
    | error err => simp [hg]
    | ok data =>
      rcases hu : u.codec.unmarshalCheckpoint data with err | cp
      · simp only [hg, hu, true_and, aws.Ending.returned.injEq, reduceCtorEq, false_iff,
          not_exists, not_and, Except.ok.injEq, Except.error.injEq, forall_eq', IsEmpty.forall_iff,
          implies_true, and_true]
        refine ⟨?_, ?_⟩
        · intro d e hd he
          rw [← hd, hu] at he
          cases he
          rfl
        · intro d cp hd he
          rw [← hd, hu] at he
          cases he
      · simp only [hg, hu, true_and, aws.Ending.returned.injEq, reduceCtorEq, false_iff,
          not_exists, not_and, Except.ok.injEq, Except.error.injEq, forall_eq', IsEmpty.forall_iff,
          implies_true, and_true]
        refine ⟨?_, ?_⟩
        · intro d e hd he
          rw [← hd, hu] at he
          cases he
        · intro d cp' hd he
          rw [← hd, hu] at he
          cases he
          rfl

set_option maxRecDepth 100000 in
/-- C16 on the test `returns error on S3 error`. -/
theorem C16_load_checkpoint_witness :
    ((testLoader (.error ⟨false, "S3 connection error"⟩)).LoadCheckpoint "workspace"
        "test-workspace" 0).ending
      = .returned (.error ("error reading checkpoint from S3: "
          ++ (aws.GetError.mk false "S3 connection error").message)) :=
  (C16_load_checkpoint (testLoader (.error ⟨false, "S3 connection error"⟩)) "workspace"
    "test-workspace" 0).2.2.1 ⟨false, "S3 connection error"⟩ rfl rfl

/-- C17: for every identity, cursor and limit, the workspace service asks the client
for endpoint `/owners/{id}/audit-logs` and reports type `workspace`, the organization
service asks for `/organizations/{id}/audit-logs` and reports type `organization`, and
both hand cursor and limit to the client unchanged and answer what the client answers. -/
theorem C17_service_endpoints (client : auditlogs.RenderClient σ) (id cursor : String)
    (limit : Int) (s : σ) :
    (auditlogs.NewWorkspaceSvc client).Get id cursor limit s
      = client.GetAuditLogs ("/owners/" ++ id ++ "/audit-logs") cursor limit s ∧
    (auditlogs.NewWorkspaceSvc client).logType = "workspace" ∧
    (auditlogs.NewOrganizationSvc client).Get id cursor limit s
      = client.GetAuditLogs ("/organizations/" ++ id ++ "/audit-logs") cursor limit s ∧
    (auditlogs.NewOrganizationSvc client).logType = "organization" :=
  ⟨rfl, rfl, rfl, rfl⟩

/-- C19: for a fixed category and identity, `generateS3Key` gives two timestamps the
same key if and only if they render the same year, month, day, hour, minute and second;
so two timestamps in the same second with the same zone offset get the same key, and
two that differ in one of the six fields get different keys. -/
theorem C19_key_collision (category identity : String) (t1 t2 : Time) :
    (aws.generateS3Key category identity t1 = aws.generateS3Key category identity t2 ↔
      t1.Year = t2.Year ∧ t1.Month = t2.Month ∧ t1.Day = t2.Day ∧
        t1.Hour = t2.Hour ∧ t1.Minute = t2.Minute ∧ t1.Second = t2.Second) ∧
    (t1.offset = t2.offset → t1.unixNano / 1000000000 = t2.unixNano / 1000000000 →
      aws.generateS3Key category identity t1 = aws.generateS3Key category identity t2) ∧
    ((t1.Year ≠ t2.Year ∨ t1.Month ≠ t2.Month ∨ t1.Day ≠ t2.Day ∨
        t1.Hour ≠ t2.Hour ∨ t1.Minute ≠ t2.Minute ∨ t1.Second ≠ t2.Second) →
      aws.generateS3Key category identity t1 ≠ aws.generateS3Key category identity t2) := by
  have fields : t1.Year = t2.Year ∧ t1.Month = t2.Month ∧ t1.Day = t2.Day ∧
        t1.Hour = t2.Hour ∧ t1.Minute = t2.Minute ∧ t1.Second = t2.Second →
      aws.generateS3Key category identity t1 = aws.generateS3Key category identity t2 := by
    rintro ⟨h1, h2, h3, h4, h5, h6⟩
    rw [generateS3Key_eq, generateS3Key_eq, h1, h2, h3, h4, h5, h6]
  refine ⟨⟨generateS3Key_inj category identity t1 t2, fields⟩, ?_, ?_⟩
  · intro ho hs
    apply fields
    simp only [Time.Year, Time.Month, Time.Day, Time.Hour, Time.Minute, Time.Second,
      Time.localDays, Time.secondOfDay, ho, hs, and_self]
  · intro hne heq
    obtain ⟨h1, h2, h3, h4, h5, h6⟩ := generateS3Key_inj category identity t1 t2 heq
    rcases hne with h | h | h | h | h | h
    · exact h h1
    · exact h h2
    · exact h h3
    · exact h h4
    · exact h h5
    · exact h h6

set_option maxRecDepth 100000 in
/-- C19 on two timestamps of the same second, 2024-01-15T10:30:45Z and a quarter of a
second later. -/
theorem C19_key_collision_witness :
    aws.generateS3Key "workspace" "workspace-123" testTime
      = aws.generateS3Key "workspace" "workspace-123" (testTime.Add 250000000) :=
  (C19_key_collision "workspace" "workspace-123" testTime (testTime.Add 250000000)).2.1
    (by decide) (by decide)

set_option maxRecDepth 100000 in
/-- C18 fails on the page of the entry stamped 2024-01-01T23:30:00-05:00 followed by an
entry stamped 2024-01-03T12:00:00Z: the initial anchor `A` is 2024-01-01T00:00:00Z, the
second entry is later than `A + 24h`, as the claim asks of entry 1, and no upload fails,
yet `processPage` makes three uploads for the two entries, the first of them the empty
slice, because the first entry is itself later than `A + 24h`. -/
theorem C18_counterexample :
    (anchorOf offsetEntry).unixNano + 1 * (24 * Hour) < lateEntry.AuditLog.Timestamp.unixNano ∧
    (anchorOf offsetEntry).unixNano + 24 * Hour < offsetEntry.AuditLog.Timestamp.unixNano ∧
    (processPage (testProcessor [offsetEntry, lateEntry] none none) "workspace-123" "0"
        testStart).calls
      = [Call.fetch "workspace-123" "0" pageSize (.ok [offsetEntry, lateEntry]),
         Call.upload "workspace" "workspace-123" [] (.ok "s3://bucket/key"),
         Call.upload "workspace" "workspace-123" [offsetEntry] (.ok "s3://bucket/key"),
         Call.upload "workspace" "workspace-123" [lateEntry] (.ok "s3://bucket/key")] ∧
    uploads (uploadWindows (testProcessor [offsetEntry, lateEntry] none none) "workspace-123"
        offsetEntry [offsetEntry, lateEntry] testStart).calls
      = [[], [offsetEntry], [lateEntry]] ∧
    (uploads (uploadWindows (testProcessor [offsetEntry, lateEntry] none none) "workspace-123"
        offsetEntry [offsetEntry, lateEntry] testStart).calls).length = 3 ∧
    [offsetEntry, lateEntry].length = 2 :=
  ⟨by decide, by decide, rfl, rfl, rfl, rfl⟩

/-- C18, amended: an entry strictly later than anchor + 24h closes the window before it, and the
scan goes on with `windowStart` at that index and with the anchor moved by exactly 24
hours, whatever the timestamp of the entry. So for a page whose first entry is within
24 hours of the initial anchor `A` and whose entry `j`, for every `j ≥ 1`, is later
than `A + j * 24h`: when no upload fails, every entry is uploaded as a window of its
own, one upload per entry. The first entry of a page is within 24 hours of the initial
anchor whenever its timestamp is in UTC. -/
theorem C18_fixed_step_anchor (lp : LogProcessor σ) (id : String) (s : σ) :
    (∀ (auditLogs : List AuditLogEntry) (auditLog : AuditLogEntry) (rest : List AuditLogEntry)
        (i windowStart : Nat) (cursorDay : Time),
      cursorDay.unixNano + 24 * Hour < auditLog.AuditLog.Timestamp.unixNano →
      (cursorDay.Add (24 * Hour)).unixNano = cursorDay.unixNano + 86400000000000 ∧
      (∃ res, (windowLoop lp id auditLogs (auditLog :: rest) i windowStart cursorDay s).calls.head?
          = some (Call.upload lp.auditLogSvc.logType id (slice auditLogs windowStart i) res) ∧
        (lp.uploader.UploadAuditLogs lp.auditLogSvc.logType id (slice auditLogs windowStart i) s).1
          = res ∧
        ∀ s3URI, res = .ok s3URI →
          (windowLoop lp id auditLogs (auditLog :: rest) i windowStart cursorDay s).val
            = (windowLoop lp id auditLogs rest (i + 1) i (cursorDay.Add (24 * Hour))
                (lp.uploader.UploadAuditLogs lp.auditLogSvc.logType id
                  (slice auditLogs windowStart i) s).2).val)) ∧
    (∀ (first : AuditLogEntry) (others : List AuditLogEntry),
      first.AuditLog.Timestamp.unixNano ≤ (anchorOf first).unixNano + 24 * Hour →
      (∀ (j : Nat) (hj : j < others.length),
        (anchorOf first).unixNano + ((j : Int) + 1) * (24 * Hour)
          < (others[j]).AuditLog.Timestamp.unixNano) →
      (∀ c ∈ (uploadWindows lp id first (first :: others) s).calls, c.failed = false) →
      uploads (uploadWindows lp id first (first :: others) s).calls
          = (first :: others).map (fun e => [e]) ∧
        (uploads (uploadWindows lp id first (first :: others) s).calls).length
          = others.length + 1) ∧
    (∀ first : AuditLogEntry, first.AuditLog.Timestamp.offset = 0 →
      (anchorOf first).unixNano ≤ first.AuditLog.Timestamp.unixNano ∧
      first.AuditLog.Timestamp.unixNano < (anchorOf first).unixNano + 24 * Hour) := by
  refine ⟨?_, ?_, ?_⟩
  · intro auditLogs auditLog rest i ws cd h
    refine ⟨?_, windowLoop_close lp id auditLogs auditLog rest i ws cd s h⟩
    simp only [Time.Add, day_eq]
  · intro first others h0 hj hok
    have hw := windows_singletons first others h0 (by
      intro j hlt
      have := hj j hlt
      rw [day_eq] at this
      exact this)
    rcases uploadWindows_spec lp id first others s with ⟨-, -, h3⟩ | ⟨err, ups, data, -, h2, -, -⟩
    · rw [h3, hw]
      exact ⟨rfl, by simp⟩
    · have := hok (Call.upload lp.auditLogSvc.logType id data (.error err)) (by rw [h2]; simp)
      cases this
  · intro first h
    rw [anchorOf_utc first h, day_eq]
    omega

set_option maxRecDepth 100000 in
/-- C18 on a page of three entries, the second and third on the same UTC day, 80 and 81
hours after the midnight of the first: three uploads of one entry each. -/
theorem C18_fixed_step_anchor_witness :
    uploads (uploadWindows (testProcessor driftLogs none none) "workspace-123"
        (testEntry "id-1" testDay)
        (testEntry "id-1" testDay ::
          [testEntry "id-2" (testDay.Add (80 * Hour)), testEntry "id-3" (testDay.Add (81 * Hour))])
        testStart).calls
      = (testEntry "id-1" testDay ::
          [testEntry "id-2" (testDay.Add (80 * Hour)),
            testEntry "id-3" (testDay.Add (81 * Hour))]).map (fun e => [e]) ∧
    (uploads (uploadWindows (testProcessor driftLogs none none) "workspace-123"
        (testEntry "id-1" testDay)
        (testEntry "id-1" testDay ::
          [testEntry "id-2" (testDay.Add (80 * Hour)), testEntry "id-3" (testDay.Add (81 * Hour))])
        testStart).calls).length
      = [testEntry "id-2" (testDay.Add (80 * Hour)),
          testEntry "id-3" (testDay.Add (81 * Hour))].length + 1 :=
  (C18_fixed_step_anchor (testProcessor driftLogs none none) "workspace-123" testStart).2.1
    (testEntry "id-1" testDay)
    [testEntry "id-2" (testDay.Add (80 * Hour)), testEntry "id-3" (testDay.Add (81 * Hour))]
    (by decide) (by decide) (by decide)

set_option maxRecDepth 100000 in
/-- C20: for the page of one entry stamped 2024-01-01T23:30:00-05:00, the first slice
`processPage` passes to `UploadAuditLogs` is empty, and `UploadAuditLogs` of the
uploader, whose encoders succeed, ends on an empty slice in the panic of `data[0]`
without a request; the whole page follows as second slice. -/
theorem C20_empty_slice_uploaded :
    (processPage (testProcessor [offsetEntry] none none) "workspace-123" "" testStart).calls
      = [Call.fetch "workspace-123" "" pageSize (.ok [offsetEntry]),
         Call.upload "workspace" "workspace-123" [] (.ok "s3://bucket/key"),
         Call.upload "workspace" "workspace-123" [offsetEntry] (.ok "s3://bucket/key")] ∧
    ((testUploader ⟨false, "", false⟩).UploadAuditLogs "workspace" "workspace-123" [] 0).ending
      = .indexOutOfRange ∧
    ((testUploader ⟨false, "", false⟩).UploadAuditLogs "workspace" "workspace-123" [] 0).requests
      = [] := by
  refine ⟨rfl, rfl, rfl⟩

set_option maxRecDepth 100000 in
/-- C11 fails on two lists of one entry served by the mock source of the tests, in runs
in which no call fails. The entry stamped 2024-01-01T23:30:00-05:00 lies on the UTC day
2024-01-02, yet the run from the checkpoint `"0"` makes two uploads, the empty slice and
then the page, not `ceil(1/1000) = 1`. The entry whose cursor is the empty string is
never served to a run that starts without a checkpoint: that run makes no upload and
saves no checkpoint. -/
theorem C11_counterexample :
    (([offsetEntry].map (fun e => e.Cursor)).Nodup ∧
      19724 * 86400000000000 ≤ offsetEntry.AuditLog.Timestamp.unixNano ∧
      offsetEntry.AuditLog.Timestamp.unixNano < (19724 + 1) * 86400000000000 ∧
      ((mockAuditLogService [offsetEntry] "workspace" none).Get "workspace-123" "0" pageSize
          testStart).1 = .ok (servedPage [offsetEntry] "0") ∧
      (∀ c ∈ (Process (testProcessor [offsetEntry] none none) "workspace-123" 2 testStart).trace,
        c.failed = false) ∧
      (Process (testProcessor [offsetEntry] none none) "workspace-123" 2 testStart).outcome
        = .returned none ∧
      uploads (Process (testProcessor [offsetEntry] none none) "workspace-123" 2 testStart).trace
        = [[], [offsetEntry]] ∧
      ([offsetEntry].length + 999) / 1000 = 1) ∧
    ((emptyCursorLogs.map (fun e => e.Cursor)).Nodup ∧
      (∀ e ∈ emptyCursorLogs, e.AuditLog.Timestamp.offset = 0 ∧
        19737 * 86400000000000 ≤ e.AuditLog.Timestamp.unixNano ∧
        e.AuditLog.Timestamp.unixNano < (19737 + 1) * 86400000000000) ∧
      ((mockAuditLogService emptyCursorLogs "workspace" none).Get "workspace-123" "" pageSize
          freshStart).1 = .ok (servedPage emptyCursorLogs "") ∧
      (∀ c ∈ (Process (testProcessor emptyCursorLogs none none) "workspace-123" 2
          freshStart).trace, c.failed = false) ∧
      (Process (testProcessor emptyCursorLogs none none) "workspace-123" 2 freshStart).outcome
        = .returned none ∧
      uploads (Process (testProcessor emptyCursorLogs none none) "workspace-123" 2
          freshStart).trace = [] ∧
      saves (Process (testProcessor emptyCursorLogs none none) "workspace-123" 2
          freshStart).trace = [] ∧
      (emptyCursorLogs.length + 999) / 1000 = 1) :=
  ⟨⟨by decide, by decide, by decide, rfl, by decide, rfl, rfl, rfl⟩,
    ⟨by decide, by decide, rfl, by decide, rfl, rfl, rfl, rfl⟩⟩

/-- C11, amended: let `entries` be N ≥ 1 entries with pairwise distinct cursors, all stamped in UTC
on one UTC day, and let the source answer every fetch with at most 1000 of them strictly
after the requested cursor (from the start when the cursor matches no entry). In a run
of `Process` whose start cursor, that of the loaded checkpoint or else the empty string,
is the cursor of no entry, in which no collaborator call fails and the loop is given
more than ceil(N/1000) iterations, the fetched pages are ceil(N/1000)
non-empty pages of at most 1000 entries that make up `entries`, then the empty page;
the slices passed to `UploadAuditLogs` are exactly these non-empty pages, one whole page
per upload; `Process` returns `nil`, with this fuel and any larger one; and
`SaveCheckpoint` is called once, with the cursor and the timestamp of entry N. -/
theorem C11_one_upload_per_page (lp : LogProcessor σ) (id : String) (fuel : Nat) (s s1 : σ)
    (checkpoint : Option Checkpoint) (entries : List AuditLogEntry) (last : AuditLogEntry)
    (day : Int)
    (hlast : entries.getLast? = some last)
    (hnd : (entries.map (fun e => e.Cursor)).Nodup)
    (hday : ∀ e ∈ entries, e.AuditLog.Timestamp.offset = 0 ∧
      day * 86400000000000 ≤ e.AuditLog.Timestamp.unixNano ∧
      e.AuditLog.Timestamp.unixNano < (day + 1) * 86400000000000)
    (hsrc : ∀ cursor s',
      (lp.auditLogSvc.Get id cursor pageSize s').1 = .ok (servedPage entries cursor))
    (hload : lp.uploader.LoadCheckpoint lp.auditLogSvc.logType id s = (.ok checkpoint, s1))
    (hstart : ∀ e ∈ entries, e.Cursor ≠ startCursor checkpoint)
    (hok : ∀ c ∈ (Process lp id fuel s).trace, c.failed = false)
    (hfuel : (entries.length + 999) / 1000 < fuel) :
    ∃ ps,
      pages (Process lp id fuel s).trace = ps ++ [[]] ∧
      uploads (Process lp id fuel s).trace = ps ∧
      (uploads (Process lp id fuel s).trace).length = (entries.length + 999) / 1000 ∧
      ps.flatten = entries ∧
      (∀ p ∈ ps, p ≠ [] ∧ p.length ≤ 1000) ∧
      (Process lp id fuel s).outcome = .returned none ∧
      saves (Process lp id fuel s).trace = [⟨last.Cursor, last.AuditLog.Timestamp⟩] ∧
      ∀ n, fuel ≤ n → Process lp id n s = Process lp id fuel s := by
  obtain ⟨ps, hp1, hp2, hp3, hp4⟩ :=
    Process_served lp id fuel s s1 checkpoint entries hnd hsrc hload hstart hok hfuel
  have hT := Process_trace lp id fuel s
  have hups : uploads (Process lp id fuel s).trace = ps := by
    rw [hT.uploads_windows hok, hp1]
    apply windows_of_whole_pages
    intro p hp
    exact windows_same_day day p (hp4 p hp).1 (fun e he => hday e ((hp4 p hp).2.2 e he))
  have hempty : [] ∈ pages (Process lp id fuel s).trace := by
    rw [hp1]
    simp
  have hps : ps ≠ [] := by
    intro hnil
    rw [hnil] at hp2
    rw [← hp2] at hlast
    simp at hlast
  have hne : ∃ p ∈ pages (Process lp id fuel s).trace, p ≠ [] := by
    obtain ⟨p, ps', rfl⟩ := List.exists_cons_of_ne_nil hps
    exact ⟨p, by rw [hp1]; simp, (hp4 p (List.mem_cons_self _ _)).1⟩
  obtain ⟨ps', page, last', h1, _, h3, h4, _⟩ := hT.checkpoint hok hempty hne
  have hlast' : last' = last := by
    have e1 : ps ++ [[]] = (ps' ++ [page ++ [last']]) ++ [[]] := by
      rw [← hp1, h1]
      simp
    have e2 : ps = ps' ++ [page ++ [last']] := List.append_cancel_right e1
    have e3 : entries = (ps'.flatten ++ page) ++ [last'] := by
      rw [← hp2, e2]
      simp
    rw [e3, List.getLast?_concat] at hlast
    injection hlast
  refine ⟨ps, hp1, hups, by rw [hups, hp3], hp2, fun p hp => ⟨(hp4 p hp).1, (hp4 p hp).2.1⟩,
    h3, by rw [h4, hlast'], ?_⟩
  exact Process_stable lp id fuel s (by rw [h3]; intro h; cases h)

set_option maxRecDepth 100000 in
/-- C11 on ten entries of one day served by the mock source of the tests. -/
theorem C11_one_upload_per_page_witness :
    ∃ ps,
      pages (Process (testProcessor tenLogs none none) "workspace-123" 2 testStart).trace
        = ps ++ [[]] ∧
      uploads (Process (testProcessor tenLogs none none) "workspace-123" 2 testStart).trace = ps ∧
      (uploads (Process (testProcessor tenLogs none none) "workspace-123" 2 testStart).trace).length
        = (tenLogs.length + 999) / 1000 ∧
      ps.flatten = tenLogs ∧
      (∀ p ∈ ps, p ≠ [] ∧ p.length ≤ 1000) ∧
      (Process (testProcessor tenLogs none none) "workspace-123" 2 testStart).outcome
        = .returned none ∧
      saves (Process (testProcessor tenLogs none none) "workspace-123" 2 testStart).trace
        = [⟨(testEntry "id-10" (testDay.Add (9 * Minute))).Cursor,
            (testEntry "id-10" (testDay.Add (9 * Minute))).AuditLog.Timestamp⟩] ∧
      ∀ n, 2 ≤ n → Process (testProcessor tenLogs none none) "workspace-123" n testStart
        = Process (testProcessor tenLogs none none) "workspace-123" 2 testStart :=
  C11_one_upload_per_page (testProcessor tenLogs none none) "workspace-123" 2 testStart testStart
    (some ⟨"0", zeroTime⟩) tenLogs (testEntry "id-10" (testDay.Add (9 * Minute))) 19737
    (by decide) (by decide) (by decide)
    (fun cursor s' => mock_serves tenLogs "workspace" "workspace-123" cursor pageSize s')
    rfl (by decide) (by decide) (by decide)

/-- C21: for a fetched page whose timestamps are in UTC and do not decrease with the
index, every slice `processPage` passes to `UploadAuditLogs` is non-empty, its first
entry is not later than its last and the last is at most 24 hours later than the first
(so are any two of its entries); the first slice lies within `[A, A + 24h]` for the
initial anchor `A`, and slice number `k ≥ 1` with two or more entries lies within
`(A + k * 24h, A + (k + 1) * 24h]`. -/
theorem C21_window_within_a_day (lp : LogProcessor σ) (id cursor : String) (s s1 : σ)
    (first : AuditLogEntry) (tl : List AuditLogEntry)
    (hget : lp.auditLogSvc.Get id cursor pageSize s = (.ok (first :: tl), s1))
    (hutc : ∀ e ∈ first :: tl, e.AuditLog.Timestamp.offset = 0)
    (hsorted : (first :: tl).Pairwise
      (fun a b => a.AuditLog.Timestamp.unixNano ≤ b.AuditLog.Timestamp.unixNano))
    (k : Nat) (w : List AuditLogEntry)
    (hw : (uploads (processPage lp id cursor s).calls)[k]? = some w) :
    (∃ f l, w.head? = some f ∧ w.getLast? = some l ∧
      f.AuditLog.Timestamp.unixNano ≤ l.AuditLog.Timestamp.unixNano ∧
      l.AuditLog.Timestamp.unixNano - f.AuditLog.Timestamp.unixNano ≤ 24 * Hour) ∧
    (∀ a ∈ w, ∀ b ∈ w,
      b.AuditLog.Timestamp.unixNano - a.AuditLog.Timestamp.unixNano ≤ 24 * Hour) ∧
    (k = 0 → ∀ e ∈ w, (anchorOf first).unixNano ≤ e.AuditLog.Timestamp.unixNano ∧
      e.AuditLog.Timestamp.unixNano ≤ (anchorOf first).unixNano + 24 * Hour) ∧
    (1 ≤ k → 2 ≤ w.length → ∀ e ∈ w,
      (anchorOf first).unixNano + (k : Int) * (24 * Hour) < e.AuditLog.Timestamp.unixNano ∧
      e.AuditLog.Timestamp.unixNano ≤ (anchorOf first).unixNano + ((k : Int) + 1) * (24 * Hour)) := by
  have hcalls : (processPage lp id cursor s).calls
      = Call.fetch id cursor pageSize (.ok (first :: tl))
          :: (uploadWindows lp id first (first :: tl) s1).calls := by
    simp [processPage, hget]
  have hu : uploads (processPage lp id cursor s).calls
      = uploads (uploadWindows lp id first (first :: tl) s1).calls := by
    rw [hcalls]
    rfl
  rw [hu] at hw
  have hw' := getElem?_of_initial_segment (uploadWindows_uploads lp id first tl s1).1 k w hw
  obtain ⟨hne, hws, hany, hk0, hk1⟩ :=
    windows_spans first tl (hutc first (List.mem_cons_self _ _)) hsorted k w hw'
  rw [day_eq]
  refine ⟨?_, ?_, hk0, hk1⟩
  · cases w with
    | nil => exact absurd rfl hne
    | cons f t =>
      have hl : (f :: t).getLast (by simp) ∈ f :: t := List.getLast_mem _
      refine ⟨f, (f :: t).getLast (by simp), rfl, List.getLast?_eq_getLast _ _, ?_, ?_⟩
      · rcases List.mem_cons.1 hl with h | h
        · rw [h]
        · exact (List.pairwise_cons.1 hws).1 _ h
      · have := hany f (List.mem_cons_self _ _) _ hl
        omega
  · intro a ha b hb
    have := hany a ha b hb
    omega

set_option maxRecDepth 100000 in
/-- C21 on the page of the test `MultipleDays`: its second slice, the entries stamped
00:01 and 00:02 of the second day. -/
theorem C21_window_within_a_day_witness :
    (∃ f l,
      [testEntry "id-5" (testDay.Add (1 * Minute)), testEntry "id-6" (testDay.Add (2 * Minute))].head?
        = some f ∧
      [testEntry "id-5" (testDay.Add (1 * Minute)),
        testEntry "id-6" (testDay.Add (2 * Minute))].getLast? = some l ∧
      f.AuditLog.Timestamp.unixNano ≤ l.AuditLog.Timestamp.unixNano ∧
      l.AuditLog.Timestamp.unixNano - f.AuditLog.Timestamp.unixNano ≤ 24 * Hour) ∧
    (∀ a ∈ [testEntry "id-5" (testDay.Add (1 * Minute)),
        testEntry "id-6" (testDay.Add (2 * Minute))],
      ∀ b ∈ [testEntry "id-5" (testDay.Add (1 * Minute)),
        testEntry "id-6" (testDay.Add (2 * Minute))],
      b.AuditLog.Timestamp.unixNano - a.AuditLog.Timestamp.unixNano ≤ 24 * Hour) ∧
    (1 = 0 → ∀ e ∈ [testEntry "id-5" (testDay.Add (1 * Minute)),
        testEntry "id-6" (testDay.Add (2 * Minute))],
      (anchorOf (testEntry "id-1" testDayBefore)).unixNano ≤ e.AuditLog.Timestamp.unixNano ∧
      e.AuditLog.Timestamp.unixNano
        ≤ (anchorOf (testEntry "id-1" testDayBefore)).unixNano + 24 * Hour) ∧
    (1 ≤ 1 →
      2 ≤ [testEntry "id-5" (testDay.Add (1 * Minute)),
        testEntry "id-6" (testDay.Add (2 * Minute))].length →
      ∀ e ∈ [testEntry "id-5" (testDay.Add (1 * Minute)),
        testEntry "id-6" (testDay.Add (2 * Minute))],
      (anchorOf (testEntry "id-1" testDayBefore)).unixNano + ((1 : Nat) : Int) * (24 * Hour)
        < e.AuditLog.Timestamp.unixNano ∧
      e.AuditLog.Timestamp.unixNano
        ≤ (anchorOf (testEntry "id-1" testDayBefore)).unixNano
          + (((1 : Nat) : Int) + 1) * (24 * Hour)) :=
  C21_window_within_a_day (testProcessor multipleDaysLogs none none) "workspace-123" "0"
    testStart testStart (testEntry "id-1" testDayBefore)
    ([testEntry "id-2" (testDayBefore.Add (1 * Minute)),
      testEntry "id-3" (testDayBefore.Add (2 * Minute))]
      ++ CreateTestAuditLogs ["id-4", "id-5", "id-6"] testDay)
    rfl (by decide) (by decide) 1
    [testEntry "id-5" (testDay.Add (1 * Minute)), testEntry "id-6" (testDay.Add (2 * Minute))]
    rfl

set_option maxRecDepth 100000 in
/-- C22 fails for a list that holds an entry whose cursor is the empty string: a run
without a checkpoint asks for what follows the cursor `""`, the source finds that cursor
on the one entry of the list and answers what follows it, the empty page. The run makes
one fetch, not `ceil(1/1000) + 1 = 2`, with any fuel, and uploads nothing. -/
theorem C22_counterexample :
    (emptyCursorLogs.map (fun e => e.Cursor)).Nodup ∧
    emptyCursorLogs.length = 1 ∧
    ((mockAuditLogService emptyCursorLogs "workspace" none).Get "workspace-123" "" pageSize
        freshStart).1 = .ok (servedPage emptyCursorLogs "") ∧
    servedPage emptyCursorLogs "" = [] ∧
    (Process (testProcessor emptyCursorLogs none none) "workspace-123" 2 freshStart).trace
      = [Call.load "workspace" "workspace-123" (.ok none),
         Call.fetch "workspace-123" "" pageSize (.ok [])] ∧
    (Process (testProcessor emptyCursorLogs none none) "workspace-123" 2 freshStart).outcome
      = .returned none ∧
    (fetchCalls
      (Process (testProcessor emptyCursorLogs none none) "workspace-123" 2 freshStart).trace).length
      = 1 ∧
    (emptyCursorLogs.length + 999) / 1000 + 1 = 2 ∧
    (∀ n, 2 ≤ n → Process (testProcessor emptyCursorLogs none none) "workspace-123" n freshStart
      = Process (testProcessor emptyCursorLogs none none) "workspace-123" 2 freshStart) :=
  ⟨by decide, rfl, rfl, rfl, rfl, rfl, rfl, rfl,
    Process_stable (testProcessor emptyCursorLogs none none) "workspace-123" 2 freshStart
      (by decide)⟩

/-- C22, amended: let the source serve a list of N entries with pairwise distinct cursors,
none of them the empty string, answering every fetch with at most 1000 entries strictly
after the requested cursor (from the start when the cursor matches no entry), and let
the load answer that there is no checkpoint. With more than `ceil(N/1000)` iterations
allowed, `Process` returns, whether or not a call fails, and more fuel changes nothing.
When no call fails it returns `nil` after exactly `ceil(N/1000) + 1` fetches: the fetches
before the last answer non-empty pages of at most 1000 entries that make up the list,
and the last fetch answers the empty page. -/
theorem C22_fetch_count (lp : LogProcessor σ) (id : String) (fuel : Nat) (s s1 : σ)
    (entries : List AuditLogEntry)
    (hnd : (entries.map (fun e => e.Cursor)).Nodup)
    (hcur : ∀ e ∈ entries, e.Cursor ≠ "")
    (hsrc : ∀ cursor s',
      (lp.auditLogSvc.Get id cursor pageSize s').1 = .ok (servedPage entries cursor))
    (hload : lp.uploader.LoadCheckpoint lp.auditLogSvc.logType id s = (.ok none, s1))
    (hfuel : (entries.length + 999) / 1000 < fuel) :
    (∃ err, (Process lp id fuel s).outcome = .returned err) ∧
    (∀ n, fuel ≤ n → Process lp id n s = Process lp id fuel s) ∧
    ((∀ c ∈ (Process lp id fuel s).trace, c.failed = false) →
      (Process lp id fuel s).outcome = .returned none ∧
      (fetchCalls (Process lp id fuel s).trace).length = (entries.length + 999) / 1000 + 1 ∧
      ((fetchCalls (Process lp id fuel s).trace).map (fun f => f.res)).getLast?
        = some (.ok []) ∧
      ∃ ps : List (List AuditLogEntry), (fetchCalls (Process lp id fuel s).trace).map (fun f => f.res)
          = ps.map Except.ok ++ [.ok []] ∧
        ps.flatten = entries ∧ ∀ p ∈ ps, p ≠ [] ∧ p.length ≤ 1000) := by
  have hret := Process_served_returns lp id fuel s s1 none entries hnd hsrc hload hcur hfuel
  have hT := Process_trace lp id fuel s
  obtain ⟨err, herr⟩ : ∃ err, (Process lp id fuel s).outcome = .returned err := by
    cases ho : (Process lp id fuel s).outcome with
    | returned err => exact ⟨err, rfl⟩
    | outOfFuel => exact absurd ho hret
  refine ⟨⟨err, herr⟩, Process_stable lp id fuel s hret, fun hok => ?_⟩
  obtain ⟨ps, hp1, hp2, hp3, hp4⟩ :=
    Process_served lp id fuel s s1 none entries hnd hsrc hload hcur hok hfuel
  have hmap := fetch_answers_of_no_failure _ hok
  rw [hp1, List.map_append] at hmap
  have hnone : err = none := by
    cases err with
    | none => rfl
    | some e =>
      obtain ⟨c, hc, hf⟩ := (hT.error_iff (some e) herr).1 rfl
      rw [hok c hc] at hf
      cases hf
  refine ⟨by rw [herr, hnone], ?_, ?_, ps, hmap, hp2, fun p hp => ⟨(hp4 p hp).1, (hp4 p hp).2.1⟩⟩
  · have := congrArg List.length hmap
    simp only [List.length_map, List.length_append, List.length_singleton] at this
    rw [this, hp3]
  · rw [hmap]
    exact List.getLast?_concat _

set_option maxRecDepth 100000 in
/-- C22 on ten entries served by the mock source of the tests, from no checkpoint. -/
theorem C22_fetch_count_witness :
    (Process (testProcessor tenLogs none none) "workspace-123" 2 freshStart).outcome
      = .returned none ∧
    (fetchCalls (Process (testProcessor tenLogs none none) "workspace-123" 2 freshStart).trace).length
      = (tenLogs.length + 999) / 1000 + 1 ∧
    ((fetchCalls (Process (testProcessor tenLogs none none) "workspace-123" 2
        freshStart).trace).map (fun f => f.res)).getLast? = some (.ok []) ∧
    ∃ ps : List (List AuditLogEntry), (fetchCalls (Process (testProcessor tenLogs none none) "workspace-123" 2
          freshStart).trace).map (fun f => f.res)
        = ps.map Except.ok ++ [.ok []] ∧
      ps.flatten = tenLogs ∧ ∀ p ∈ ps, p ≠ [] ∧ p.length ≤ 1000 :=
  (C22_fetch_count (testProcessor tenLogs none none) "workspace-123" 2 freshStart freshStart
    tenLogs (by decide) (by decide)
    (fun cursor s' => mock_serves tenLogs "workspace" "workspace-123" cursor pageSize s')
    rfl (by decide)).2.2 (by decide)

end AuditLogs
